import Mathlib

/-!
# autofs: the NSS lookup pipeline, the master-map registry and the lookup modules

A shallow embedding of `daemon/lookup.c`, `lib/master.c`,
`modules/lookup_file.c` and of `lookup_mount` of `modules/lookup_nisplus.c`,
`modules/lookup_yp.c` and `modules/lookup_hesiod.c`.

Conventions of the embedding.

* C strings are Lean strings; `strcmp(a, b) == 0` is string equality.
* `time_t` and `int` values are `Int`.
* Side effects that leave the translation unit (opening and calling a lookup
  module, `cache_clean`, `nextstate`, starting a worker thread, releasing a map
  source) are recorded as `Event`s, in program order.
* What the environment answers (the lookup modules, `nsswitch_parse`, `fstat`)
  is a parameter `Env`.  A lookup module may answer differently at every call:
  `open_lookup` is given the events recorded so far.
* Allocation (`malloc`, `strdup`, `copy_argv`) is taken to succeed.
* What released storage holds is not determined by the program: a pointer to
  it that stays behind (`ap->mapargv[0]` after the `files` branch of
  `lookup.c`) reads as the text the environment gives (`Env.released`), and the
  `free` is among the events.
* The pthread mutex calls are not part of the data-level model below, except
  for the calls on `master_mutex` along `master_read_master`, which are
  recorded as `mutex_call`s, and for the lock of `master_mutex` in
  `master_add_map_source` and `master_find_map_source`.
* In the file module the map file is the list of characters left in the
  stream, its calls are recorded as `file_call`s and its environment is a
  parameter `file_env`; a result `none` stands for a run the C code leaves
  undefined.
-/

namespace Autofs

/-! ## Declarations of `nsswitch.h` and `automount.h` -/

/-- Modelled from the spec: `enum nsswitch_status` of `nsswitch.h` (the header is
not among the sources).  The four statuses a lookup module answers with, which
are also the indices of `nss_source.action`; `NSS_STATUS_MAX` is their number. -/
inductive nsswitch_status where
  | NSS_STATUS_SUCCESS
  | NSS_STATUS_NOTFOUND
  | NSS_STATUS_UNAVAIL
  | NSS_STATUS_TRYAGAIN
  deriving DecidableEq, Repr

/-- Modelled from the spec: `enum nsswitch_action` of `nsswitch.h`. -/
inductive nsswitch_action where
  | NSS_ACTION_UNKNOWN
  | NSS_ACTION_CONTINUE
  | NSS_ACTION_RETURN
  deriving DecidableEq, Repr

/-- Modelled from the spec: `struct nss_action` of `nsswitch.h`, an action kind
and its negation flag. -/
structure nss_action where
  action : nsswitch_action
  negated : Bool
  deriving DecidableEq, Repr

/-- Modelled from the spec: `struct nss_source` of `nsswitch.h`, a source name
with one action slot per status (`action[NSS_STATUS_MAX]`). -/
structure nss_source where
  source : String
  action : nsswitch_status → nss_action

/-- Modelled from the spec: `enum states` of `automount.h`, the states of the
mount-point state machine. -/
inductive states where
  | ST_INVAL
  | ST_INIT
  | ST_READY
  | ST_EXPIRE
  | ST_PRUNE
  | ST_READMAP
  | ST_SHUTDOWN_PENDING
  | ST_SHUTDOWN_FORCE
  | ST_SHUTDOWN
  deriving DecidableEq, Repr

/-- The fields of `struct autofs_point` that `lookup.c` and `master.c` read or
write.  `mapargv` carries `mapargc` as its length, `state_pipe` is the pair of
descriptors `state_pipe[0]`, `state_pipe[1]`, and `submounts` is the list of the
points linked on `ap->submounts`. -/
structure autofs_point where
  path : String
  maptype : Option String
  mapfmt : Option String
  mapargv : List String
  ghost : Nat
  type : Nat
  state : states
  state_pipe : Int × Int
  submounts : List autofs_point

/-- Calls that leave `lookup.c` and `master.c`, in the order they are made.
`free path` is the `free(path)` of the `files` branch of `lookup.c`, `path`
being the text the released storage held. -/
inductive Event where
  | open_lookup (type : String) (mapfmt : Option String) (mapargv : List String)
  | lookup_read_map (type : String) (mapargv : List String) (age : Int)
  | lookup_mount (type : String) (mapargv : List String) (name : String) (name_len : Int)
  | free (path : String)
  | cache_clean (path : String) (age : Int)
  | cache_init (path : String)
  | nextstate (statefd : Int) (next : states)
  | handle_mounts (path : String)
  | master_free_map_source (type : Option String) (format : Option String) (argv : List String)
  deriving DecidableEq, Repr

/-- An opened lookup module: what its `lookup_read_map` and `lookup_mount`
entry points answer. -/
structure lookup_mod where
  lookup_read_map : autofs_point → Int → nsswitch_status
  lookup_mount : autofs_point → String → Int → nsswitch_status

/-- Outcome of `fstat(2)` on a descriptor: success (return 0), or -1 with
`errno` either `EBADF` or something else. -/
inductive fstat_result where
  | ok
  | EBADF
  | other
  deriving DecidableEq, Repr

/-- The environment of the daemon core.

* `open_lookup log type mapfmt mapargv`: the module `open_lookup` hands back
  after the events `log`, or `none` when it fails.
* `nsswitch_parse`: the parsed `automount` source list, or `none` when
  `nsswitch_parse` returns non-zero.
* `fstat`: the outcome of `fstat` on a descriptor; the descriptor table does
  not change during one call of a function of `master.c`.
* `pthread_create`: the thread id given to the worker started for a path.
* `released path`: the text that the storage of the string `path` reads as once
  `free` has released it; C leaves the content of released storage open. -/
structure Env where
  open_lookup : List Event → String → Option String → List String → Option lookup_mod
  nsswitch_parse : Option (List nss_source)
  fstat : Int → fstat_result
  pthread_create : String → Nat
  released : String → String

/-! ## `daemon/lookup.c` -/

/-- The statuses in the order of `for (status = 0; status < NSS_STATUS_MAX; status++)`. -/
def all_nss_status : List nsswitch_status :=
  [.NSS_STATUS_SUCCESS, .NSS_STATUS_NOTFOUND, .NSS_STATUS_UNAVAIL, .NSS_STATUS_TRYAGAIN]

/-- C `tolower` in the "C" locale. -/
def tolower (c : Char) : Char :=
  if 'A' ≤ c ∧ c ≤ 'Z' then Char.ofNat (c.toNat + 32) else c

/-- `strcasecmp(a, b) == 0`. -/
def strcasecmp_eq (a b : String) : Bool :=
  a.data.map tolower == b.data.map tolower

/-- `strchr(s, c) != NULL` for a character `c` other than NUL. -/
def strchr (s : String) (c : Char) : Bool :=
  s.data.contains c

/-- The string `ap->mapargv[0]`, the map name.  The C code dereferences
`mapargv[0]` unconditionally; a point without map arguments reads as the empty
name here. -/
def mapname (ap : autofs_point) : String :=
  ap.mapargv.headD ""

/-- `*ap->mapargv[0] == '/'`. -/
def mapname_is_absolute (ap : autofs_point) : Bool :=
  (mapname ap).data.head? == some '/'

/-- `this->source[4] = '\0'`: the name cut after its fourth character. -/
def truncate_source (source : String) : String :=
  String.mk (source.data.take 4)

/-- The point after `memcpy(&tmp, ap, sizeof(struct autofs_point))` and
`tmp.mapargv[0] = path`, `path` being `"/etc/"` followed by the map name.
`mapargv` points to the argument vector (it is handed to `open_lookup` next to
its length `mapargc`), so `memcpy` copies the pointer and not the vector: `tmp`
and `ap` share the vector, the write lands in `ap->mapargv[0]` as well, and
`tmp` and `ap` are the same point from there on. -/
def files_tmp (ap : autofs_point) : autofs_point :=
  { ap with mapargv := ("/etc/" ++ mapname ap) :: ap.mapargv.tail }

/-- The point that the `files` branch leaves behind.  Nothing writes the old
name back into the vector, so after `free(path)` the cell `ap->mapargv[0]`
points to released storage: it reads as whatever that storage holds. -/
def files_left (env : Env) (ap : autofs_point) : autofs_point :=
  { ap with mapargv := env.released ("/etc/" ++ mapname ap) :: ap.mapargv.tail }

/-- `do_read_map`: open the module, ask it to read the map, give its status;
`NSS_STATUS_UNAVAIL` when the module cannot be opened. -/
def do_read_map (env : Env) (ap : autofs_point) (type : String) (age : Int)
    (log : List Event) : nsswitch_status × List Event :=
  match env.open_lookup log type ap.mapfmt ap.mapargv with
  | none => (.NSS_STATUS_UNAVAIL, log ++ [.open_lookup type ap.mapfmt ap.mapargv])
  | some lookup =>
    (lookup.lookup_read_map ap age,
      log ++ [.open_lookup type ap.mapfmt ap.mapargv, .lookup_read_map type ap.mapargv age])

/-- `do_lookup_mount`: as `do_read_map`, for the `lookup_mount` entry point. -/
def do_lookup_mount (env : Env) (ap : autofs_point) (type : String) (name : String)
    (name_len : Int) (log : List Event) : nsswitch_status × List Event :=
  match env.open_lookup log type ap.mapfmt ap.mapargv with
  | none => (.NSS_STATUS_UNAVAIL, log ++ [.open_lookup type ap.mapfmt ap.mapargv])
  | some lookup =>
    (lookup.lookup_mount ap name name_len,
      log ++ [.open_lookup type ap.mapfmt ap.mapargv,
              .lookup_mount type ap.mapargv name name_len])

/-- The "negated actions" scan of the source loop, over the statuses still to
visit: `some 1` or `some 0` when a negated `RETURN` fires (`result ==
NSS_STATUS_SUCCESS` decides which), `none` when the scan ends without one. -/
def check_negated (this : nss_source) (result : nsswitch_status) :
    List nsswitch_status → Option Int
  | [] => none
  | status :: rest =>
    if (this.action status).action = .NSS_ACTION_UNKNOWN then
      check_negated this result rest
    else if (this.action status).negated = true ∧ result ≠ status then
      if (this.action status).action = .NSS_ACTION_RETURN then
        (if result = .NSS_STATUS_SUCCESS then some 1 else some 0)
      else check_negated this result rest
    else check_negated this result rest

/-- The `switch (result)` on `a = this->action[result]`: `some 1` and `some 0`
are the `return`s, `none` is `break` (go on with the next source). -/
def check_direct (this : nss_source) (result : nsswitch_status) : Option Int :=
  match result with
  | .NSS_STATUS_SUCCESS =>
    if (this.action result).action = .NSS_ACTION_CONTINUE then none else some 1
  | .NSS_STATUS_NOTFOUND | .NSS_STATUS_UNAVAIL | .NSS_STATUS_TRYAGAIN =>
    if (this.action result).action = .NSS_ACTION_RETURN then some 0 else none

/-- Action matching for one source, once its module has answered `result`:
the negated scan, then the direct action.  `some r` leaves the pipeline with
`return r`, `none` goes on to the next source. -/
def check_actions (this : nss_source) (result : nsswitch_status) : Option Int :=
  match check_negated this result all_nss_status with
  | some r => some r
  | none => check_direct this result

/-- Consulting one source in `lookup_nss_read_map`, `ap` being the point as the
sources before it have left it: `none` when the source is `files` and the map
name holds a '/' (the `return 0` before any module call), else the module
status and the events so far.  In the `files` branch the module is called on
`tmp`, then `path` is released. -/
def read_map_source (env : Env) (ap : autofs_point) (age : Int) (this : nss_source)
    (log : List Event) : Option (nsswitch_status × List Event) :=
  if strcasecmp_eq this.source "files" then
    if strchr (mapname ap) '/' then none
    else
      let r := do_read_map env (files_tmp ap) (truncate_source this.source) age log
      some (r.1, r.2 ++ [.free ("/etc/" ++ mapname ap)])
  else some (do_read_map env ap this.source age log)

/-- Consulting one source in `lookup_nss_mount`. -/
def mount_source (env : Env) (ap : autofs_point) (name : String) (name_len : Int)
    (this : nss_source) (log : List Event) : Option (nsswitch_status × List Event) :=
  if strcasecmp_eq this.source "files" then
    if strchr (mapname ap) '/' then none
    else
      let r := do_lookup_mount env (files_tmp ap) (truncate_source this.source)
        name name_len log
      some (r.1, r.2 ++ [.free ("/etc/" ++ mapname ap)])
  else some (do_lookup_mount env ap this.source name name_len log)

/-- The point as one turn of the source loop leaves it: a `files` source that
gets to its module has written `path` into `ap->mapargv[0]` and released it
(see `files_left`), every other turn leaves the point as it was. -/
def source_left (env : Env) (this : nss_source) (ap : autofs_point) : autofs_point :=
  if strcasecmp_eq this.source "files" = true ∧ strchr (mapname ap) '/' = false then
    files_left env ap
  else ap

/-- The point as the turns of the source loop for the sources `l`, in order,
leave it. -/
def sources_left (env : Env) (l : List nss_source) (ap : autofs_point) : autofs_point :=
  l.foldl (fun a this => source_left env this a) ap

/-- The `list_for_each` loop of `lookup_nss_read_map`: `some r` when the loop is
left by `return r`, `none` when the list is exhausted.  Every `return 1` of the
loop is preceded by `cache_clean(ap->path, age)`.  The sources after a `files`
source work on the point as that source has left it: their `ap->mapargv[0]` is
the released `path`, and whatever reads it reads released storage. -/
def read_map_loop (env : Env) (ap : autofs_point) (age : Int) (nsslist : List nss_source)
    (log : List Event) : Option Int × List Event :=
  match nsslist with
  | [] => (none, log)
  | this :: rest =>
    match read_map_source env ap age this log with
    | none => (some 0, log)
    | some (result, log1) =>
      match check_actions this result with
      | some r => if r = 1 then (some 1, log1 ++ [.cache_clean ap.path age]) else (some r, log1)
      | none => read_map_loop env (source_left env this ap) age rest log1

/-- The `list_for_each` loop of `lookup_nss_mount`; the sources after a `files`
source work on the point as that source has left it. -/
def mount_loop (env : Env) (ap : autofs_point) (name : String) (name_len : Int)
    (nsslist : List nss_source) (log : List Event) : Option Int × List Event :=
  match nsslist with
  | [] => (none, log)
  | this :: rest =>
    match mount_source env ap name name_len this log with
    | none => (some 0, log)
    | some (result, log1) =>
      match check_actions this result with
      | some r => (some r, log1)
      | none => mount_loop env (source_left env this ap) name name_len rest log1

/-- `!ret` for a module status: 1 for `NSS_STATUS_SUCCESS` (which is 0), else 0. -/
def not_status (ret : nsswitch_status) : Int :=
  if ret = .NSS_STATUS_SUCCESS then 1 else 0

/-- `lookup_nss_read_map(ap, age)`: the value returned and the events, in order,
appended to `log`.  The caller keeps the point as the sources consulted have
left it (`sources_left`). -/
def lookup_nss_read_map (env : Env) (ap : autofs_point) (age : Int) (log : List Event) :
    Int × List Event :=
  match ap.maptype with
  | some maptype =>
    let r := do_read_map env ap maptype age log
    (not_status r.1, r.2 ++ [.cache_clean ap.path age])
  | none =>
    if mapname_is_absolute ap then
      let r := do_read_map env ap "file" age log
      (not_status r.1, r.2 ++ [.cache_clean ap.path age])
    else
      match env.nsswitch_parse with
      | none => (0, log)
      | some nsslist =>
        match read_map_loop env ap age nsslist log with
        | (some r, log1) => (r, log1)
        | (none, log1) =>
          if nsslist.isEmpty = false then (1, log1 ++ [.cache_clean ap.path age]) else (0, log1)

/-- `lookup_nss_mount(ap, name, name_len)`: the value returned and the events,
in order, appended to `log`.  The caller keeps the point as the sources
consulted have left it (`sources_left`). -/
def lookup_nss_mount (env : Env) (ap : autofs_point) (name : String) (name_len : Int)
    (log : List Event) : Int × List Event :=
  match ap.maptype with
  | some maptype =>
    let r := do_lookup_mount env ap maptype name name_len log
    (not_status r.1, r.2)
  | none =>
    if mapname_is_absolute ap then
      let r := do_lookup_mount env ap "file" name name_len log
      (not_status r.1, r.2)
    else
      match env.nsswitch_parse with
      | none => (0, log)
      | some nsslist =>
        match mount_loop env ap name name_len nsslist log with
        | (some r, log1) => (r, log1)
        | (none, log1) => if nsslist.isEmpty = false then (1, log1) else (0, log1)

/-! ## `lib/master.c` -/

/-- The fields of `struct map_source` that `master.c` compares or tests:
`argv` carries `argc` as its length.  `freed` is a ghost field: the node has been
handed to `master_free_map_source`.  No function of `master.c` unlinks a
released node from `entry->maps`, so a released node keeps its place in the
list. -/
structure map_source where
  type : Option String
  format : Option String
  age : Int
  argv : List String
  freed : Bool
  deriving DecidableEq, Repr

/-- The `struct master_mapent` of a mount point.  `maps` is the list headed by
`entry->maps` (linked through `next`), and `first` is the pointer
`entry->first` into it: `some k` points at the node at position `k`, `none` is
`NULL`.  Every function below dereferences `entry->ap` without a test, so an
entry owns its `autofs_point`. -/
structure master_mapent where
  path : String
  thid : Nat
  age : Int
  first : Option Nat
  maps : List map_source
  ap : autofs_point

/-- The registry `struct master` (named `m` where it is an argument); `mounts` is
the list headed by `master->mounts`, in list order. -/
structure master where
  name : String
  default_ghost : Nat
  default_logging : Nat
  default_timeout : Nat
  mounts : List master_mapent

/-- `compare_source_type_and_format`: both the type and the format agree,
where a `NULL` only agrees with a `NULL`. -/
def compare_source_type_and_format (map : map_source) (type format : Option String) :
    Bool :=
  let type_agrees :=
    match type with
    | some t =>
      (match map.type with
       | none => false
       | some mt => mt == t)
    | none => map.type.isNone
  if type_agrees then
    match format with
    | some f =>
      (match map.format with
       | none => false
       | some mf => mf == f)
    | none => map.format.isNone
  else false

/-- Modelled from the spec: `compare_argv` of `lib/args.c` (not among the
sources), the tuple-wise comparison of two argument vectors: equal lengths and
equal strings at every position. -/
def compare_argv (argv1 argv2 : List String) : Bool :=
  argv1 == argv2

/-- `pthread_mutex_lock(&master_mutex)` by a thread that holds `master_mutex`
(`held`) or does not.  `master_mutex` is initialised with
`PTHREAD_MUTEX_INITIALIZER`: it is not recursive, and a thread that locks it
while it holds it waits for itself (POSIX leaves that relock undefined).
`none`: the call does not return; `some true`: the thread holds the mutex. -/
def master_mutex_lock (held : Bool) : Option Bool :=
  if held then none else some true

/-- The `while (map)` loop of `master_find_map_source`: the first source, from
`entry->first` on, whose type, format and argument vector agree with the ones
given. -/
def find_map_source_loop (entry : master_mapent) (type format : Option String)
    (argv : List String) : Option map_source :=
  match entry.first with
  | none => none
  | some k =>
    (entry.maps.drop k).find? fun map =>
      compare_source_type_and_format map type format && compare_argv map.argv argv

/-- `master_find_map_source`, called by a thread that holds `master_mutex`
(`held`) or does not: it locks `master_mutex`, searches, unlocks and returns
the source found (`some none` for `NULL`).  `none`: the call does not return. -/
def master_find_map_source (held : Bool) (entry : master_mapent)
    (type format : Option String) (argv : List String) : Option (Option map_source) :=
  match master_mutex_lock held with
  | none => none
  | some _ => some (find_map_source_loop entry type format argv)

/-- `master_add_map_source`, called by a thread that does not hold
`master_mutex`: the value returned (`none` for `NULL`, which is what the branch
of a duplicate returns) and the entry afterwards.  The function locks
`master_mutex` before it looks at `entry->maps`, and on an entry that has a
source it calls `master_find_map_source` with the mutex held.  `none`: the call
does not return. -/
def master_add_map_source (entry : master_mapent) (type format : Option String)
    (age : Int) (argv : List String) : Option (Option map_source × master_mapent) :=
  let source : map_source :=
    { type := type, format := format, age := age, argv := argv, freed := false }
  match master_mutex_lock false with
  | none => none
  | some held =>
    if entry.maps.isEmpty then
      some (some source, { entry with maps := [source], first := some 0 })
    else
      match master_find_map_source held entry type format argv with
      | none => none
      | some (some _) => some (none, entry)
      | some none => some (some source, { entry with maps := entry.maps ++ [source] })

/-- `master_find_mapent`: the first entry of `master->mounts` with the path. -/
def master_find_mapent (m : master) (path : String) : Option master_mapent :=
  m.mounts.find? fun entry => entry.path == path

/-- `master_add_mapent`: `list_add_tail(&entry->list, &master->mounts)`. -/
def master_add_mapent (m : master) (entry : master_mapent) : master :=
  { m with mounts := m.mounts ++ [entry] }

/-- `master_free_mapent` on the entry linked at position `i` of
`master->mounts`: `list_del(&entry->list)`, after which the entry is released.
An entry that is not linked leaves the list as it is. -/
def master_free_mapent (m : master) (i : Nat) : master :=
  { m with mounts := m.mounts.eraseIdx i }

mutual
/-- `notify_submounts(ap, state)`: the `nextstate` calls it makes, in order. -/
def notify_submounts (ap : autofs_point) (state : states) : List Event :=
  match ap with
  | ⟨_, _, _, _, _, _, _, _, submounts⟩ => notify_submounts_loop submounts state
/-- The `while (p != head)` loop of `notify_submounts` over the submounts still
to visit. -/
def notify_submounts_loop : List autofs_point → states → List Event
  | [], _ => []
  | this :: rest, state =>
    (if this.submounts.isEmpty then [] else notify_submounts this state)
      ++ [Event.nextstate this.state_pipe.2 state]
      ++ notify_submounts_loop rest state
end

/-- Signal numbers of `<signal.h>` (Linux). -/
def SIGUSR1 : Int := 10

/-- Signal numbers of `<signal.h>` (Linux). -/
def SIGUSR2 : Int := 12

/-- Signal numbers of `<signal.h>` (Linux). -/
def SIGTERM : Int := 15

/-- How `master_notify_state_change` ends: it reaches its end, it leaves through
the `return` inside the loop, or `assert(ap->state == ST_READY)` fails. -/
inductive notify_exit where
  | completed
  | returned_in_loop
  | assertion_failed
  deriving DecidableEq, Repr

/-- The `list_for_each` loop of `master_notify_state_change` over the entries
still to visit. -/
def notify_state_change_loop (sig : Int) : List master_mapent → List Event × notify_exit
  | [] => ([], .completed)
  | entry :: rest =>
    let ap := entry.ap
    if ap.state = .ST_INVAL then ([], .returned_in_loop)
    else
      let state_pipe := ap.state_pipe.2
      if sig = SIGTERM then
        let here :=
          if ap.state ≠ .ST_SHUTDOWN then
            notify_submounts ap .ST_SHUTDOWN_PENDING
              ++ [Event.nextstate state_pipe .ST_SHUTDOWN_PENDING]
          else []
        let r := notify_state_change_loop sig rest
        (here ++ r.1, r.2)
      else if sig = SIGUSR2 then
        let here :=
          if ap.state ≠ .ST_SHUTDOWN then
            notify_submounts ap .ST_SHUTDOWN_FORCE
              ++ [Event.nextstate state_pipe .ST_SHUTDOWN_FORCE]
          else []
        let r := notify_state_change_loop sig rest
        (here ++ r.1, r.2)
      else if sig = SIGUSR1 then
        if ap.state = .ST_READY then
          let r := notify_state_change_loop sig rest
          (notify_submounts ap .ST_PRUNE ++ [Event.nextstate state_pipe .ST_PRUNE] ++ r.1, r.2)
        else ([], .assertion_failed)
      else notify_state_change_loop sig rest

/-- `master_notify_state_change(master, sig)`: the `nextstate` calls made, in
order, and how the function ends. -/
def master_notify_state_change (m : master) (sig : Int) : List Event × notify_exit :=
  notify_state_change_loop sig m.mounts

/-- `master_do_mount`: start the worker thread `handle_mounts` for the entry and
record its thread id.  What the worker does itself belongs to `handle_mounts`,
which is outside `master.c`. -/
def master_do_mount (env : Env) (entry : master_mapent) : master_mapent × List Event :=
  ({ entry with thid := env.pthread_create entry.path }, [Event.handle_mounts entry.ap.path])

/-- `shutdown_entry`: the `nextstate` calls made for the entry. -/
def shutdown_entry (env : Env) (entry : master_mapent) : List Event :=
  let ap := entry.ap
  let state_pipe := ap.state_pipe.2
  if env.fstat state_pipe ≠ .ok then []
  else notify_submounts ap .ST_SHUTDOWN_PENDING
    ++ [Event.nextstate state_pipe .ST_SHUTDOWN_PENDING]

/-- The state of the `while (source)` loop of `check_update_map_sources`. -/
structure update_state where
  maps : List map_source
  first : Option Nat
  map_stale : Bool
  events : List Event

/-- The `while (source)` loop of `check_update_map_sources` over the sources
still to visit, `i` being the position of the next one in `entry->maps`.  A
source with `age` below the epoch is handed to `master_free_map_source` and
stays linked; a source of type `null` replaces the cache and moves
`entry->first` to its successor. -/
def update_sources_loop (ap : autofs_point) (age : Int) :
    List map_source → Nat → Option Nat → Bool → update_state
  | [], _, first, map_stale =>
    { maps := [], first := first, map_stale := map_stale, events := [] }
  | source :: rest, i, first, map_stale =>
    if source.age < age then
      let r := update_sources_loop ap age rest (i + 1) first true
      { r with
        maps := { source with freed := true } :: r.maps
        events := Event.master_free_map_source source.type source.format source.argv
          :: r.events }
    else if source.type = some "null" then
      let next := if rest.isEmpty then none else some (i + 1)
      let r := update_sources_loop ap age rest (i + 1) next true
      { r with maps := source :: r.maps, events := Event.cache_init ap.path :: r.events }
    else
      let r := update_sources_loop ap age rest (i + 1) first map_stale
      { r with maps := source :: r.maps }

/-- `check_update_map_sources(entry, age, readall)`: the entry afterwards and
the calls made. -/
def check_update_map_sources (env : Env) (entry : master_mapent) (age : Int)
    (readall : Int) : master_mapent × List Event :=
  let r := update_sources_loop entry.ap age entry.maps 0 entry.first (readall ≠ 0)
  let state_pipe := entry.ap.state_pipe.2
  let readmap :=
    if r.map_stale then
      (if env.fstat state_pipe ≠ .ok then [] else [Event.nextstate state_pipe .ST_READMAP])
    else []
  ({ entry with maps := r.maps, first := r.first }, r.events ++ readmap)

/-- The `list_for_each` loop of `master_mount_mounts` over the entries still to
visit: the entries afterwards and the calls made. -/
def mount_mounts_loop (env : Env) (age : Int) (readall : Int) :
    List master_mapent → List master_mapent × List Event
  | [] => ([], [])
  | this :: rest =>
    if this.age < age then
      let r := mount_mounts_loop env age readall rest
      (this :: r.1, shutdown_entry env this ++ r.2)
    else
      let u := check_update_map_sources env this age readall
      let m :=
        if env.fstat u.1.ap.state_pipe.2 = .EBADF then master_do_mount env u.1
        else (u.1, [])
      let r := mount_mounts_loop env age readall rest
      (m.1 :: r.1, u.2 ++ m.2 ++ r.2)

/-- `master_mount_mounts(master, age, readall)`: the value returned, the
registry afterwards and the calls made. -/
def master_mount_mounts (env : Env) (m : master) (age : Int) (readall : Int) :
    Int × master × List Event :=
  let r := mount_mounts_loop env age readall m.mounts
  (1, { m with mounts := r.1 }, r.2)

/-! ## Vocabulary of the statements -/

mutual
/-- Every transitive submount of a mount point. -/
def transitive_submounts (ap : autofs_point) : List autofs_point :=
  match ap with
  | ⟨_, _, _, _, _, _, _, _, submounts⟩ => transitive_submounts_list submounts
/-- The points of a list of submounts together with their transitive submounts. -/
def transitive_submounts_list : List autofs_point → List autofs_point
  | [] => []
  | this :: rest => this :: (transitive_submounts this ++ transitive_submounts_list rest)
end

/-- Some status slot of the source carries a negated `RETURN` and the status
observed differs from that slot. -/
def negated_return_fires (this : nss_source) (r : nsswitch_status) : Bool :=
  all_nss_status.any fun s =>
    decide ((this.action s).action = .NSS_ACTION_RETURN ∧ (this.action s).negated = true ∧ r ≠ s)

/-- The action matching of the source ends the pipeline at status `r`: a negated
`RETURN` fires, or `r` is `SUCCESS` and its action is not `CONTINUE`, or `r` is
another status and its action is `RETURN`. -/
def action_terminates (this : nss_source) (r : nsswitch_status) : Bool :=
  negated_return_fires this r ||
    (if r = .NSS_STATUS_SUCCESS then
      decide ((this.action r).action ≠ .NSS_ACTION_CONTINUE)
    else decide ((this.action r).action = .NSS_ACTION_RETURN))

/-- Every source of the list has its module consulted by `lookup_nss_mount` and
the action matching ends the pipeline at none of them. -/
def mount_passes (env : Env) (ap : autofs_point) (name : String) (name_len : Int)
    (nsslist : List nss_source) (log : List Event) : Bool :=
  match nsslist with
  | [] => true
  | this :: rest =>
    match mount_source env ap name name_len this log with
    | none => false
    | some (r, log1) =>
      !action_terminates this r &&
        mount_passes env (source_left env this ap) name name_len rest log1

/-- Every source of the list has its module consulted by `lookup_nss_read_map`
and the action matching ends the pipeline at none of them. -/
def read_map_passes (env : Env) (ap : autofs_point) (age : Int)
    (nsslist : List nss_source) (log : List Event) : Bool :=
  match nsslist with
  | [] => true
  | this :: rest =>
    match read_map_source env ap age this log with
    | none => false
    | some (r, log1) =>
      !action_terminates this r && read_map_passes env (source_left env this ap) age rest log1

/-! ## Concrete inputs -/

/-- The action slot nobody configured. -/
def no_action : nss_action := ⟨.NSS_ACTION_UNKNOWN, false⟩

/-- A source without configured actions. -/
def plain_source (name : String) : nss_source := ⟨name, fun _ => no_action⟩

/-- The source `files [SUCCESS=continue]`. -/
def files_continue : nss_source :=
  ⟨"files", fun s => if s = .NSS_STATUS_SUCCESS then ⟨.NSS_ACTION_CONTINUE, false⟩ else no_action⟩

/-- The source `files [!NOTFOUND=return]`. -/
def files_not_notfound_return : nss_source :=
  ⟨"files", fun s => if s = .NSS_STATUS_NOTFOUND then ⟨.NSS_ACTION_RETURN, true⟩ else no_action⟩

/-- The source `nis [UNAVAIL=return]`. -/
def nis_unavail_return : nss_source :=
  ⟨"nis", fun s => if s = .NSS_STATUS_UNAVAIL then ⟨.NSS_ACTION_RETURN, false⟩ else no_action⟩

/-- A module that answers the same status to every request. -/
def const_mod (s : nsswitch_status) : lookup_mod := ⟨fun _ _ => s, fun _ _ _ => s⟩

/-- An environment whose modules all open and answer `s`, with the source list
`l` in the nsswitch configuration; descriptors below zero are invalid, and
released storage reads as the empty string. -/
def const_env (l : List nss_source) (s : nsswitch_status) : Env :=
  ⟨fun _ _ _ _ => some (const_mod s), some l, fun fd => if fd < 0 then .EBADF else .ok,
    fun _ => 1, fun _ => ""⟩

/-- A mount point with the map arguments `argv`, the state `st`, the write end
`fd` of its state pipe and the submounts `subs`. -/
def point (path : String) (argv : List String) (st : states) (fd : Int)
    (subs : List autofs_point) : autofs_point :=
  { path := path, maptype := none, mapfmt := some "sun", mapargv := argv, ghost := 0,
    type := 0, state := st, state_pipe := (fd - 1, fd), submounts := subs }

/-- The mount point `/test` of the map `auto.test`. -/
def test_point : autofs_point := point "/test" ["auto.test"] .ST_READY 4 []

/-- The registries built from an empty one by `master_free_mapent` and by
`master_add_mapent` calls that the caller makes only after
`master_find_mapent` has found no entry with the path. -/
inductive guarded_registry : master → Prop where
  | empty (m : master) : m.mounts = [] → guarded_registry m
  | add (m : master) (entry : master_mapent) :
      guarded_registry m → master_find_mapent m entry.path = none →
      guarded_registry (master_add_mapent m entry)
  | free (m : master) (i : Nat) : guarded_registry m → guarded_registry (master_free_mapent m i)

/-- A map source of the given type, age and map name. -/
def source_of (type : String) (age : Int) (arg : String) : map_source :=
  ⟨some type, none, age, [arg], false⟩

/-- An entry for `path` with the given age, sources and mount point, whose
`first` is the head of the sources. -/
def entry_of (path : String) (age : Int) (maps : List map_source) (ap : autofs_point) :
    master_mapent :=
  { path := path, thid := 0, age := age, first := if maps.isEmpty then none else some 0,
    maps := maps, ap := ap }

/-- A registry with the given entries. -/
def registry_of (l : List master_mapent) : master :=
  ⟨"auto.master", 1, 0, 600, l⟩

/-- An entry for `/a` without map sources. -/
def entry_a : master_mapent := entry_of "/a" 5 [] (point "/a" ["auto.a"] .ST_READY 4 [])

/-- The entry for `/a` with the file map `/etc/auto.a` as its only source: what
`master_add_map_source` makes of `entry_a`. -/
def entry_a1 : master_mapent :=
  entry_of "/a" 5 [source_of "file" 5 "/etc/auto.a"] (point "/a" ["auto.a"] .ST_READY 4 [])

/-- A second entry for `/a`, read at a later epoch. -/
def entry_a_later : master_mapent := entry_of "/a" 6 [] (point "/a" ["auto.b"] .ST_READY 6 [])

/-- An entry for `/b`. -/
def entry_b : master_mapent := entry_of "/b" 5 [] (point "/b" ["auto.b"] .ST_READY 8 [])

/-- A mount point `/mnt/a` with the submounts `/mnt/a/s` (which has the submount
`/mnt/a/s/t`) and `/mnt/a/u`. -/
def point_with_submounts : autofs_point :=
  point "/mnt/a" ["auto.a"] .ST_READY 4
    [point "/mnt/a/s" ["auto.s"] .ST_READY 8 [point "/mnt/a/s/t" ["auto.t"] .ST_READY 10 []],
     point "/mnt/a/u" ["auto.u"] .ST_READY 12 []]

/-- The entry of `/mnt/a`, last seen at epoch 4. -/
def stale_entry : master_mapent :=
  entry_of "/mnt/a" 4 [source_of "file" 4 "/etc/auto.a"] point_with_submounts

/-- An entry of `/mnt/b` seen at epoch 5, with an open state pipe. -/
def fresh_entry : master_mapent :=
  entry_of "/mnt/b" 5 [source_of "file" 5 "/etc/auto.b"]
    (point "/mnt/b" ["auto.b"] .ST_READY 6 [])

/-- An entry of `/mnt/c` whose mount point is in state `ST_INVAL`. -/
def inval_entry : master_mapent :=
  entry_of "/mnt/c" 5 [source_of "file" 5 "/etc/auto.c"]
    (point "/mnt/c" ["auto.c"] .ST_INVAL 14 [])

/-! ## `modules/lookup_file.c`: the map-file reader -/

namespace File

/-- The states of the reader (`LOOKUP_STATE`). -/
inductive LOOKUP_STATE where
  | st_begin
  | st_compare
  | st_star
  | st_badent
  | st_entspc
  | st_getent
  deriving DecidableEq, Repr

/-- What the reader is collecting or has collected (`FOUND_STATE`), in the
order of the enumeration. -/
inductive FOUND_STATE where
  | got_nothing
  | got_star
  | got_real
  | got_plus
  deriving DecidableEq, Repr

/-- The escape states of the reader (`ESCAPES`). -/
inductive ESCAPES where
  | esc_none
  | esc_char
  | esc_val
  | esc_all
  deriving DecidableEq, Repr

/-- C `isspace` in the "C" locale. -/
def isspace (c : Char) : Bool :=
  c = ' ' || c = '\t' || c = '\n' || c = '\x0b' || c = '\x0c' || c = '\r'

/-- C `isblank` in the "C" locale. -/
def isblank (c : Char) : Bool :=
  c = ' ' || c = '\t'

/-- The local variables of `read_one`.  `key` holds the bytes written through
`kptr` since the buffer was last cleared and `mapent` the bytes written through
`p` since `p = mapent`; `key_len` and `mapent_len` are the counters of the C
code. -/
structure read_vars where
  key : List Char
  key_len : Nat
  mapent : List Char
  mapent_len : Nat
  state : LOOKUP_STATE
  getting : FOUND_STATE
  gotten : FOUND_STATE
  escape : ESCAPES
  deriving DecidableEq, Repr

/-- The variables at the start of `read_one`. -/
def read_one_init : read_vars :=
  { key := [], key_len := 0, mapent := [], mapent_len := 0, state := .st_begin,
    getting := .got_nothing, gotten := .got_nothing, escape := .esc_none }

/-- The label `next:` of `read_one`: everything but `state` is cleared. -/
def read_one_next (v : read_vars) : read_vars :=
  { v with key := [], key_len := 0, mapent := [], mapent_len := 0,
           getting := .got_nothing, gotten := .got_nothing, escape := .esc_none }

/-- The `switch (escape)` at the top of the loop of `read_one`, for the
character `ch` with `nch` the character after it (`none` at end of file):
`none` is the `continue` of a continuation line (a backslash followed by a
newline, both taken from the stream), `some e` the escape state with which `ch`
is looked at. -/
def next_escape (escape : ESCAPES) (ch : Char) (nch : Option Char) : Option ESCAPES :=
  match escape with
  | .esc_none =>
    if ch = '\\' then (if nch = some '\n' then none else some .esc_char)
    else if ch = '"' then some .esc_all
    else some .esc_none
  | .esc_char => some .esc_val
  | .esc_val => some .esc_none
  | .esc_all => if ch = '"' then some .esc_none else some .esc_all

/-- How one turn of the `switch (state)` of `read_one` ends: at the `continue`
after the switch, at the label `got_it`, or at the label `next`. -/
inductive read_exit where
  | continue_loop
  | got_it
  | next
  deriving DecidableEq, Repr

/-- `gotten == got_real || gotten == getting`. -/
def entry_complete (v : read_vars) : Bool :=
  v.gotten = .got_real || v.gotten = v.getting

/-- `*(kptr++) = ch; key_len++`. -/
def put_key (v : read_vars) (ch : Char) : read_vars :=
  { v with key := v.key ++ [ch], key_len := v.key_len + 1 }

/-- The `switch (state)` of `read_one` for the character `ch`, looked at with
the escape state already in `v.escape`; `nch` is the character after `ch`
(`none` at end of file), which the code reads with `getc` and gives back with
`ungetc`.  `KEY_MAX_LEN` and `MAPENT_MAX_LEN` are the constants of
`automount.h`. -/
def read_one_switch (KEY_MAX_LEN MAPENT_MAX_LEN : Nat) (v : read_vars) (ch : Char)
    (nch : Option Char) : read_exit × read_vars :=
  match v.state with
  | .st_begin =>
    if v.escape = .esc_none then
      if isspace ch then (.continue_loop, v)
      else if ch = '#' then (.continue_loop, { v with state := .st_badent })
      else if ch = '*' then (.continue_loop, put_key { v with state := .st_star } ch)
      else
        (.continue_loop,
          put_key { v with gotten := if ch = '+' then .got_plus else v.gotten,
                           state := .st_compare } ch)
    else if v.escape = .esc_all then
      (.continue_loop, put_key { v with state := .st_compare } ch)
    else if v.escape = .esc_char then (.continue_loop, v)
    else (.continue_loop, { v with state := .st_badent })
  | .st_compare =>
    if ch = '\n' then
      if v.gotten = .got_plus then (.got_it, { v with state := .st_begin })
      else if v.escape = .esc_all then (.next, { v with state := .st_begin })
      else if v.escape ≠ .esc_val then (.got_it, { v with state := .st_begin })
      else (.continue_loop, { v with state := .st_begin })
    else if isspace ch ∧ v.escape = .esc_none then
      if v.gotten = .got_plus then
        (.got_it, { v with getting := .got_real, state := .st_entspc })
      else (.continue_loop, { v with getting := .got_real, state := .st_entspc })
    else if v.escape = .esc_char then (.continue_loop, v)
    else if v.key_len = KEY_MAX_LEN then
      (.continue_loop, { v with state := .st_badent, gotten := .got_nothing })
    else if v.escape = .esc_val then (.continue_loop, put_key (put_key v '\\') ch)
    else (.continue_loop, put_key v ch)
  | .st_star =>
    if ch = '\n' then (.continue_loop, { v with state := .st_begin })
    else if isspace ch ∧ v.gotten = .got_nothing ∧ v.escape = .esc_none then
      (.continue_loop, { v with getting := .got_star, state := .st_entspc })
    else if v.escape ≠ .esc_char then (.continue_loop, { v with state := .st_badent })
    else (.continue_loop, v)
  | .st_badent =>
    if ch = '\n' then
      if (nch.map isblank) = some true then (.continue_loop, v)
      else if entry_complete v then (.got_it, { v with state := .st_begin })
      else (.next, { v with state := .st_begin })
    else if ¬ isblank ch then (.continue_loop, { v with gotten := .got_nothing })
    else (.continue_loop, v)
  | .st_entspc =>
    if ch = '\n' then (.continue_loop, { v with state := .st_begin })
    else if ¬ isspace ch ∨ v.escape ≠ .esc_none then
      if v.escape ≠ .esc_none then
        if v.escape = .esc_char then (.continue_loop, v)
        else if ch.toNat ≤ 32 then
          (.continue_loop, { v with getting := .got_nothing, state := .st_badent })
        else if v.escape = .esc_val then
          (.continue_loop,
            { v with mapent := ['\\', ch], mapent_len := v.mapent_len + 2,
                     state := .st_getent, gotten := v.getting })
        else
          (.continue_loop,
            { v with mapent := [ch], mapent_len := v.mapent_len + 1,
                     state := .st_getent, gotten := v.getting })
      else
        (.continue_loop,
          { v with mapent := [ch], mapent_len := 1, state := .st_getent,
                   gotten := v.getting })
    else (.continue_loop, v)
  | .st_getent =>
    if ch = '\n' then
      if v.escape = .esc_all then (.next, { v with state := .st_begin })
      else if (nch.map isblank) = some true then
        (.continue_loop, { v with state := .st_badent })
      else if entry_complete v then (.got_it, { v with state := .st_begin })
      else (.continue_loop, { v with state := .st_begin })
    else if v.mapent_len < MAPENT_MAX_LEN then
      if nch = none ∧ entry_complete v then
        (.got_it, { v with mapent := v.mapent ++ [ch], mapent_len := v.mapent_len + 1 })
      else
        (.continue_loop,
          { v with mapent := v.mapent ++ [ch], mapent_len := v.mapent_len + 1 })
    else (.continue_loop, { v with state := .st_badent })

/-- What `read_one` hands back: the value returned (1 with an entry, 0 at end
of file), the buffers `key` and `mapent`, `*k_len` and `*m_len` (written only
with an entry), the characters left in the stream and its end-of-file
indicator (set when a `getc` of the call met the end of the file, which on a
return of 1 is the look-ahead `getc` of the states `st_badent` and
`st_getent`). -/
structure read_result where
  ret : Int
  key : List Char
  k_len : Nat
  mapent : List Char
  m_len : Nat
  rest : List Char
  eof : Bool
  deriving DecidableEq, Repr

/-- The `while ((ch = getc(f)) != EOF)` loop of `read_one` on the characters
left in the stream. -/
def read_one_loop (KEY_MAX_LEN MAPENT_MAX_LEN : Nat) : read_vars → List Char → read_result
  | v, [] =>
    { ret := 0, key := v.key, k_len := 0, mapent := v.mapent, m_len := 0, rest := [],
      eof := true }
  | v, [ch] =>
    match next_escape v.escape ch none with
    | none => read_one_loop KEY_MAX_LEN MAPENT_MAX_LEN v []
    | some escape =>
      match read_one_switch KEY_MAX_LEN MAPENT_MAX_LEN { v with escape := escape } ch none with
      | (.continue_loop, w) => read_one_loop KEY_MAX_LEN MAPENT_MAX_LEN w []
      | (.next, w) => read_one_loop KEY_MAX_LEN MAPENT_MAX_LEN (read_one_next w) []
      | (.got_it, w) =>
        if w.gotten = .got_nothing then
          read_one_loop KEY_MAX_LEN MAPENT_MAX_LEN (read_one_next w) []
        else
          { ret := 1, key := w.key, k_len := w.key_len, mapent := w.mapent,
            m_len := w.mapent_len, rest := [],
            eof := decide (v.state = .st_badent ∨ v.state = .st_getent) }
  | v, ch :: nch :: rest =>
    match next_escape v.escape ch (some nch) with
    | none => read_one_loop KEY_MAX_LEN MAPENT_MAX_LEN v rest
    | some escape =>
      match read_one_switch KEY_MAX_LEN MAPENT_MAX_LEN { v with escape := escape } ch
          (some nch) with
      | (.continue_loop, w) => read_one_loop KEY_MAX_LEN MAPENT_MAX_LEN w (nch :: rest)
      | (.next, w) => read_one_loop KEY_MAX_LEN MAPENT_MAX_LEN (read_one_next w) (nch :: rest)
      | (.got_it, w) =>
        if w.gotten = .got_nothing then
          read_one_loop KEY_MAX_LEN MAPENT_MAX_LEN (read_one_next w) (nch :: rest)
        else
          { ret := 1, key := w.key, k_len := w.key_len, mapent := w.mapent,
            m_len := w.mapent_len, rest := nch :: rest, eof := false }

/-- `read_one(f, key, &k_len, mapent, &m_len)` on a stream holding `input`. -/
def read_one (KEY_MAX_LEN MAPENT_MAX_LEN : Nat) (input : List Char) : read_result :=
  read_one_loop KEY_MAX_LEN MAPENT_MAX_LEN read_one_init input

end File

/-! ## The map-entry cache (`lib/cache.c`, `automount.h`) -/

set_option linter.dupNamespace false in
/-- Modelled from the spec: `struct mapent` of `automount.h` (the header is not
among the sources).  `mapent` is the raw entry text (`none` for `NULL`),
`status` the negative deadline, `multi` the key of the multi-mount root the
entry is linked to (`me->multi->key`), `dev` and `ino` the device and inode of
the ghosted directory. -/
structure mapent where
  key : String
  mapent : Option String
  age : Int
  status : Int
  multi : Option String
  dev : Int
  ino : Int
  deriving DecidableEq, Repr

/-- Modelled from the spec: `struct mapent_cache`, the mapping from keys to
entries of one mount point, kept in enumeration order.  A cache holds the
entries it owns. -/
abbrev mapent_cache := List mapent

/-- Modelled from the spec: result code `CHE_FAIL` of the cache operations
(`automount.h`), with the flag value of the autofs 5 header. -/
def CHE_FAIL : Nat := 0

/-- Modelled from the spec: result code `CHE_OK`. -/
def CHE_OK : Nat := 1

/-- Modelled from the spec: result code `CHE_UPDATED`. -/
def CHE_UPDATED : Nat := 2

/-- Modelled from the spec: result code `CHE_MISSING`. -/
def CHE_MISSING : Nat := 8

/-- Modelled from the spec: result code `CHE_COMPLETED`. -/
def CHE_COMPLETED : Nat := 16

/-- Modelled from the spec: the lookup flags `LKP_FAIL`, `LKP_INDIRECT` and
`LKP_DIRECT` of `automount.h`, with the flag values of the autofs 5 header. -/
def LKP_FAIL : Nat := 1

/-- Modelled from the spec: lookup flag `LKP_INDIRECT`. -/
def LKP_INDIRECT : Nat := 2

/-- Modelled from the spec: lookup flag `LKP_DIRECT`. -/
def LKP_DIRECT : Nat := 4

/-- Modelled from the spec: `cache_lookup_distinct` of `lib/cache.c` (not among
the sources), the entry of this cache stored under exactly the key. -/
def cache_lookup_distinct (mc : mapent_cache) (key : String) : Option mapent :=
  mc.find? fun me => me.key == key

/-- A write through the pointer that `cache_lookup_distinct(mc, key)` handed
back: the first entry stored under the key is replaced by its image. -/
def mapent_write (f : mapent → mapent) : mapent_cache → String → mapent_cache
  | [], _ => []
  | me :: rest, key =>
    if me.key == key then f me :: rest else me :: mapent_write f rest key

/-- Modelled from the spec: `cache_update(mc, key, mapent, age)` of
`lib/cache.c`, which inserts or replaces: `CHE_OK` when the stored text is
identical (the age is refreshed), `CHE_UPDATED` when the text changed or the
entry was created.  Allocation succeeds, so `CHE_FAIL` is not among the
results. -/
def cache_update (mc : mapent_cache) (key : String) (text : Option String) (age : Int) :
    Nat × mapent_cache :=
  match cache_lookup_distinct mc key with
  | none =>
    (CHE_UPDATED,
      mc ++ [{ key := key, mapent := text, age := age, status := 0, multi := none,
               dev := -1, ino := -1 }])
  | some me =>
    if me.mapent = text then
      (CHE_OK, mapent_write (fun e => { e with age := age }) mc key)
    else
      (CHE_UPDATED, mapent_write (fun e => { e with mapent := text, age := age }) mc key)

/-- Modelled from the spec: `cache_delete(mc, key)` of `lib/cache.c`, which
answers whether anything was removed (1 or 0). -/
def cache_delete (mc : mapent_cache) (key : String) : Nat × mapent_cache :=
  if (cache_lookup_distinct mc key).isSome then
    (1, mc.filter fun me => !(me.key == key))
  else (0, mc)

/-! ## `daemon/lookup.c`: ghosting -/

/-- Outcome of `stat(2)`: success with the device and inode, or -1 with `errno`
either `ENOENT` or something else. -/
inductive stat_result where
  | ok (dev ino : Int)
  | ENOENT
  | other
  deriving DecidableEq, Repr

/-- The calls `lookup_ghost` makes on the file system, in order. -/
inductive ghost_call where
  | stat (path : String)
  | mkdir_path (path : String) (mode : Nat)
  deriving DecidableEq, Repr

/-- The environment of `lookup_ghost`: what `cache_enumerate_readlock` returns,
and what `stat` and `mkdir_path` answer after the calls made so far. -/
structure ghost_env where
  cache_enumerate_readlock : Int
  stat : List ghost_call → String → stat_result
  mkdir_path : List ghost_call → String → Nat → Int

/-- The `while (me)` loop of `lookup_ghost` over the entries that
`cache_enumerate` still has to hand out: the entries afterwards and the
calls made. -/
def lookup_ghost_loop (env : ghost_env) (ap : autofs_point) :
    List mapent → List ghost_call → List mapent × List ghost_call
  | [], log => ([], log)
  | me :: rest, log =>
    if me.key.data.head? = some '*' then
      let r := lookup_ghost_loop env ap rest log
      (me :: r.1, r.2)
    else if me.key.data.head? = some '/' then
      let r := lookup_ghost_loop env ap rest log
      (me :: r.1, r.2)
    else
      let fullpath := ap.path ++ "/" ++ me.key
      let ret := env.stat log fullpath
      let log1 := log ++ [ghost_call.stat fullpath]
      if ret = stat_result.other then
        let r := lookup_ghost_loop env ap rest log1
        (me :: r.1, r.2)
      else
        let made := env.mkdir_path log1 fullpath 0o555
        let log2 := log1 ++ [ghost_call.mkdir_path fullpath 0o555]
        if made < 0 then
          let r := lookup_ghost_loop env ap rest log2
          (me :: r.1, r.2)
        else
          let me1 :=
            match env.stat log2 fullpath with
            | stat_result.ok dev ino => { me with dev := dev, ino := ino }
            | _ => me
          let r := lookup_ghost_loop env ap rest (log2 ++ [ghost_call.stat fullpath])
          (me1 :: r.1, r.2)

/-- `lookup_ghost(ap)` on the cache `mc`: the return value, the cache
afterwards and the calls made. -/
def lookup_ghost (env : ghost_env) (ap : autofs_point) (mc : mapent_cache) :
    Nat × mapent_cache × List ghost_call :=
  if ap.path = "/-" then (LKP_FAIL ||| LKP_DIRECT, mc, [])
  else if ap.ghost = 0 then (LKP_INDIRECT, mc, [])
  else if env.cache_enumerate_readlock = 0 then (LKP_FAIL, mc, [])
  else
    let r := lookup_ghost_loop env ap mc []
    (LKP_INDIRECT, r.1, r.2)

/-! ## `lib/master.c`: the defaults taken from the environment -/

/-- The file-scope variables `default_timeout` and `default_ghost_mode` of
`master.c`. -/
structure master_globals where
  default_timeout : Nat
  default_ghost_mode : Nat
  deriving DecidableEq, Repr

/-- The initial values of the file-scope variables, from the macros
`DEFAULT_TIMEOUT` and `DEFAULT_GHOST_MODE`. -/
def master_globals_init (DEFAULT_TIMEOUT DEFAULT_GHOST_MODE : Nat) : master_globals :=
  { default_timeout := DEFAULT_TIMEOUT, default_ghost_mode := DEFAULT_GHOST_MODE }

/-- C `isdigit` on the first byte of a string (`isdigit(*s)`); the terminating
NUL of an empty string is no digit. -/
def isdigit (s : List Char) : Bool :=
  match s with
  | [] => false
  | c :: _ => decide ('0' ≤ c ∧ c ≤ '9')

/-- The value of the leading decimal digits, read from the left with the
value `acc` so far. -/
def atoi_digits : List Char → Nat → Nat
  | [], acc => acc
  | c :: rest, acc =>
    if '0' ≤ c ∧ c ≤ '9' then atoi_digits rest (10 * acc + (c.toNat - '0'.toNat)) else acc

/-- C `atoi` on a string that starts with a digit (the only use in
`master.c`), for values that fit an `int`. -/
def atoi (s : List Char) : Nat :=
  atoi_digits s 0

/-- C `strcasecmp`, as far as `master.c` looks at it: 0 when the strings are
equal ignoring letter case, 1 otherwise. -/
def strcasecmp (s1 s2 : List Char) : Int :=
  if s1.map Char.toLower = s2.map Char.toLower then 0 else 1

/-- `master_set_default_timeout`; `getenv` is the process environment. -/
def master_set_default_timeout (getenv : String → Option String) (g : master_globals) :
    master_globals :=
  match getenv "DEFAULT_TIMEOUT" with
  | none => g
  | some timeout =>
    if isdigit timeout.data then { g with default_timeout := atoi timeout.data } else g

/-- `master_set_default_ghost_mode`; `getenv` is the process environment. -/
def master_set_default_ghost_mode (getenv : String → Option String) (g : master_globals) :
    master_globals :=
  match getenv "DEFAULT_BROWSE_MODE" with
  | none => g
  | some ghost =>
    if isdigit ghost.data then
      if atoi ghost.data = 0 then { g with default_ghost_mode := 0 } else g
    else if strcasecmp ghost.data "no".data ≠ 0 then { g with default_ghost_mode := 0 }
    else g

/-- `master_new(name)` with the file-scope variables `g`; the macros
`DEFAULT_MASTER_MAP`, `DEFAULT_LOGGING` and `DEFAULT_TIMEOUT` of the headers are
arguments. -/
def master_new (DEFAULT_MASTER_MAP : String) (DEFAULT_LOGGING DEFAULT_TIMEOUT : Nat)
    (g : master_globals) (name : Option String) : master :=
  { name := match name with
            | none => DEFAULT_MASTER_MAP
            | some n => n,
    default_ghost := g.default_ghost_mode,
    default_logging := DEFAULT_LOGGING,
    default_timeout := DEFAULT_TIMEOUT,
    mounts := [] }

/-! ## Vocabulary of the statements on ghosting and the defaults -/

/-- The `mkdir_path` calls among the calls of `lookup_ghost`, in order, each
with its path and mode. -/
def mkdir_calls (log : List ghost_call) : List (String × Nat) :=
  log.filterMap fun c =>
    match c with
    | ghost_call.mkdir_path path mode => some (path, mode)
    | ghost_call.stat _ => none

/-- The key starts neither with `*` nor with `/`. -/
def ghost_key (me : mapent) : Bool :=
  !(me.key.data.head? == some '*') && !(me.key.data.head? == some '/')

/-- A process environment in which only the variable `var` is set, to `value`. -/
def env_with (var value : String) : String → Option String :=
  fun v => if v = var then some value else none

/-- A cache entry with the given key and text and no other data. -/
def entry_with (key text : String) : mapent :=
  { key := key, mapent := some text, age := 0, status := 0, multi := none, dev := -1, ino := -1 }

/-- A file system on which every `stat` finds nothing and every `mkdir_path`
succeeds, with the enumeration lock granted. -/
def ghost_env_ok : ghost_env :=
  { cache_enumerate_readlock := 1,
    stat := fun _ _ => stat_result.ENOENT,
    mkdir_path := fun _ _ _ => 0 }

/-- An indirect mount point at `path` with the given ghost flag. -/
def ghost_point (path : String) (ghost : Nat) : autofs_point :=
  { path := path, maptype := none, mapfmt := none, mapargv := [], ghost := ghost,
    type := LKP_INDIRECT, state := states.ST_READY, state_pipe := (3, 4), submounts := [] }

/-! ## `modules/lookup_file.c`: inclusion, reading and lookup -/

namespace File

/-- `MAX_INCLUDE_DEPTH`. -/
def MAX_INCLUDE_DEPTH : Nat := 16

/-- The fields of `struct lookup_context` of the file module that the functions
below use: the path of the map file and its modification time. -/
structure lookup_context where
  mapname : String
  mtime : Int
  deriving DecidableEq, Repr

/-- The include bookkeeping that `struct master` and `struct map_source` both
carry and the file module reads and writes: the fields `recurse` and `depth`. -/
structure include_guard where
  recurse : Nat
  depth : Nat
  deriving DecidableEq, Repr

/-- The statuses the file module hands around: the four of `nsswitch_status`
(of which `NSS_STATUS_SUCCESS` is the value 0) and the further codes
`NSS_STATUS_UNKNOWN` and `NSS_STATUS_COMPLETED`. -/
inductive module_status where
  | NSS_STATUS_UNKNOWN
  | NSS_STATUS_COMPLETED
  | nss (status : nsswitch_status)
  deriving DecidableEq, Repr

/-- The C library `basename` (GNU version): the text after the last `/`, the
whole text when it has none. -/
def basename (path : List Char) : List Char :=
  (path.reverse.takeWhile fun c => c != '/').reverse

/-- `check_master_self_include(master, ctxt)`, with `master->name` the payload
of the inclusion line. -/
def check_master_self_include (m : master) (ctxt : lookup_context) : Nat :=
  if m.name.data.head? = some '/' then
    if m.name = ctxt.mapname then 1 else 0
  else if basename m.name.data = basename ctxt.mapname.data then 1
  else 0

/-- `check_self_include(key, ctxt)`, with `key` the key read from the map, its
leading `+` included. -/
def check_self_include (key : String) (ctxt : lookup_context) : Nat :=
  if key.data.tail.head? = some '/' then
    if key.data.tail = ctxt.mapname.data then 1 else 0
  else if basename ctxt.mapname.data = basename key.data.tail then 1
  else 0

/-- The pointers of the payload scan in `prepare_plus_include`, as offsets into
`buf`: whether `type` has been set (to `buf`), where `fmt` and `map` point,
and the offsets that have been overwritten with NUL. -/
structure plus_scan where
  type : Bool
  fmt : Option Nat
  map : Nat
  nuls : List Nat
  deriving DecidableEq, Repr

/-- The loop `for (tmp = buf; *tmp; tmp++)` of `prepare_plus_include` with
`tmp` at offset `tmp`.  `none`: the loop reads past the terminating NUL of
`buf`, where the C code has no defined result. -/
def plus_scan_loop (buf : List Char) : Nat → Nat → plus_scan → Option plus_scan
  | 0, _, _ => none
  | fuel + 1, tmp, s =>
    if buf.length < tmp then none
    else
      match buf.get? tmp with
      | none => some s
      | some c =>
        if c = ' ' then some { s with nuls := tmp :: s.nuls }
        else
          let step : Nat × plus_scan :=
            if c = ',' then
              (tmp + 1, { s with type := true, fmt := some (tmp + 1), nuls := tmp :: s.nuls })
            else if c = ':' then
              (tmp + 1, { s with type := if s.fmt.isNone then true else s.type,
                                 map := tmp + 1, nuls := tmp :: s.nuls })
            else (tmp, s)
          let tmp2 := if buf.get? step.1 = some '\\' then step.1 + 1 else step.1
          plus_scan_loop buf fuel (tmp2 + 1) step.2

/-- The C string that starts at offset `p` of `buf`, given the offsets that
hold a NUL. -/
def cstring_at (buf : List Char) (nuls : List Nat) (p : Nat) : String :=
  String.mk (((buf.enum.drop p).takeWhile fun ic => !(nuls.contains ic.1)).map Prod.snd)

/-- `prepare_plus_include(ap, age, key, inc)`, given the bookkeeping of the
current source: the map source added to the new entry (the entry is new, so
`master_add_map_source` adds the source) and its bookkeeping.  `none`: the
payload scan has no defined result. -/
def prepare_plus_include (current : include_guard) (age : Int) (key : String) (inc : Nat) :
    Option (map_source × include_guard) :=
  let buf := key.data.tail
  match plus_scan_loop buf (buf.length + 2) 0
      { type := false, fmt := none, map := 0, nuls := [] } with
  | none => none
  | some s =>
    some ({ type := if s.type then some (cstring_at buf s.nuls 0) else none,
            format := s.fmt.map (cstring_at buf s.nuls),
            age := age,
            argv := [cstring_at buf s.nuls s.map],
            freed := false },
          { recurse := if inc ≠ 0 then 1 else 0, depth := current.depth + 1 })

/-- Calls that leave the file module, in the order they are made. -/
inductive file_call where
  | fopen (mapname : String)
  | fclose (mapname : String)
  | master_parse_entry (buffer : String) (timeout logging : Nat) (age : Int)
  | lookup_nss_read_master (name : String) (guard : include_guard) (age : Int)
  | lookup_nss_read_map (source : map_source) (guard : include_guard) (age : Int)
  | lookup_nss_mount (source : map_source) (guard : include_guard) (key : String)
      (key_len : Nat)
  | parse_mount (key : String) (key_len : Nat) (mapent : String)
  | nextstate (statefd : Int) (next : states)
  | rmdir_path (key : String)
  deriving DecidableEq, Repr

/-- The environment of the file module.

* `KEY_MAX_LEN`, `MAPENT_MAX_LEN`, `NEGATIVE_TIMEOUT`: the macros of
  `automount.h`.
* `fopen`: the text of a file, or `none` when it cannot be opened; `fstat`: its
  modification time, or `none` when `fstat` fails.
* `time n`: what `time(NULL)` answers when `n` calls have been made before.
* `sanitize_path key len type`: the cleaned key, or `none` for `NULL`.
* `cache_lookup`: the lookup of `lib/cache.c` that may answer with another
  entry than the one stored under the key itself.
* `parse_mount`, `lookup_nss_read_map`, `lookup_nss_mount`: the return value
  and the cache afterwards; `lookup_nss_read_master`: the return value. -/
structure file_env where
  KEY_MAX_LEN : Nat
  MAPENT_MAX_LEN : Nat
  NEGATIVE_TIMEOUT : Int
  fopen : String → Option (List Char)
  fstat : String → Option Int
  time : Nat → Int
  sanitize_path : String → Nat → Nat → Option String
  cache_lookup : mapent_cache → String → Option mapent
  parse_mount : mapent_cache → String → Nat → String → Int × mapent_cache
  lookup_nss_read_master : String → include_guard → Int → Int
  lookup_nss_read_map : mapent_cache → map_source → include_guard → Int → Int × mapent_cache
  lookup_nss_mount :
    mapent_cache → map_source → include_guard → String → Nat → Int × mapent_cache

/-- What the file module works on: the cache `source->mc`, the flag
`source->stale`, the number of `time(NULL)` calls made and the calls made so
far. -/
structure file_state where
  mc : mapent_cache
  stale : Nat
  clock : Nat
  log : List file_call
  deriving DecidableEq, Repr

/-- The `while (1)` loop of `lookup_read_master` on the text left in the
stream: the calls made. -/
def read_master_loop (env : file_env) (m : master) (g : include_guard) (age : Int)
    (ctxt : lookup_context) : Nat → List Char → List file_call → Option (List file_call)
  | 0, _, _ => none
  | fuel + 1, text, log =>
    let r := read_one env.KEY_MAX_LEN env.MAPENT_MAX_LEN text
    if r.ret = 0 then
      if r.eof then some log else read_master_loop env m g age ctxt fuel r.rest log
    else
      let path := String.mk r.key
      let log1 :=
        if path.data.head? = some '+' then
          let name := String.mk path.data.tail
          let inc := check_master_self_include { m with name := name } ctxt
          log ++ [file_call.lookup_nss_read_master name
            { recurse := if inc ≠ 0 then 1 else g.recurse, depth := g.depth + 1 } age]
        else
          log ++ [file_call.master_parse_entry (path ++ " " ++ String.mk r.mapent)
            m.default_timeout m.default_logging age]
      if r.eof then some log1 else read_master_loop env m g age ctxt fuel r.rest log1

/-- `lookup_read_master(master, age, context)`, with `g` the fields `recurse`
and `depth` of `master`: the status, the context afterwards and the calls
made. -/
def lookup_read_master (env : file_env) (m : master) (g : include_guard) (age : Int)
    (ctxt : lookup_context) : Option (nsswitch_status × lookup_context × List file_call) :=
  if g.recurse ≠ 0 then some (.NSS_STATUS_UNAVAIL, ctxt, [])
  else if g.depth > MAX_INCLUDE_DEPTH then some (.NSS_STATUS_UNAVAIL, ctxt, [])
  else
    match env.fopen ctxt.mapname with
    | none => some (.NSS_STATUS_UNAVAIL, ctxt, [file_call.fopen ctxt.mapname])
    | some text =>
      match read_master_loop env m g age ctxt (text.length + 1) text
          [file_call.fopen ctxt.mapname] with
      | none => none
      | some log =>
        match env.fstat ctxt.mapname with
        | none => some (.NSS_STATUS_UNAVAIL, ctxt, log)
        | some mtime =>
          some (.NSS_STATUS_SUCCESS, { ctxt with mtime := mtime },
            log ++ [file_call.fclose ctxt.mapname])

/-- The `while (1)` loop of `lookup_read_map` on the text left in the stream. -/
def read_map_loop (env : file_env) (ap : autofs_point) (src : include_guard) (age : Int)
    (ctxt : lookup_context) : Nat → List Char → file_state → Option file_state
  | 0, _, _ => none
  | fuel + 1, text, s =>
    let r := read_one env.KEY_MAX_LEN env.MAPENT_MAX_LEN text
    if r.ret = 0 then
      if r.eof then some s else read_map_loop env ap src age ctxt fuel r.rest s
    else
      let key := String.mk r.key
      if key.data.head? = some '+' then
        match prepare_plus_include src age key (check_self_include key ctxt) with
        | none => none
        | some (source, guard) =>
          let res := env.lookup_nss_read_map s.mc source guard age
          let s1 : file_state :=
            { s with mc := res.2,
                     log := s.log ++ [file_call.lookup_nss_read_map source guard age] }
          if r.eof then some s1 else read_map_loop env ap src age ctxt fuel r.rest s1
      else
        match env.sanitize_path key r.k_len ap.type with
        | none => read_map_loop env ap src age ctxt fuel r.rest s
        | some s_key =>
          let s1 : file_state :=
            { s with mc := (cache_update s.mc s_key (some (String.mk r.mapent)) age).2 }
          if r.eof then some s1 else read_map_loop env ap src age ctxt fuel r.rest s1

/-- `lookup_read_map(ap, age, context)`, with `src` the fields `recurse` and
`depth` of the current source. -/
def lookup_read_map (env : file_env) (ap : autofs_point) (src : include_guard) (age : Int)
    (ctxt : lookup_context) (s : file_state) :
    Option (nsswitch_status × lookup_context × file_state) :=
  if src.recurse ≠ 0 then some (.NSS_STATUS_UNAVAIL, ctxt, s)
  else if src.depth > MAX_INCLUDE_DEPTH then some (.NSS_STATUS_UNAVAIL, ctxt, s)
  else
    let s0 : file_state := { s with log := s.log ++ [file_call.fopen ctxt.mapname] }
    match env.fopen ctxt.mapname with
    | none => some (.NSS_STATUS_UNAVAIL, ctxt, s0)
    | some text =>
      match read_map_loop env ap src age ctxt (text.length + 2) text s0 with
      | none => none
      | some s1 =>
        match env.fstat ctxt.mapname with
        | none => some (.NSS_STATUS_UNAVAIL, ctxt, s1)
        | some mtime =>
          some (.NSS_STATUS_SUCCESS, { ctxt with mtime := mtime },
            { s1 with log := s1.log ++ [file_call.fclose ctxt.mapname] })

/-- The `while (1)` loop of `lookup_one` on the text left in the stream. -/
def lookup_one_loop (env : file_env) (ap : autofs_point) (key : String) (key_len : Nat)
    (ctxt : lookup_context) (src : include_guard) (age : Int) :
    Nat → List Char → file_state → Option (Nat × file_state)
  | 0, _, _ => none
  | fuel + 1, text, s =>
    let r := read_one env.KEY_MAX_LEN env.MAPENT_MAX_LEN text
    if r.ret ≠ 0 then
      let mkey := String.mk r.key
      if mkey.data.head? = some '+' then
        match prepare_plus_include src age mkey (check_self_include mkey ctxt) with
        | none => none
        | some (source, guard) =>
          let res := env.lookup_nss_mount s.mc source guard key key_len
          let s1 : file_state :=
            { s with mc := res.2,
                     log := s.log ++ [file_call.lookup_nss_mount source guard key key_len] }
          if res.1 ≠ 0 then
            some (CHE_COMPLETED, { s1 with log := s1.log ++ [file_call.fclose ctxt.mapname] })
          else if r.eof then
            some (CHE_MISSING, { s1 with log := s1.log ++ [file_call.fclose ctxt.mapname] })
          else lookup_one_loop env ap key key_len ctxt src age fuel r.rest s1
      else
        match env.sanitize_path mkey r.k_len ap.type with
        | none => lookup_one_loop env ap key key_len ctxt src age fuel r.rest s
        | some s_key =>
          if key_len ≠ s_key.length then
            lookup_one_loop env ap key key_len ctxt src age fuel r.rest s
          else if s_key.data.take key_len ≠ key.data.take key_len then
            lookup_one_loop env ap key key_len ctxt src age fuel r.rest s
          else
            let u := cache_update s.mc key (some (String.mk r.mapent)) age
            some (u.1, { s with mc := u.2, log := s.log ++ [file_call.fclose ctxt.mapname] })
    else if r.eof then
      some (CHE_MISSING, { s with log := s.log ++ [file_call.fclose ctxt.mapname] })
    else lookup_one_loop env ap key key_len ctxt src age fuel r.rest s

/-- `lookup_one(ap, key, key_len, ctxt)`: the cache result code and the state
afterwards. -/
def lookup_one (env : file_env) (ap : autofs_point) (key : String) (key_len : Nat)
    (ctxt : lookup_context) (src : include_guard) (s : file_state) :
    Option (Nat × file_state) :=
  let age := env.time s.clock
  let s0 : file_state :=
    { s with clock := s.clock + 1, log := s.log ++ [file_call.fopen ctxt.mapname] }
  match env.fopen ctxt.mapname with
  | none => some (CHE_FAIL, s0)
  | some text => lookup_one_loop env ap key key_len ctxt src age (text.length + 2) text s0

/-- The `while (1)` loop of `lookup_wild` on the text left in the stream. -/
def lookup_wild_loop (env : file_env) (ctxt : lookup_context) (age : Int) :
    Nat → List Char → file_state → Option (Nat × file_state)
  | 0, _, _ => none
  | fuel + 1, text, s =>
    let r := read_one env.KEY_MAX_LEN env.MAPENT_MAX_LEN text
    if r.ret ≠ 0 then
      if r.key.head? = some '*' ∧ r.k_len = 1 then
        let u := cache_update s.mc "*" (some (String.mk r.mapent)) age
        some (u.1, { s with mc := u.2, log := s.log ++ [file_call.fclose ctxt.mapname] })
      else lookup_wild_loop env ctxt age fuel r.rest s
    else if r.eof then
      some (CHE_MISSING, { s with log := s.log ++ [file_call.fclose ctxt.mapname] })
    else lookup_wild_loop env ctxt age fuel r.rest s

/-- `lookup_wild(ap, ctxt)`. -/
def lookup_wild (env : file_env) (ctxt : lookup_context) (s : file_state) :
    Option (Nat × file_state) :=
  let age := env.time s.clock
  let s0 : file_state :=
    { s with clock := s.clock + 1, log := s.log ++ [file_call.fopen ctxt.mapname] }
  match env.fopen ctxt.mapname with
  | none => some (CHE_FAIL, s0)
  | some text => lookup_wild_loop env ctxt age (text.length + 2) text s0

/-- The end of `check_map_indirect`, from `if (ap->ghost && need_map)` on. -/
def check_map_indirect_end (ap : autofs_point) (need_map : Bool) (ret : Nat)
    (s : file_state) : module_status × file_state :=
  let s1 : file_state :=
    if ap.ghost ≠ 0 ∧ need_map = true then
      { s with stale := 1,
               log := s.log ++ [file_call.nextstate ap.state_pipe.2 states.ST_READMAP] }
    else s
  if ret = CHE_MISSING then (.nss .NSS_STATUS_NOTFOUND, s1)
  else (.nss .NSS_STATUS_SUCCESS, s1)

/-- `check_map_indirect(ap, key, key_len, ctxt)`.  The cache holds its own
entries, so `exists->mc != mc` does not hold for an entry found in it. -/
def check_map_indirect (env : file_env) (ap : autofs_point) (key : String) (key_len : Nat)
    (ctxt : lookup_context) (src : include_guard) (s : file_state) :
    Option (module_status × file_state) :=
  let found := cache_lookup_distinct s.mc key
  match lookup_one env ap key key_len ctxt src s with
  | none => none
  | some (ret, s1) =>
    if ret = CHE_COMPLETED then some (.NSS_STATUS_COMPLETED, s1)
    else if ret = CHE_FAIL then some (.nss .NSS_STATUS_NOTFOUND, s1)
    else
      let need_map : Bool :=
        decide (ret &&& CHE_UPDATED ≠ 0) || (found.isSome && decide (ret &&& CHE_MISSING ≠ 0))
      if ret = CHE_MISSING then
        match lookup_wild env ctxt s1 with
        | none => none
        | some (wild, s2) =>
          if wild = CHE_COMPLETED ∨ CHE_UPDATED ≠ 0 ∨ CHE_OK ≠ 0 then
            some (.nss .NSS_STATUS_SUCCESS, s2)
          else
            let s3 : file_state :=
              if wild = CHE_MISSING then { s2 with mc := (cache_delete s2.mc "*").2 } else s2
            let d := cache_delete s3.mc key
            let s4 : file_state :=
              { s3 with mc := d.2,
                        log := if d.1 ≠ 0 ∧ wild &&& (CHE_MISSING ||| CHE_FAIL) ≠ 0 then
                                 s3.log ++ [file_call.rmdir_path key]
                               else s3.log }
            some (check_map_indirect_end ap need_map ret s4)
      else some (check_map_indirect_end ap need_map ret s1)

/-- The key buffer of `lookup_mount` after
`snprintf(key, KEY_MAX_LEN, "%s", name)`: at most `KEY_MAX_LEN - 1` characters
of the name. -/
def mount_key (env : file_env) (name : String) : String :=
  String.mk (name.data.take (env.KEY_MAX_LEN - 1))

/-- The test `me && me->status >= time(NULL)` of `lookup_mount` on the entry
stored under the key: whether it holds, and the state afterwards (the clock is
read when there is an entry). -/
def mount_negative (env : file_env) (key : String) (s : file_state) : Bool × file_state :=
  match cache_lookup_distinct s.mc key with
  | none => (false, s)
  | some me => (decide (me.status ≥ env.time s.clock), { s with clock := s.clock + 1 })

/-- The block `if (ap->type == LKP_INDIRECT && *key != '/')` of
`lookup_mount`: the status it returns with, or `none` when `lookup_mount` goes
on, and the state afterwards. -/
def mount_indirect (env : file_env) (ap : autofs_point) (key : String)
    (ctxt : lookup_context) (src : include_guard) (s : file_state) :
    Option (Option module_status × file_state) :=
  if ap.type = LKP_INDIRECT ∧ key.data.head? ≠ some '/' then
    let lkp_key :=
      match cache_lookup_distinct s.mc key with
      | none => key
      | some me =>
        match me.multi with
        | some root => root
        | none => key
    match check_map_indirect env ap lkp_key lkp_key.length ctxt src s with
    | none => none
    | some (status, s1) =>
      if status = .nss .NSS_STATUS_SUCCESS then some (none, s1)
      else if status = .NSS_STATUS_COMPLETED then some (some (.nss .NSS_STATUS_SUCCESS), s1)
      else some (some (.nss .NSS_STATUS_NOTFOUND), s1)
  else some (none, s)

/-- The end of `lookup_mount`, from `me = cache_lookup(mc, key)` on. -/
def mount_parse (env : file_env) (key : String) (key_len : Nat) (s : file_state) :
    module_status × file_state :=
  let mapent : Option String :=
    match env.cache_lookup s.mc key with
    | none => none
    | some me =>
      match me.mapent with
      | none => none
      | some text => if text = "" then none else some text
  match mapent with
  | none => (.nss .NSS_STATUS_TRYAGAIN, s)
  | some text =>
    let parsed := env.parse_mount s.mc key key_len text
    let s1 : file_state :=
      { s with mc := parsed.2, log := s.log ++ [file_call.parse_mount key key_len text] }
    if parsed.1 ≠ 0 then
      let now := env.time s1.clock
      let rv : Nat × mapent_cache :=
        match cache_lookup_distinct s1.mc key with
        | none => cache_update s1.mc key none now
        | some _ => (CHE_OK, s1.mc)
      let mc2 :=
        if rv.1 ≠ CHE_FAIL then
          mapent_write (fun me => { me with status := now + env.NEGATIVE_TIMEOUT }) rv.2 key
        else rv.2
      (.nss .NSS_STATUS_TRYAGAIN, { s1 with mc := mc2, clock := s1.clock + 1 })
    else (.nss .NSS_STATUS_SUCCESS, s1)

/-- `lookup_mount(ap, name, name_len, context)`, with `src` the fields
`recurse` and `depth` of the current source: the status and the state
afterwards.  The C code does not read `name_len`. -/
def lookup_mount (env : file_env) (ap : autofs_point) (name : String) (_name_len : Nat)
    (ctxt : lookup_context) (src : include_guard) (s : file_state) :
    Option (module_status × file_state) :=
  if src.recurse ≠ 0 then some (.nss .NSS_STATUS_UNAVAIL, s)
  else if src.depth > MAX_INCLUDE_DEPTH then some (.nss .NSS_STATUS_SUCCESS, s)
  else
    let key := mount_key env name
    let key_len := name.length
    if key_len > env.KEY_MAX_LEN then some (.nss .NSS_STATUS_NOTFOUND, s)
    else
      let neg := mount_negative env key s
      if neg.1 then some (.nss .NSS_STATUS_NOTFOUND, neg.2)
      else
        match mount_indirect env ap key ctxt src neg.2 with
        | none => none
        | some (some status, s1) => some (status, s1)
        | some (none, s1) => some (mount_parse env key key_len s1)

end File

/-! ## Vocabulary and concrete inputs of the statements on the file module -/

namespace File

/-- The words of the specification for "the name resolves to the same map":
the text is absolute and equal to the path of the map, or it is not absolute
and its basename equals the basename of the path of the map. -/
def resolves_to_map (text mapname : List Char) : Prop :=
  (text.head? = some '/' ∧ text = mapname) ∨
  (text.head? ≠ some '/' ∧ basename text = basename mapname)

/-- The payload of an inclusion line is a bare name: it holds none of the
characters the payload scan looks for. -/
def bare_name (payload : List Char) : Prop :=
  ∀ c ∈ payload, c ≠ ' ' ∧ c ≠ ',' ∧ c ≠ ':' ∧ c ≠ '\\'

/-- An environment of the file module: every path opens on `text`, the clock
answers `100 + n` at its call number `n`, the negative timeout is 10, the
parser answers `parse_ret` and leaves the cache alone, `cache_lookup` answers
with the entry stored under the key, and included maps answer 0. -/
def file_env_of (text : String) (parse_ret : Int) : file_env :=
  { KEY_MAX_LEN := 255, MAPENT_MAX_LEN := 4095, NEGATIVE_TIMEOUT := 10,
    fopen := fun _ => some text.data,
    fstat := fun _ => some 7,
    time := fun n => 100 + n,
    sanitize_path := fun key _ _ => some key,
    cache_lookup := fun mc key => cache_lookup_distinct mc key,
    parse_mount := fun mc _ _ _ => (parse_ret, mc),
    lookup_nss_read_master := fun _ _ _ => 0,
    lookup_nss_read_map := fun mc _ _ _ => (0, mc),
    lookup_nss_mount := fun mc _ _ _ _ => (0, mc) }

/-- The state of the file module before any call, on the cache `mc`. -/
def file_state_of (mc : mapent_cache) : file_state :=
  { mc := mc, stale := 0, clock := 0, log := [] }

/-- A cache entry with the given key, text and negative deadline. -/
def negative_entry (key text : String) (status : Int) : mapent :=
  { key := key, mapent := some text, age := 0, status := status, multi := none,
    dev := -1, ino := -1 }

/-- A direct mount point (path slash-dash) without submounts. -/
def direct_point : autofs_point :=
  { path := "/-", maptype := none, mapfmt := none, mapargv := [], ghost := 0,
    type := LKP_DIRECT, state := states.ST_READY, state_pipe := (3, 4), submounts := [] }

end File

/-! ## `lib/master.c`: new mount points and the master-map reader -/

/-- `master_add_autofs_point(entry, timeout, logopt, ghost, submount)` with the
file-scope variables `g`: the value returned and the entry with its new mount
point.  The fields `exp_timeout`, `exp_runfreq`, `logopt` and `submount` are not
among the fields of `autofs_point` above.  `none`: the path is empty, so that
`ap->path[1]` lies behind the terminating NUL. -/
def master_add_autofs_point (g : master_globals) (entry : master_mapent)
    (_timeout _logopt ghost _submount : Nat) : Option (Int × master_mapent) :=
  match entry.path.data with
  | [] => none
  | _ :: rest =>
    let ap : autofs_point :=
      { path := entry.path, maptype := none, mapfmt := none, mapargv := [],
        ghost := if ghost ≠ 0 then ghost else g.default_ghost_mode,
        type := if rest.head? = some '-' then LKP_DIRECT else LKP_INDIRECT,
        state := states.ST_INIT, state_pipe := (-1, -1), submounts := [] }
    some (1, { entry with ap := ap })

/-- A call on `master_mutex`. -/
inductive mutex_call where
  | lock
  | unlock
  deriving DecidableEq, Repr

/-- The calls `master_mount_mounts` makes on `master_mutex`: it locks the mutex
before its loop and unlocks it after the loop; `shutdown_entry`,
`check_update_map_sources` and `master_do_mount` work on `ap->state_mutex` and
`sc.mutex` only. -/
def master_mount_mounts_mutex : List mutex_call :=
  [.lock, .unlock]

/-- What `master_read_master` leaves behind: the value returned (`none` when
`fatal` ends the process), the registry, the calls made and the calls on
`master_mutex`, in order. -/
structure read_master_result where
  ret : Option Int
  registry : master
  events : List Event
  mutex : List mutex_call

/-- `master_read_master(master, age, readall)`.  `lookup_nss_read_master` (which
the sources call and do not define) answers with its return value and the
registry it has filled; `unheld` is what `pthread_mutex_unlock` returns for a
mutex that is not held (0 for a default mutex, `EPERM` for an error-checking
one), and a non-zero status ends the process in `fatal`. -/
def master_read_master (env : Env) (lookup_nss_read_master : master → Int → Int × master)
    (unheld : Int) (m : master) (age : Int) (readall : Int) : read_master_result :=
  let read := lookup_nss_read_master m age
  if read.1 = 0 then { ret := some 0, registry := read.2, events := [], mutex := [] }
  else
    let mounted := master_mount_mounts env read.2 age readall
    let m1 := mounted.2.1
    let mutex1 := master_mount_mounts_mutex ++ [mutex_call.unlock]
    if unheld ≠ 0 then
      { ret := none, registry := m1, events := mounted.2.2, mutex := mutex1 }
    else if m1.mounts.isEmpty then
      { ret := some 0, registry := m1, events := mounted.2.2,
        mutex := mutex1 ++ [mutex_call.unlock] }
    else
      { ret := some 1, registry := m1, events := mounted.2.2,
        mutex := mutex1 ++ [mutex_call.unlock] }

/-! ## Vocabulary of the statements on the registry walks -/

mutual
/-- The transitive submounts of a mount point in depth-first post-order: every
child after all of its own descendants and before the subtree of its next
sibling. -/
def post_order (ap : autofs_point) : List autofs_point :=
  match ap with
  | ⟨_, _, _, _, _, _, _, _, submounts⟩ => post_order_list submounts
/-- The post-order of a list of sibling mount points. -/
def post_order_list : List autofs_point → List autofs_point
  | [] => []
  | this :: rest => post_order this ++ [this] ++ post_order_list rest
end

/-- The writes of the state `next` for a mount point: one to the state channel
of every transitive submount, in post-order and whatever the state of the
submount, then one to the state channel of the mount point itself. -/
def state_writes (ap : autofs_point) (next : states) : List Event :=
  ((post_order ap).map fun p => Event.nextstate p.state_pipe.2 next)
    ++ [Event.nextstate ap.state_pipe.2 next]

/-- The sources of the entry have changed at the epoch `age`: `readall` is set,
or a source has an `age` below the epoch, or a source has the type `null`. -/
def sources_changed (entry : master_mapent) (age readall : Int) : Bool :=
  decide (readall ≠ 0) ||
    entry.maps.any fun s => decide (s.age < age) || decide (s.type = some "null")

/-- The calls `master_mount_mounts` makes for one entry of the registry. -/
def entry_actions (env : Env) (age readall : Int) (this : master_mapent) : List Event :=
  (mount_mounts_loop env age readall [this]).2

/-- The number of `lock` calls in a sequence of calls on a mutex. -/
def lock_count (l : List mutex_call) : Nat :=
  l.count mutex_call.lock

/-- The number of `unlock` calls in a sequence of calls on a mutex. -/
def unlock_count (l : List mutex_call) : Nat :=
  l.count mutex_call.unlock

/-- Whether a sequence of calls on a mutex that is held `held` times at its
start never unlocks the mutex while it is not held. -/
def unlocks_held : List mutex_call → Nat → Bool
  | [], _ => true
  | mutex_call.lock :: rest, held => unlocks_held rest (held + 1)
  | mutex_call.unlock :: rest, held =>
    match held with
    | 0 => false
    | n + 1 => unlocks_held rest n

/-- An entry of `/mnt/e` seen at epoch 5 whose mount point is in the state
`ST_EXPIRE`, with an open state pipe. -/
def expiring_entry : master_mapent :=
  entry_of "/mnt/e" 5 [source_of "file" 5 "/etc/auto.e"]
    (point "/mnt/e" ["auto.e"] .ST_EXPIRE 16 [])

/-- An entry of `/mnt/f` seen at epoch 5 whose mount point is in the state
`ST_EXPIRE` and has the submount `/mnt/f/s` in the state `ST_INIT`, both with an
open state pipe. -/
def expiring_entry_with_submount : master_mapent :=
  entry_of "/mnt/f" 5 [source_of "file" 5 "/etc/auto.f"]
    (point "/mnt/f" ["auto.f"] .ST_EXPIRE 20 [point "/mnt/f/s" ["auto.s"] .ST_INIT 22 []])

/-- An entry of `/mnt/d` seen at epoch 5 with a source last seen at epoch 4 and
a source seen at epoch 5. -/
def entry_with_stale_source : master_mapent :=
  entry_of "/mnt/d" 5 [source_of "file" 4 "/etc/auto.old", source_of "file" 5 "/etc/auto.new"]
    (point "/mnt/d" ["auto.d"] .ST_READY 18 [])

/-! ## The key buffer of the lookup modules -/

/-- `snprintf(key, KEY_MAX_LEN, ...)` for a formatted text: what the key buffer
holds afterwards (at most `KEY_MAX_LEN - 1` characters and the NUL) and the
value returned (the length of the whole text). -/
def snprintf (KEY_MAX_LEN : Nat) (text : String) : String × Nat :=
  (String.mk (text.data.take (KEY_MAX_LEN - 1)), text.length)

/-! ## `modules/lookup_nisplus.c` -/

namespace Nisplus

/-- The calls `lookup_mount` of the NIS+ module makes, in order. -/
inductive nisplus_call where
  | check_map_indirect (key : String) (key_len : Nat)
  | cache_lookup (key : String)
  | parse_mount (key : String) (key_len : Nat) (mapent : String)
  deriving DecidableEq, Repr

/-- The environment of `lookup_mount` of the NIS+ module: the macro
`KEY_MAX_LEN`, the status `check_map_indirect` comes back with after its
queries to the NIS+ service, the text of the entry `cache_lookup` finds, and
the value of the parser. -/
structure nisplus_env where
  KEY_MAX_LEN : Nat
  check_map_indirect : String → Nat → nsswitch_status
  cache_lookup : String → Option String
  parse_mount : String → Nat → String → Int

/-- `lookup_mount(ap, name, name_len, context)` of the NIS+ module: the status
and the calls made.  The C code does not read `name_len`. -/
def lookup_mount (env : nisplus_env) (ap : autofs_point) (name : String) (_name_len : Nat) :
    nsswitch_status × List nisplus_call :=
  let buf := snprintf env.KEY_MAX_LEN name
  let key := buf.1
  let key_len := buf.2
  if key_len > env.KEY_MAX_LEN then (.NSS_STATUS_NOTFOUND, [])
  else
    let checked : Option nsswitch_status × List nisplus_call :=
      if ap.type = LKP_INDIRECT then
        let status := env.check_map_indirect key key_len
        (if status ≠ .NSS_STATUS_SUCCESS then some status else none,
          [nisplus_call.check_map_indirect key key_len])
      else (none, [])
    match checked.1 with
    | some status => (status, checked.2)
    | none =>
      let log := checked.2 ++ [nisplus_call.cache_lookup key]
      match env.cache_lookup key with
      | some mapent =>
        if env.parse_mount key key_len mapent ≠ 0 then
          (.NSS_STATUS_TRYAGAIN, log ++ [nisplus_call.parse_mount key key_len mapent])
        else (.NSS_STATUS_SUCCESS, log ++ [nisplus_call.parse_mount key key_len mapent])
      | none => (.NSS_STATUS_TRYAGAIN, log)

end Nisplus

/-! ## `modules/lookup_yp.c` -/

namespace Yp

/-- `YPERR_SUCCESS` of `<rpcsvc/ypclnt.h>`. -/
def YPERR_SUCCESS : Int := 0

/-- `YPERR_KEY` of `<rpcsvc/ypclnt.h>`: no such key in the map. -/
def YPERR_KEY : Int := 5

/-- The calls `lookup_mount` of the YP module makes, in order. -/
inductive yp_call where
  | yp_match (key : String) (key_len : Nat)
  | cache_update (key : String) (mapent : String)
  | cache_delete (key : String)
  | rmdir_path (key : String)
  | kill_sighup
  | cache_lookup (key : String)
  | cache_partial_match (key : String)
  | parse_mount (name : String) (name_len : Nat) (mapent : String)
  deriving DecidableEq, Repr

/-- The environment of `lookup_mount` of the YP module: the macro
`KEY_MAX_LEN`, the global mount point (`ap.type`, `ap.exp_runfreq`), the map
name, the clock, what `yp_match` answers (error code and entry text), and what
the cache functions of the old cache interface and the parser answer. -/
structure yp_env where
  KEY_MAX_LEN : Nat
  ap_type : Nat
  exp_runfreq : Int
  mapname : String
  time : Int
  yp_match : String → Nat → Int × String
  cache_update : String → String → Int
  cache_lookup_first : Option Int
  cache_delete : String → Int
  cache_lookup : String → Option String
  cache_partial_match : String → Bool
  parse_mount : String → Nat → String → Int

/-- `lookup_one(root, key, key_len, ctxt)` of the YP module: the value returned
and the calls made. -/
def lookup_one (env : yp_env) (key : String) (key_len : Nat) : Int × List yp_call :=
  let answer := env.yp_match key key_len
  if answer.1 ≠ YPERR_SUCCESS then
    if answer.1 = YPERR_KEY then (CHE_MISSING, [yp_call.yp_match key key_len])
    else (-answer.1, [yp_call.yp_match key key_len])
  else
    (env.cache_update key answer.2,
      [yp_call.yp_match key key_len, yp_call.cache_update key answer.2])

/-- `lookup_mount(root, name, name_len, context)` of the YP module: the value
returned and the calls made.  The call of `lookup_wild` stands under
`if (!ret && ...)` in a branch where `ret` is `CHE_MISSING`, so it is never
made. -/
def lookup_mount (env : yp_env) (root name : String) (name_len : Nat) :
    Int × List yp_call :=
  let buf :=
    if env.ap_type = LKP_DIRECT then snprintf env.KEY_MAX_LEN (root ++ "/" ++ name)
    else snprintf env.KEY_MAX_LEN name
  let key := buf.1
  let key_len := buf.2
  if key_len > env.KEY_MAX_LEN then (1, [])
  else
    let one := lookup_one env key key_len
    let ret := one.1
    if ret = 0 then (1, one.2)
    else if ret < 0 then (1, one.2)
    else
      let t_last_read : Int :=
        match env.cache_lookup_first with
        | some age => env.time - age
        | none => env.exp_runfreq + 1
      let hup : List yp_call :=
        if t_last_read > env.exp_runfreq then [yp_call.kill_sighup] else []
      let log1 : List yp_call :=
        if ret = CHE_UPDATED then one.2 ++ hup
        else if ret = CHE_MISSING then
          one.2 ++ [yp_call.cache_delete key]
            ++ (if env.cache_delete key = 0 then [yp_call.rmdir_path key] else [])
            ++ hup
        else one.2
      let log2 := log1 ++ [yp_call.cache_lookup key]
      match env.cache_lookup key with
      | some mapent =>
        (env.parse_mount name name_len mapent, log2 ++ [yp_call.parse_mount name name_len mapent])
      | none =>
        let log3 := log2 ++ [yp_call.cache_partial_match key]
        if env.cache_partial_match key then
          let mapent := "-fstype=autofs yp:" ++ env.mapname
          (env.parse_mount name name_len mapent,
            log3 ++ [yp_call.parse_mount name name_len mapent])
        else (1, log3)

end Yp

/-! ## `modules/lookup_hesiod.c` -/

namespace Hesiod

/-- `INT_MAX` of `<limits.h>` for a 32-bit `int`. -/
def INT_MAX : Int := 2147483647

/-- C `strrchr(s, c)`: the text from the last `c` of `s` on, `none` for
`NULL`. -/
def strrchr : List Char → Char → Option (List Char)
  | [], _ => none
  | x :: rest, c =>
    match strrchr rest c with
    | some found => some found
    | none => if x = c then some (x :: rest) else none

/-- The priority the loop of `lookup_mount` gives a record: `atoi(p + 1)` when
`p = strrchr(record, ' ')` is there and `p[1]` is a digit, `INT_MAX - 1`
otherwise. -/
def record_priority (record : String) : Int :=
  match strrchr record.data ' ' with
  | some p => if isdigit p.tail then (atoi p.tail : Int) else INT_MAX - 1
  | none => INT_MAX - 1

/-- The loop `for (record = hes_result; *record; ++record)` of `lookup_mount`
over the records still to visit, with `lowest_priority` and `best_record`. -/
def best_record_loop : List String → Int → Option String → Int × Option String
  | [], lowest_priority, best_record => (lowest_priority, best_record)
  | record :: rest, lowest_priority, best_record =>
    if record_priority record < lowest_priority then
      best_record_loop rest (record_priority record) (some record)
    else best_record_loop rest lowest_priority best_record

/-- How `lookup_mount` of the hesiod module ends: with `NSS_STATUS_UNAVAIL`
before the parser is called, or with the value of the parser, which has been
handed `best_record` (`none` for `NULL`). -/
inductive hesiod_result where
  | unavail
  | parsed (best_record : Option String) (rv : Int)
  deriving DecidableEq, Repr

/-- `lookup_mount(ap, name, name_len, context)` of the hesiod module.
`hes_resolve` answers with the `filsys` records of the name (`none` for
`NULL`), `parse_mount` with the value of the parser. -/
def lookup_mount (hes_resolve : String → Option (List String))
    (parse_mount : String → Nat → Option String → Int) (name : String) (name_len : Nat) :
    hesiod_result :=
  match hes_resolve name with
  | none => .unavail
  | some [] => .unavail
  | some (record :: rest) =>
    let best_record := (best_record_loop (record :: rest) INT_MAX none).2
    .parsed best_record (parse_mount name name_len best_record)

end Hesiod

/-! ## Concrete inputs of the statements on the lookups -/

/-- A name of `n` characters. -/
def long_name (n : Nat) : String :=
  String.mk (List.replicate n 'a')

namespace File

/-- The environment `env` with `KEY_MAX_LEN` set to `k + 1` and a `cache_lookup`
that finds the entry text `srv:/x` under every key. -/
def short_key_env (env : file_env) (k : Nat) : file_env :=
  { env with KEY_MAX_LEN := k + 1,
             cache_lookup := fun _ key => some (entry_with key "srv:/x") }

end File

/-! ## Action matching and the source loops -/

theorem mem_all_nss_status (s : nsswitch_status) : s ∈ all_nss_status := by
  cases s <;> simp [all_nss_status]

theorem check_negated_eq_none (this : nss_source) (r : nsswitch_status)
    (l : List nsswitch_status)
    (h : ∀ s ∈ l, (this.action s).action = .NSS_ACTION_RETURN →
      (this.action s).negated = true → r = s) :
    check_negated this r l = none := by
  induction l with
  | nil => rfl
  | cons s rest ih =>
    have ih1 := ih (fun t ht => h t (List.mem_cons_of_mem _ ht))
    have hs := h s (List.mem_cons_self _ _)
    simp only [check_negated]
    by_cases h1 : (this.action s).action = .NSS_ACTION_UNKNOWN
    · rw [if_pos h1]; exact ih1
    · rw [if_neg h1]
      by_cases h2 : (this.action s).negated = true ∧ r ≠ s
      · rw [if_pos h2]
        by_cases h3 : (this.action s).action = .NSS_ACTION_RETURN
        · exact absurd (hs h3 h2.1) h2.2
        · rw [if_neg h3]; exact ih1
      · rw [if_neg h2]; exact ih1

theorem check_negated_fires (this : nss_source) (r s : nsswitch_status)
    (l : List nsswitch_status) (hs : s ∈ l)
    (hret : (this.action s).action = .NSS_ACTION_RETURN)
    (hneg : (this.action s).negated = true) (hne : r ≠ s) :
    check_negated this r l = some (if r = .NSS_STATUS_SUCCESS then 1 else 0) := by
  induction l with
  | nil => cases hs
  | cons t rest ih =>
    simp only [check_negated]
    by_cases h1 : (this.action t).action = .NSS_ACTION_UNKNOWN
    · rw [if_pos h1]
      rcases List.mem_cons.mp hs with rfl | hmem
      · rw [hret] at h1; cases h1
      · exact ih hmem
    · rw [if_neg h1]
      by_cases h2 : (this.action t).negated = true ∧ r ≠ t
      · rw [if_pos h2]
        by_cases h3 : (this.action t).action = .NSS_ACTION_RETURN
        · rw [if_pos h3]; split_ifs <;> rfl
        · rw [if_neg h3]
          rcases List.mem_cons.mp hs with rfl | hmem
          · exact absurd hret h3
          · exact ih hmem
      · rw [if_neg h2]
        rcases List.mem_cons.mp hs with rfl | hmem
        · exact absurd ⟨hneg, hne⟩ h2
        · exact ih hmem

theorem negated_return_fires_eq_false (this : nss_source) (r : nsswitch_status) :
    negated_return_fires this r = false ↔
      ∀ s, (this.action s).action = .NSS_ACTION_RETURN →
        (this.action s).negated = true → r = s := by
  unfold negated_return_fires
  rw [List.any_eq_false]
  constructor
  · intro h s h1 h2
    have := h s (mem_all_nss_status s)
    by_contra hne
    exact this (by simp [h1, h2, hne])
  · intro h s _ hd
    have hd1 := of_decide_eq_true hd
    exact hd1.2.2 (h s hd1.1 hd1.2.1)

/-- The C code of the action matching agrees with its description. -/
theorem check_actions_eq_none (this : nss_source) (r : nsswitch_status) :
    check_actions this r = none ↔ action_terminates this r = false := by
  unfold check_actions action_terminates
  rw [Bool.or_eq_false_iff, negated_return_fires_eq_false]
  constructor
  · intro h
    cases hn : check_negated this r all_nss_status with
    | some v => rw [hn] at h; cases h
    | none =>
      rw [hn] at h
      refine ⟨?_, ?_⟩
      · intro s h1 h2
        by_contra hne
        rw [check_negated_fires this r s _ (mem_all_nss_status s) h1 h2 hne] at hn
        cases hn
      · cases r <;> simp only [check_direct] at h <;> simp_all
  · rintro ⟨h1, h2⟩
    rw [check_negated_eq_none this r _ (fun s _ => h1 s)]
    cases r <;> simp only [check_direct] <;> simp_all


theorem sources_left_cons (env : Env) (this : nss_source) (rest : List nss_source)
    (ap : autofs_point) :
    sources_left env (this :: rest) ap = sources_left env rest (source_left env this ap) := rfl

theorem sources_left_append (env : Env) (pre suf : List nss_source) (ap : autofs_point) :
    sources_left env (pre ++ suf) ap = sources_left env suf (sources_left env pre ap) := by
  unfold sources_left
  rw [List.foldl_append]

theorem source_left_path (env : Env) (this : nss_source) (ap : autofs_point) :
    (source_left env this ap).path = ap.path := by
  unfold source_left files_left
  split_ifs <;> rfl

theorem sources_left_path (env : Env) (l : List nss_source) (ap : autofs_point) :
    (sources_left env l ap).path = ap.path := by
  induction l generalizing ap with
  | nil => rfl
  | cons this rest ih => rw [sources_left_cons, ih, source_left_path]

/-- A `files` source that gets to its module leaves the point with the released
`path` in the first cell of its argument vector; any other turn leaves the
point alone. -/
theorem source_left_files (env : Env) (this : nss_source) (ap : autofs_point)
    (hfiles : strcasecmp_eq this.source "files" = true)
    (hslash : strchr (mapname ap) '/' = false) :
    source_left env this ap = files_left env ap := by
  unfold source_left
  rw [if_pos ⟨hfiles, hslash⟩]

theorem source_left_other (env : Env) (this : nss_source) (ap : autofs_point)
    (hfiles : strcasecmp_eq this.source "files" = false) :
    source_left env this ap = ap := by
  unfold source_left
  rw [if_neg]
  rintro ⟨h, _⟩
  rw [hfiles] at h
  cases h

theorem mount_loop_append (env : Env) (ap : autofs_point) (name : String) (name_len : Int)
    (pre suf : List nss_source) (log log1 : List Event)
    (h : mount_loop env ap name name_len pre log = (none, log1)) :
    mount_loop env ap name name_len (pre ++ suf) log
      = mount_loop env (sources_left env pre ap) name name_len suf log1 := by
  induction pre generalizing ap log with
  | nil =>
    simp only [mount_loop, Prod.mk.injEq, true_and] at h
    subst h; rfl
  | cons this rest ih =>
    simp only [List.cons_append, mount_loop] at h ⊢
    cases hs : mount_source env ap name name_len this log with
    | none => rw [hs] at h; cases h
    | some p =>
      obtain ⟨r, l⟩ := p
      rw [hs] at h
      simp only at h ⊢
      cases hc : check_actions this r with
      | some v => rw [hc] at h; cases h
      | none => rw [hc] at h; exact ih _ _ h

theorem read_map_loop_append (env : Env) (ap : autofs_point) (age : Int)
    (pre suf : List nss_source) (log log1 : List Event)
    (h : read_map_loop env ap age pre log = (none, log1)) :
    read_map_loop env ap age (pre ++ suf) log
      = read_map_loop env (sources_left env pre ap) age suf log1 := by
  induction pre generalizing ap log with
  | nil =>
    simp only [read_map_loop, Prod.mk.injEq, true_and] at h
    subst h; rfl
  | cons this rest ih =>
    simp only [List.cons_append, read_map_loop] at h ⊢
    cases hs : read_map_source env ap age this log with
    | none => rw [hs] at h; cases h
    | some p =>
      obtain ⟨r, l⟩ := p
      rw [hs] at h
      simp only at h ⊢
      cases hc : check_actions this r with
      | some v =>
        rw [hc] at h
        simp only at h
        split_ifs at h <;> cases h
      | none => rw [hc] at h; exact ih _ _ h

/-- The pipeline of `lookup_nss_mount` is the source loop followed by the test
of `list_empty`. -/
theorem lookup_nss_mount_eq (env : Env) (ap : autofs_point) (name : String) (name_len : Int)
    (nsslist : List nss_source) (log : List Event)
    (hmaptype : ap.maptype = none) (habs : mapname_is_absolute ap = false)
    (hparse : env.nsswitch_parse = some nsslist) :
    lookup_nss_mount env ap name name_len log =
      match mount_loop env ap name name_len nsslist log with
      | (some r, log1) => (r, log1)
      | (none, log1) => if nsslist.isEmpty = false then (1, log1) else (0, log1) := by
  simp only [lookup_nss_mount, hmaptype, habs, hparse, Bool.false_eq_true, if_false]

theorem lookup_nss_read_map_eq (env : Env) (ap : autofs_point) (age : Int)
    (nsslist : List nss_source) (log : List Event)
    (hmaptype : ap.maptype = none) (habs : mapname_is_absolute ap = false)
    (hparse : env.nsswitch_parse = some nsslist) :
    lookup_nss_read_map env ap age log =
      match read_map_loop env ap age nsslist log with
      | (some r, log1) => (r, log1)
      | (none, log1) =>
        if nsslist.isEmpty = false then (1, log1 ++ [.cache_clean ap.path age]) else (0, log1) := by
  simp only [lookup_nss_read_map, hmaptype, habs, hparse, Bool.false_eq_true, if_false]

/-- One turn of the source loop of `lookup_nss_mount`, once the module has
answered. -/
theorem mount_loop_cons (env : Env) (ap : autofs_point) (name : String) (name_len : Int)
    (this : nss_source) (rest : List nss_source) (log log1 : List Event)
    (r : nsswitch_status)
    (hs : mount_source env ap name name_len this log = some (r, log1)) :
    mount_loop env ap name name_len (this :: rest) log =
      match check_actions this r with
      | some v => (some v, log1)
      | none => mount_loop env (source_left env this ap) name name_len rest log1 := by
  simp only [mount_loop, hs]

theorem read_map_loop_cons (env : Env) (ap : autofs_point) (age : Int)
    (this : nss_source) (rest : List nss_source) (log log1 : List Event)
    (r : nsswitch_status)
    (hs : read_map_source env ap age this log = some (r, log1)) :
    read_map_loop env ap age (this :: rest) log =
      match check_actions this r with
      | some v =>
        if v = 1 then (some 1, log1 ++ [.cache_clean ap.path age]) else (some v, log1)
      | none => read_map_loop env (source_left env this ap) age rest log1 := by
  simp only [read_map_loop, hs]

/-- The direct action of a source at which no negated `RETURN` fires. -/
theorem check_actions_direct (this : nss_source) (r : nsswitch_status)
    (hneg : ∀ s, (this.action s).action = .NSS_ACTION_RETURN →
      (this.action s).negated = true → r = s) :
    check_actions this r = check_direct this r := by
  unfold check_actions
  rw [check_negated_eq_none this r _ (fun s _ => hneg s)]


theorem do_lookup_mount_log (env : Env) (ap : autofs_point) (type name : String)
    (name_len : Int) (log : List Event) :
    ∃ ev, (do_lookup_mount env ap type name name_len log).2 = log ++ ev := by
  unfold do_lookup_mount
  cases env.open_lookup log type ap.mapfmt ap.mapargv with
  | none => exact ⟨_, rfl⟩
  | some md => exact ⟨_, rfl⟩

theorem do_read_map_log (env : Env) (ap : autofs_point) (type : String)
    (age : Int) (log : List Event) :
    ∃ ev, (do_read_map env ap type age log).2 = log ++ ev := by
  unfold do_read_map
  cases env.open_lookup log type ap.mapfmt ap.mapargv with
  | none => exact ⟨_, rfl⟩
  | some md => exact ⟨_, rfl⟩

theorem mount_source_log (env : Env) (ap : autofs_point) (name : String) (name_len : Int)
    (this : nss_source) (log log1 : List Event) (r : nsswitch_status)
    (h : mount_source env ap name name_len this log = some (r, log1)) :
    ∃ ev, log1 = log ++ ev := by
  unfold mount_source at h
  split_ifs at h with h1 h2
  · obtain ⟨ev, hev⟩ := do_lookup_mount_log env (files_tmp ap) (truncate_source this.source)
      name name_len log
    simp only [Option.some.injEq, Prod.mk.injEq] at h
    rw [← h.2, hev, List.append_assoc]
    exact ⟨_, rfl⟩
  · obtain ⟨ev, hev⟩ := do_lookup_mount_log env ap this.source name name_len log
    simp only [Option.some.injEq] at h
    rw [h] at hev
    exact ⟨ev, hev⟩

theorem read_map_source_log (env : Env) (ap : autofs_point) (age : Int)
    (this : nss_source) (log log1 : List Event) (r : nsswitch_status)
    (h : read_map_source env ap age this log = some (r, log1)) :
    ∃ ev, log1 = log ++ ev := by
  unfold read_map_source at h
  split_ifs at h with h1 h2
  · obtain ⟨ev, hev⟩ := do_read_map_log env (files_tmp ap) (truncate_source this.source) age log
    simp only [Option.some.injEq, Prod.mk.injEq] at h
    rw [← h.2, hev, List.append_assoc]
    exact ⟨_, rfl⟩
  · obtain ⟨ev, hev⟩ := do_read_map_log env ap this.source age log
    simp only [Option.some.injEq] at h
    rw [h] at hev
    exact ⟨ev, hev⟩

/-- The source loop only appends to the events. -/
theorem mount_loop_log (env : Env) (ap : autofs_point) (name : String) (name_len : Int)
    (l : List nss_source) (log : List Event) :
    ∃ ev, (mount_loop env ap name name_len l log).2 = log ++ ev := by
  induction l generalizing ap log with
  | nil => exact ⟨[], by simp [mount_loop]⟩
  | cons this rest ih =>
    cases hs : mount_source env ap name name_len this log with
    | none => exact ⟨[], by simp [mount_loop, hs]⟩
    | some p =>
      obtain ⟨r, log1⟩ := p
      obtain ⟨ev1, h1⟩ := mount_source_log env ap name name_len this log log1 r hs
      rw [mount_loop_cons env ap name name_len this rest log log1 r hs]
      cases check_actions this r with
      | some v => exact ⟨ev1, h1⟩
      | none =>
        obtain ⟨ev2, h2⟩ := ih (source_left env this ap) log1
        exact ⟨ev1 ++ ev2, by rw [h2, h1, List.append_assoc]⟩

theorem read_map_loop_log (env : Env) (ap : autofs_point) (age : Int)
    (l : List nss_source) (log : List Event) :
    ∃ ev, (read_map_loop env ap age l log).2 = log ++ ev := by
  induction l generalizing ap log with
  | nil => exact ⟨[], by simp [read_map_loop]⟩
  | cons this rest ih =>
    cases hs : read_map_source env ap age this log with
    | none => exact ⟨[], by simp [read_map_loop, hs]⟩
    | some p =>
      obtain ⟨r, log1⟩ := p
      obtain ⟨ev1, h1⟩ := read_map_source_log env ap age this log log1 r hs
      rw [read_map_loop_cons env ap age this rest log log1 r hs]
      cases check_actions this r with
      | some v =>
        simp only
        split_ifs
        · exact ⟨ev1 ++ [Event.cache_clean ap.path age], by rw [h1, List.append_assoc]⟩
        · exact ⟨ev1, h1⟩
      | none =>
        obtain ⟨ev2, h2⟩ := ih (source_left env this ap) log1
        exact ⟨ev1 ++ ev2, by rw [h2, h1, List.append_assoc]⟩

/-- In the NSS case the events of `lookup_nss_mount` are those of its loop. -/
theorem lookup_nss_mount_log (env : Env) (ap : autofs_point) (name : String)
    (name_len : Int) (nsslist : List nss_source) (log : List Event)
    (hmaptype : ap.maptype = none) (habs : mapname_is_absolute ap = false)
    (hparse : env.nsswitch_parse = some nsslist) :
    (lookup_nss_mount env ap name name_len log).2
      = (mount_loop env ap name name_len nsslist log).2 := by
  rw [lookup_nss_mount_eq env ap name name_len nsslist log hmaptype habs hparse]
  rcases mount_loop env ap name name_len nsslist log with ⟨_ | v, l⟩
  · simp only; split_ifs <;> rfl
  · rfl

theorem lookup_nss_read_map_log (env : Env) (ap : autofs_point) (age : Int)
    (nsslist : List nss_source) (log : List Event)
    (hmaptype : ap.maptype = none) (habs : mapname_is_absolute ap = false)
    (hparse : env.nsswitch_parse = some nsslist) :
    ∃ ev, (lookup_nss_read_map env ap age log).2
      = (read_map_loop env ap age nsslist log).2 ++ ev := by
  rw [lookup_nss_read_map_eq env ap age nsslist log hmaptype habs hparse]
  rcases read_map_loop env ap age nsslist log with ⟨_ | v, l⟩
  · simp only; split_ifs
    · exact ⟨_, rfl⟩
    · exact ⟨[], by simp⟩
  · exact ⟨[], by simp⟩


/-- What consulting a `files` source gives when every module opens and answers
`SUCCESS`: the module is opened and called on the vector that holds `path`, and
`path` is released. -/
theorem mount_source_files_success (env : Env) (ap : autofs_point) (name : String)
    (name_len : Int) (this : nss_source) (log : List Event)
    (hfiles : strcasecmp_eq this.source "files" = true)
    (hslash : strchr (mapname ap) '/' = false)
    (hS : ∀ l t f a, ∃ md, env.open_lookup l t f a = some md ∧
      (∀ p n k, md.lookup_mount p n k = .NSS_STATUS_SUCCESS) ∧
      (∀ p g, md.lookup_read_map p g = .NSS_STATUS_SUCCESS)) :
    mount_source env ap name name_len this log = some (.NSS_STATUS_SUCCESS, log ++
      [Event.open_lookup (truncate_source this.source) ap.mapfmt (files_tmp ap).mapargv,
       Event.lookup_mount (truncate_source this.source) (files_tmp ap).mapargv name name_len,
       Event.free ("/etc/" ++ mapname ap)]) := by
  obtain ⟨md, hmd, hm, _⟩ := hS log (truncate_source this.source) ap.mapfmt
    (("/etc/" ++ mapname ap) :: ap.mapargv.tail)
  simp only [mount_source, hfiles, hslash, if_true, Bool.false_eq_true, if_false,
    do_lookup_mount, files_tmp, hmd, hm, List.append_assoc, List.cons_append, List.nil_append]

theorem mount_source_other_success (env : Env) (ap : autofs_point) (name : String)
    (name_len : Int) (this : nss_source) (log : List Event)
    (hfiles : strcasecmp_eq this.source "files" = false)
    (hS : ∀ l t f a, ∃ md, env.open_lookup l t f a = some md ∧
      (∀ p n k, md.lookup_mount p n k = .NSS_STATUS_SUCCESS) ∧
      (∀ p g, md.lookup_read_map p g = .NSS_STATUS_SUCCESS)) :
    mount_source env ap name name_len this log = some (.NSS_STATUS_SUCCESS, log ++
      [Event.open_lookup this.source ap.mapfmt ap.mapargv,
       Event.lookup_mount this.source ap.mapargv name name_len]) := by
  obtain ⟨md, hmd, hm, _⟩ := hS log this.source ap.mapfmt ap.mapargv
  simp only [mount_source, hfiles, Bool.false_eq_true, if_false, do_lookup_mount, hmd, hm]

theorem read_map_source_files_success (env : Env) (ap : autofs_point) (age : Int)
    (this : nss_source) (log : List Event)
    (hfiles : strcasecmp_eq this.source "files" = true)
    (hslash : strchr (mapname ap) '/' = false)
    (hS : ∀ l t f a, ∃ md, env.open_lookup l t f a = some md ∧
      (∀ p n k, md.lookup_mount p n k = .NSS_STATUS_SUCCESS) ∧
      (∀ p g, md.lookup_read_map p g = .NSS_STATUS_SUCCESS)) :
    read_map_source env ap age this log = some (.NSS_STATUS_SUCCESS, log ++
      [Event.open_lookup (truncate_source this.source) ap.mapfmt (files_tmp ap).mapargv,
       Event.lookup_read_map (truncate_source this.source) (files_tmp ap).mapargv age,
       Event.free ("/etc/" ++ mapname ap)]) := by
  obtain ⟨md, hmd, _, hm⟩ := hS log (truncate_source this.source) ap.mapfmt
    (("/etc/" ++ mapname ap) :: ap.mapargv.tail)
  simp only [read_map_source, hfiles, hslash, if_true, Bool.false_eq_true, if_false,
    do_read_map, files_tmp, hmd, hm, List.append_assoc, List.cons_append, List.nil_append]

theorem read_map_source_other_success (env : Env) (ap : autofs_point) (age : Int)
    (this : nss_source) (log : List Event)
    (hfiles : strcasecmp_eq this.source "files" = false)
    (hS : ∀ l t f a, ∃ md, env.open_lookup l t f a = some md ∧
      (∀ p n k, md.lookup_mount p n k = .NSS_STATUS_SUCCESS) ∧
      (∀ p g, md.lookup_read_map p g = .NSS_STATUS_SUCCESS)) :
    read_map_source env ap age this log = some (.NSS_STATUS_SUCCESS, log ++
      [Event.open_lookup this.source ap.mapfmt ap.mapargv,
       Event.lookup_read_map this.source ap.mapargv age]) := by
  obtain ⟨md, hmd, _, hm⟩ := hS log this.source ap.mapfmt ap.mapargv
  simp only [read_map_source, hfiles, Bool.false_eq_true, if_false, do_read_map, hmd, hm]

/-- C1 (NSS direct actions): at a source of the list whose module answered `r`
and at which no negated `RETURN` fires, in `lookup_nss_mount` and in
`lookup_nss_read_map`: (a) `SUCCESS` with action `CONTINUE` goes on with the
sources after it, (b) `SUCCESS` with another action returns 1 (after
`cache_clean` in `read_map`), (c) another status with action `RETURN` returns 0,
(d) another status with another action goes on with the sources after it.  The
source is consulted on the point as the sources before it have left it, and the
sources after it go on with the point as it leaves it.  In particular, when
`files [SUCCESS=continue]` is followed by a second source and the modules answer
`SUCCESS`, the module of `files` and then the module of the second source are
opened and called, in this order: the first on the argument vector whose first
cell `files` has set to `path`, the second after `free(path)` on the same
vector, whose first cell then reads as what the released storage holds. -/
theorem nss_direct_actions (env : Env) (ap : autofs_point) (age : Int) (name : String)
    (name_len : Int) (pre : List nss_source) (this : nss_source) (rest : List nss_source)
    (r : nsswitch_status)
    (hmaptype : ap.maptype = none) (habs : mapname_is_absolute ap = false)
    (hparse : env.nsswitch_parse = some (pre ++ this :: rest))
    (hneg : ∀ s, (this.action s).action = .NSS_ACTION_RETURN →
      (this.action s).negated = true → r = s) :
    (∀ log0 log log1,
        mount_loop env ap name name_len pre log0 = (none, log) →
        mount_source env (sources_left env pre ap) name name_len this log = some (r, log1) →
        (r = .NSS_STATUS_SUCCESS → (this.action r).action = .NSS_ACTION_CONTINUE →
          mount_loop env ap name name_len (pre ++ this :: rest) log0
            = mount_loop env (source_left env this (sources_left env pre ap)) name name_len rest log1) ∧
        (r = .NSS_STATUS_SUCCESS → (this.action r).action ≠ .NSS_ACTION_CONTINUE →
          lookup_nss_mount env ap name name_len log0 = (1, log1)) ∧
        (r ≠ .NSS_STATUS_SUCCESS → (this.action r).action = .NSS_ACTION_RETURN →
          lookup_nss_mount env ap name name_len log0 = (0, log1)) ∧
        (r ≠ .NSS_STATUS_SUCCESS → (this.action r).action ≠ .NSS_ACTION_RETURN →
          mount_loop env ap name name_len (pre ++ this :: rest) log0
            = mount_loop env (source_left env this (sources_left env pre ap)) name name_len rest log1)) ∧
    (∀ log0 log log1,
        read_map_loop env ap age pre log0 = (none, log) →
        read_map_source env (sources_left env pre ap) age this log = some (r, log1) →
        (r = .NSS_STATUS_SUCCESS → (this.action r).action = .NSS_ACTION_CONTINUE →
          read_map_loop env ap age (pre ++ this :: rest) log0
            = read_map_loop env (source_left env this (sources_left env pre ap)) age rest log1) ∧
        (r = .NSS_STATUS_SUCCESS → (this.action r).action ≠ .NSS_ACTION_CONTINUE →
          lookup_nss_read_map env ap age log0 = (1, log1 ++ [Event.cache_clean ap.path age])) ∧
        (r ≠ .NSS_STATUS_SUCCESS → (this.action r).action = .NSS_ACTION_RETURN →
          lookup_nss_read_map env ap age log0 = (0, log1)) ∧
        (r ≠ .NSS_STATUS_SUCCESS → (this.action r).action ≠ .NSS_ACTION_RETURN →
          read_map_loop env ap age (pre ++ this :: rest) log0
            = read_map_loop env (source_left env this (sources_left env pre ap)) age rest log1)) ∧
    (∀ second rest2 log0,
        pre = [] → rest = second :: rest2 →
        strcasecmp_eq this.source "files" = true → strchr (mapname ap) '/' = false →
        strcasecmp_eq second.source "files" = false →
        r = .NSS_STATUS_SUCCESS → (this.action r).action = .NSS_ACTION_CONTINUE →
        (∀ l t f a, ∃ md, env.open_lookup l t f a = some md ∧
          (∀ p n k, md.lookup_mount p n k = .NSS_STATUS_SUCCESS) ∧
          (∀ p g, md.lookup_read_map p g = .NSS_STATUS_SUCCESS)) →
        source_left env this ap = files_left env ap ∧
        (∃ more, (lookup_nss_mount env ap name name_len log0).2 = log0 ++
          [Event.open_lookup (truncate_source this.source) ap.mapfmt
             (("/etc/" ++ mapname ap) :: ap.mapargv.tail),
           Event.lookup_mount (truncate_source this.source)
             (("/etc/" ++ mapname ap) :: ap.mapargv.tail) name name_len,
           Event.free ("/etc/" ++ mapname ap),
           Event.open_lookup second.source ap.mapfmt
             (env.released ("/etc/" ++ mapname ap) :: ap.mapargv.tail),
           Event.lookup_mount second.source
             (env.released ("/etc/" ++ mapname ap) :: ap.mapargv.tail) name name_len]
            ++ more) ∧
        (∃ more, (lookup_nss_read_map env ap age log0).2 = log0 ++
          [Event.open_lookup (truncate_source this.source) ap.mapfmt
             (("/etc/" ++ mapname ap) :: ap.mapargv.tail),
           Event.lookup_read_map (truncate_source this.source)
             (("/etc/" ++ mapname ap) :: ap.mapargv.tail) age,
           Event.free ("/etc/" ++ mapname ap),
           Event.open_lookup second.source ap.mapfmt
             (env.released ("/etc/" ++ mapname ap) :: ap.mapargv.tail),
           Event.lookup_read_map second.source
             (env.released ("/etc/" ++ mapname ap) :: ap.mapargv.tail) age] ++ more)) := by
  have hca := check_actions_direct this r hneg
  refine ⟨?_, ?_, ?_⟩
  · intro log0 log log1 hpre hsrc
    have hloop : mount_loop env ap name name_len (pre ++ this :: rest) log0 =
        match check_direct this r with
        | some v => (some v, log1)
        | none =>
          mount_loop env (source_left env this (sources_left env pre ap)) name name_len rest log1 := by
      rw [mount_loop_append env ap name name_len pre (this :: rest) log0 log hpre,
        mount_loop_cons env _ name name_len this rest log log1 r hsrc, hca]
    have htop := lookup_nss_mount_eq env ap name name_len _ log0 hmaptype habs hparse
    rw [hloop] at htop
    refine ⟨?_, ?_, ?_, ?_⟩
    · intro h1 h2
      rw [hloop]; subst h1; simp only [check_direct, h2, if_true]
    · intro h1 h2
      rw [htop]; subst h1; simp only [check_direct, h2, if_false]
    · intro h1 h2
      rw [htop]; cases r <;> first | exact absurd rfl h1 | simp only [check_direct, h2, if_true]
    · intro h1 h2
      rw [hloop]; cases r <;> first | exact absurd rfl h1 | simp only [check_direct, h2, if_false]
  · intro log0 log log1 hpre hsrc
    have hloop : read_map_loop env ap age (pre ++ this :: rest) log0 =
        match check_direct this r with
        | some v =>
          if v = 1 then (some 1, log1 ++ [Event.cache_clean ap.path age]) else (some v, log1)
        | none =>
          read_map_loop env (source_left env this (sources_left env pre ap)) age rest log1 := by
      rw [read_map_loop_append env ap age pre (this :: rest) log0 log hpre,
        read_map_loop_cons env _ age this rest log log1 r hsrc, hca, sources_left_path]
    have htop := lookup_nss_read_map_eq env ap age _ log0 hmaptype habs hparse
    rw [hloop] at htop
    refine ⟨?_, ?_, ?_, ?_⟩
    · intro h1 h2
      rw [hloop]; subst h1; simp only [check_direct, h2, if_true]
    · intro h1 h2
      rw [htop]; subst h1; simp only [check_direct, h2, if_false, if_true]
    · intro h1 h2
      rw [htop]
      cases r <;> first | exact absurd rfl h1 | simp [check_direct, h2]
    · intro h1 h2
      rw [hloop]; cases r <;> first | exact absurd rfl h1 | simp only [check_direct, h2, if_false]
  · intro second rest2 log0 hpre hrest hfiles hslash hsecond hr hcont hS
    subst hpre hrest hr
    have hleft := source_left_files env this ap hfiles hslash
    refine ⟨hleft, ?_, ?_⟩
    · have hs1 := mount_source_files_success env ap name name_len this log0 hfiles hslash hS
      have hs2 := mount_source_other_success env (files_left env ap) name name_len second
        (log0 ++ [Event.open_lookup (truncate_source this.source) ap.mapfmt
             (files_tmp ap).mapargv,
           Event.lookup_mount (truncate_source this.source) (files_tmp ap).mapargv
             name name_len,
           Event.free ("/etc/" ++ mapname ap)]) hsecond hS
      rw [lookup_nss_mount_log env ap name name_len _ log0 hmaptype habs hparse,
        List.nil_append, mount_loop_cons env ap name name_len this _ log0 _ _ hs1, hca]
      simp only [check_direct, hcont, if_true]
      rw [hleft, mount_loop_cons env (files_left env ap) name name_len second _ _ _ _ hs2]
      cases check_actions second .NSS_STATUS_SUCCESS with
      | some v => exact ⟨[], by simp [files_tmp, files_left]⟩
      | none =>
        obtain ⟨ev, hev⟩ := mount_loop_log env (source_left env second (files_left env ap)) name
          name_len
          rest2
          (log0 ++ [Event.open_lookup (truncate_source this.source) ap.mapfmt
             (files_tmp ap).mapargv,
           Event.lookup_mount (truncate_source this.source) (files_tmp ap).mapargv
             name name_len,
           Event.free ("/etc/" ++ mapname ap)] ++
           [Event.open_lookup second.source (files_left env ap).mapfmt
              (files_left env ap).mapargv,
            Event.lookup_mount second.source (files_left env ap).mapargv name name_len])
        refine ⟨ev, ?_⟩
        simp only
        rw [hev]
        simp only [files_tmp, files_left, List.append_assoc, List.cons_append, List.nil_append]
    · have hs1 := read_map_source_files_success env ap age this log0 hfiles hslash hS
      have hs2 := read_map_source_other_success env (files_left env ap) age second
        (log0 ++ [Event.open_lookup (truncate_source this.source) ap.mapfmt
             (files_tmp ap).mapargv,
           Event.lookup_read_map (truncate_source this.source) (files_tmp ap).mapargv age,
           Event.free ("/etc/" ++ mapname ap)]) hsecond hS
      obtain ⟨ev0, hev0⟩ := lookup_nss_read_map_log env ap age _ log0 hmaptype habs hparse
      rw [hev0, List.nil_append, read_map_loop_cons env ap age this _ log0 _ _ hs1, hca]
      simp only [check_direct, hcont, if_true]
      rw [hleft, read_map_loop_cons env (files_left env ap) age second _ _ _ _ hs2]
      cases check_actions second .NSS_STATUS_SUCCESS with
      | some v =>
        simp only
        split_ifs
        · exact ⟨Event.cache_clean (files_left env ap).path age :: ev0,
            by simp only [files_tmp, files_left, List.append_assoc, List.cons_append,
              List.nil_append]⟩
        · exact ⟨ev0, by simp only [files_tmp, files_left, List.append_assoc, List.cons_append,
            List.nil_append]⟩
      | none =>
        obtain ⟨ev, hev⟩ := read_map_loop_log env (source_left env second (files_left env ap)) age
          rest2
          (log0 ++ [Event.open_lookup (truncate_source this.source) ap.mapfmt
             (files_tmp ap).mapargv,
           Event.lookup_read_map (truncate_source this.source) (files_tmp ap).mapargv age,
           Event.free ("/etc/" ++ mapname ap)] ++
           [Event.open_lookup second.source (files_left env ap).mapfmt
              (files_left env ap).mapargv,
            Event.lookup_read_map second.source (files_left env ap).mapargv age])
        refine ⟨ev ++ ev0, ?_⟩
        simp only
        rw [hev]
        simp only [files_tmp, files_left, List.append_assoc, List.cons_append, List.nil_append]

/-- C1, at a concrete input: `files [SUCCESS=continue]` answering `SUCCESS`
hands over to the source after it, which finds in the first cell of the
argument vector what the released storage of `/etc/auto.test` reads as. -/
theorem nss_direct_actions_witness :
    mount_loop (const_env [files_continue, plain_source "ldap"] .NSS_STATUS_SUCCESS)
        test_point "home" 4 ([] ++ files_continue :: [plain_source "ldap"]) []
      = mount_loop (const_env [files_continue, plain_source "ldap"] .NSS_STATUS_SUCCESS)
        (source_left (const_env [files_continue, plain_source "ldap"] .NSS_STATUS_SUCCESS)
          files_continue
          (sources_left (const_env [files_continue, plain_source "ldap"] .NSS_STATUS_SUCCESS)
            [] test_point))
        "home" 4 [plain_source "ldap"]
        [Event.open_lookup "file" (some "sun") ["/etc/auto.test"],
         Event.lookup_mount "file" ["/etc/auto.test"] "home" 4,
         Event.free "/etc/auto.test"] ∧
    (source_left (const_env [files_continue, plain_source "ldap"] .NSS_STATUS_SUCCESS)
        files_continue test_point).mapargv
      = [(const_env [files_continue, plain_source "ldap"] .NSS_STATUS_SUCCESS).released
          "/etc/auto.test"] :=
  ⟨((nss_direct_actions (const_env [files_continue, plain_source "ldap"] .NSS_STATUS_SUCCESS)
      test_point 0 "home" 4 [] files_continue [plain_source "ldap"] .NSS_STATUS_SUCCESS
      rfl (by decide) rfl
      (by intro s h; cases s <;> exact absurd h (by decide))).1
    [] [] _ rfl (by decide)).1 rfl (by decide), by decide⟩

theorem mount_source_files_bad_name (env : Env) (ap : autofs_point) (name : String)
    (name_len : Int) (this : nss_source) (log : List Event)
    (hfiles : strcasecmp_eq this.source "files" = true)
    (hslash : strchr (mapname ap) '/' = true) :
    mount_source env ap name name_len this log = none := by
  simp only [mount_source, hfiles, hslash, if_true]

/-- C2 (NSS negated actions): at a source of the list whose module answered
`r`, if a status slot `s` other than `r` carries a negated `RETURN`,
`lookup_nss_mount` and `lookup_nss_read_map` return at that source, with 1 when
`r` is `SUCCESS` (after `cache_clean` in `read_map`) and with 0 otherwise; the
events end with the answer of that source, so no later source is consulted.
The source is consulted on the point as the sources before it have left it. -/
theorem nss_negated_return (env : Env) (ap : autofs_point) (age : Int) (name : String)
    (name_len : Int) (pre : List nss_source) (this : nss_source) (rest : List nss_source)
    (r s : nsswitch_status)
    (hmaptype : ap.maptype = none) (habs : mapname_is_absolute ap = false)
    (hparse : env.nsswitch_parse = some (pre ++ this :: rest))
    (hret : (this.action s).action = .NSS_ACTION_RETURN)
    (hnegated : (this.action s).negated = true) (hne : r ≠ s) :
    (∀ log0 log log1,
        mount_loop env ap name name_len pre log0 = (none, log) →
        mount_source env (sources_left env pre ap) name name_len this log = some (r, log1) →
        lookup_nss_mount env ap name name_len log0
          = (if r = .NSS_STATUS_SUCCESS then 1 else 0, log1)) ∧
    (∀ log0 log log1,
        read_map_loop env ap age pre log0 = (none, log) →
        read_map_source env (sources_left env pre ap) age this log = some (r, log1) →
        lookup_nss_read_map env ap age log0
          = (if r = .NSS_STATUS_SUCCESS then 1 else 0,
             if r = .NSS_STATUS_SUCCESS then log1 ++ [Event.cache_clean ap.path age]
             else log1)) := by
  have hca : check_actions this r = some (if r = .NSS_STATUS_SUCCESS then 1 else 0) := by
    unfold check_actions
    rw [check_negated_fires this r s _ (mem_all_nss_status s) hret hnegated hne]
  refine ⟨?_, ?_⟩
  · intro log0 log log1 hpre hsrc
    rw [lookup_nss_mount_eq env ap name name_len _ log0 hmaptype habs hparse,
      mount_loop_append env ap name name_len pre (this :: rest) log0 log hpre,
      mount_loop_cons env _ name name_len this rest log log1 r hsrc, hca]
  · intro log0 log log1 hpre hsrc
    rw [lookup_nss_read_map_eq env ap age _ log0 hmaptype habs hparse,
      read_map_loop_append env ap age pre (this :: rest) log0 log hpre,
      read_map_loop_cons env _ age this rest log log1 r hsrc, hca, sources_left_path]
    by_cases hr : r = .NSS_STATUS_SUCCESS
    · simp only [hr, if_true]
    · simp only [hr, if_false]
      rfl

/-- C2, at a concrete input: `files [!NOTFOUND=return]` answering `SUCCESS`
ends the pipeline with success and `nis` is not consulted. -/
theorem nss_negated_return_witness :
    lookup_nss_mount
        (const_env [files_not_notfound_return, plain_source "nis"] .NSS_STATUS_SUCCESS)
        test_point "home" 4 []
      = (1, [Event.open_lookup "file" (some "sun") ["/etc/auto.test"],
             Event.lookup_mount "file" ["/etc/auto.test"] "home" 4,
             Event.free "/etc/auto.test"]) :=
  (nss_negated_return
      (const_env [files_not_notfound_return, plain_source "nis"] .NSS_STATUS_SUCCESS)
      test_point 0 "home" 4 [] files_not_notfound_return [plain_source "nis"]
      .NSS_STATUS_SUCCESS .NSS_STATUS_NOTFOUND rfl (by decide) rfl
      (by decide) (by decide) (by decide)).1 [] [] _ rfl (by decide)

theorem mount_passes_loop (env : Env) (ap : autofs_point) (name : String) (name_len : Int)
    (l : List nss_source) (log : List Event)
    (h : mount_passes env ap name name_len l log = true) :
    ∃ log1, mount_loop env ap name name_len l log = (none, log1) := by
  induction l generalizing ap log with
  | nil => exact ⟨log, rfl⟩
  | cons this rest ih =>
    simp only [mount_passes] at h
    cases hs : mount_source env ap name name_len this log with
    | none => rw [hs] at h; cases h
    | some p =>
      obtain ⟨r, log1⟩ := p
      rw [hs] at h
      simp only [Bool.and_eq_true, Bool.not_eq_true'] at h
      rw [mount_loop_cons env ap name name_len this rest log log1 r hs,
        (check_actions_eq_none this r).mpr h.1]
      exact ih _ log1 h.2

theorem read_map_passes_loop (env : Env) (ap : autofs_point) (age : Int)
    (l : List nss_source) (log : List Event)
    (h : read_map_passes env ap age l log = true) :
    ∃ log1, read_map_loop env ap age l log = (none, log1) := by
  induction l generalizing ap log with
  | nil => exact ⟨log, rfl⟩
  | cons this rest ih =>
    simp only [read_map_passes] at h
    cases hs : read_map_source env ap age this log with
    | none => rw [hs] at h; cases h
    | some p =>
      obtain ⟨r, log1⟩ := p
      rw [hs] at h
      simp only [Bool.and_eq_true, Bool.not_eq_true'] at h
      rw [read_map_loop_cons env ap age this rest log log1 r hs,
        (check_actions_eq_none this r).mpr h.1]
      exact ih _ log1 h.2

/-- C3 (list exhausted): when every source of the parsed list is consulted and
the action matching ends the pipeline at none of them, whatever the modules
answered, `lookup_nss_mount` and `lookup_nss_read_map` return 1 for a non-empty
list and 0 for an empty one. -/
theorem nss_list_exhausted (env : Env) (ap : autofs_point) (age : Int) (name : String)
    (name_len : Int) (nsslist : List nss_source) (log : List Event)
    (hmaptype : ap.maptype = none) (habs : mapname_is_absolute ap = false)
    (hparse : env.nsswitch_parse = some nsslist) :
    (mount_passes env ap name name_len nsslist log = true →
      (lookup_nss_mount env ap name name_len log).1 = if nsslist.isEmpty then 0 else 1) ∧
    (read_map_passes env ap age nsslist log = true →
      (lookup_nss_read_map env ap age log).1 = if nsslist.isEmpty then 0 else 1) := by
  refine ⟨?_, ?_⟩
  · intro h
    obtain ⟨log1, h1⟩ := mount_passes_loop env ap name name_len nsslist log h
    rw [lookup_nss_mount_eq env ap name name_len nsslist log hmaptype habs hparse, h1]
    cases nsslist <;> rfl
  · intro h
    obtain ⟨log1, h1⟩ := read_map_passes_loop env ap age nsslist log h
    rw [lookup_nss_read_map_eq env ap age nsslist log hmaptype habs hparse, h1]
    cases nsslist <;> rfl

/-- C3, at a concrete input: two sources without configured actions, both
answering `UNAVAIL`, make `lookup_nss_mount` return 1. -/
theorem nss_list_exhausted_witness :
    (lookup_nss_mount (const_env [plain_source "files", plain_source "nis"] .NSS_STATUS_UNAVAIL)
        test_point "home" 4 []).1 = 1 :=
  (nss_list_exhausted (const_env [plain_source "files", plain_source "nis"] .NSS_STATUS_UNAVAIL)
      test_point 0 "home" 4 [plain_source "files", plain_source "nis"] []
      rfl (by decide) rfl).1 (by decide)

/-- The part of the `files` substitution that holds for every spelling of the
source name: the module is opened with the first four characters of the name as
its type and with `"/etc/"` followed by the map name as first map argument,
after which that path is released; for the name `files` itself the type is
`file`. -/
theorem files_source_substitution (env : Env) (ap : autofs_point) (age : Int) (name : String)
    (name_len : Int) (this : nss_source) (log : List Event)
    (hfiles : strcasecmp_eq this.source "files" = true)
    (hslash : strchr (mapname ap) '/' = false) :
    mount_source env ap name name_len this log
      = some ((do_lookup_mount env (files_tmp ap) (truncate_source this.source)
            name name_len log).1,
          (do_lookup_mount env (files_tmp ap) (truncate_source this.source)
            name name_len log).2 ++ [Event.free ("/etc/" ++ mapname ap)]) ∧
    read_map_source env ap age this log
      = some ((do_read_map env (files_tmp ap) (truncate_source this.source) age log).1,
          (do_read_map env (files_tmp ap) (truncate_source this.source) age log).2
            ++ [Event.free ("/etc/" ++ mapname ap)]) ∧
    (files_tmp ap).mapargv.head? = some ("/etc/" ++ mapname ap) ∧
    (this.source = "files" → truncate_source this.source = "file") := by
  refine ⟨?_, ?_, rfl, ?_⟩
  · simp only [mount_source, hfiles, hslash, if_true, Bool.false_eq_true, if_false]
  · simp only [read_map_source, hfiles, hslash, if_true, Bool.false_eq_true, if_false]
  · intro h; rw [h]; decide

/-- A `files` source with a '/' in the map name makes both pipelines return 0
with no module opened for it. -/
theorem files_source_relative_path (env : Env) (ap : autofs_point) (age : Int)
    (name : String) (name_len : Int) (this : nss_source) (rest : List nss_source)
    (log : List Event)
    (hfiles : strcasecmp_eq this.source "files" = true)
    (hslash : strchr (mapname ap) '/' = true) :
    mount_loop env ap name name_len (this :: rest) log = (some 0, log) ∧
    read_map_loop env ap age (this :: rest) log = (some 0, log) := by
  refine ⟨?_, ?_⟩
  · simp only [mount_loop, mount_source, hfiles, hslash, if_true]
  · simp only [read_map_loop, read_map_source, hfiles, hslash, if_true]

/-- C4 (`files` substitution), the code at the source name `FILES`: the name
equals `files` without regard to case and the map name `auto.test` holds no '/',
yet the module is opened with type `FILE`, the name cut after four characters,
and not with type `file`. -/
theorem files_source_uppercase :
    strcasecmp_eq "FILES" "files" = true ∧
    strchr (mapname test_point) '/' = false ∧
    lookup_nss_mount (const_env [plain_source "FILES"] .NSS_STATUS_SUCCESS)
        test_point "home" 4 []
      = (1, [Event.open_lookup "FILE" (some "sun") ["/etc/auto.test"],
             Event.lookup_mount "FILE" ["/etc/auto.test"] "home" 4,
             Event.free "/etc/auto.test"]) ∧
    lookup_nss_read_map (const_env [plain_source "FILES"] .NSS_STATUS_SUCCESS)
        test_point 7 []
      = (1, [Event.open_lookup "FILE" (some "sun") ["/etc/auto.test"],
             Event.lookup_read_map "FILE" ["/etc/auto.test"] 7,
             Event.free "/etc/auto.test",
             Event.cache_clean "/test" 7]) := by
  decide

/-- C5, refuted as stated: with the single source `nis`, no action configured
and the module answering `UNAVAIL`, the source list is exhausted,
`lookup_nss_read_map` returns 1 and calls `cache_clean`. -/
theorem read_map_unavail_cleans :
    lookup_nss_read_map (const_env [plain_source "nis"] .NSS_STATUS_UNAVAIL) test_point 7 []
      = (1, [Event.open_lookup "nis" (some "sun") ["auto.test"],
             Event.lookup_read_map "nis" ["auto.test"] 7,
             Event.cache_clean "/test" 7]) := by
  decide

/-- With a forced map type and with an absolute file map `lookup_nss_read_map`
calls `cache_clean` after a module that answered `UNAVAIL`, and returns 0. -/
theorem read_map_forced_type_unavail :
    lookup_nss_read_map (const_env [] .NSS_STATUS_UNAVAIL)
        { test_point with maptype := some "yp" } 7 []
      = (0, [Event.open_lookup "yp" (some "sun") ["auto.test"],
             Event.lookup_read_map "yp" ["auto.test"] 7,
             Event.cache_clean "/test" 7]) ∧
    lookup_nss_read_map (const_env [] .NSS_STATUS_UNAVAIL)
        (point "/test" ["/etc/auto.test"] .ST_READY 4 []) 7 []
      = (0, [Event.open_lookup "file" (some "sun") ["/etc/auto.test"],
             Event.lookup_read_map "file" ["/etc/auto.test"] 7,
             Event.cache_clean "/test" 7]) := by
  decide

theorem do_read_map_unavail (env : Env) (ap : autofs_point) (type : String) (age : Int)
    (log : List Event)
    (hU : ∀ l t f a md, env.open_lookup l t f a = some md →
      ∀ p g, md.lookup_read_map p g = .NSS_STATUS_UNAVAIL) :
    (do_read_map env ap type age log).1 = .NSS_STATUS_UNAVAIL := by
  unfold do_read_map
  cases h : env.open_lookup log type ap.mapfmt ap.mapargv with
  | none => rfl
  | some md => exact hU _ _ _ _ md h ap age

theorem do_read_map_no_clean (env : Env) (ap : autofs_point) (type : String) (age : Int)
    (log : List Event) (c : Event) (hc : ∃ p g, c = Event.cache_clean p g) (h : c ∉ log) :
    c ∉ (do_read_map env ap type age log).2 := by
  obtain ⟨p, g, rfl⟩ := hc
  unfold do_read_map
  cases env.open_lookup log type ap.mapfmt ap.mapargv with
  | none => simpa using h
  | some md => simpa using h

/-- With every module answering `UNAVAIL` the source loop of
`lookup_nss_read_map` never calls `cache_clean`; it is exhausted exactly when
no source is a `files` source that finds a '/' in the map name, as the sources
before it have left it, and no action ends the pipeline at `UNAVAIL`, and it
returns 0 otherwise. -/
theorem read_map_loop_unavail (env : Env) (age : Int)
    (hU : ∀ l t f a md, env.open_lookup l t f a = some md →
      ∀ p g, md.lookup_read_map p g = .NSS_STATUS_UNAVAIL)
    (l : List nss_source) (ap : autofs_point) (log : List Event)
    (h : Event.cache_clean ap.path age ∉ log) :
    Event.cache_clean ap.path age ∉ (read_map_loop env ap age l log).2 ∧
    ((read_map_loop env ap age l log).1 = none ↔
      ∀ pre this rest, l = pre ++ this :: rest →
        ¬ (strcasecmp_eq this.source "files" = true ∧
          strchr (mapname (sources_left env pre ap)) '/' = true) ∧
        action_terminates this .NSS_STATUS_UNAVAIL = false) ∧
    ((read_map_loop env ap age l log).1 = none ∨
      (read_map_loop env ap age l log).1 = some 0) := by
  induction l generalizing ap log with
  | nil =>
    refine ⟨h, ?_, Or.inl rfl⟩
    constructor
    · intro _ pre this rest hl
      cases pre <;> cases hl
    · intro _; rfl
  | cons this rest ih =>
    by_cases hbad : strcasecmp_eq this.source "files" = true ∧ strchr (mapname ap) '/' = true
    · rw [(files_source_relative_path env ap age "" 0 this rest log hbad.1 hbad.2).2]
      refine ⟨h, ?_, Or.inr rfl⟩
      constructor
      · intro hn; cases hn
      · intro hall
        exact absurd hbad (hall [] this rest rfl).1
    · obtain ⟨r, log1, hsrc, hr, hlog1⟩ : ∃ r log1,
          read_map_source env ap age this log = some (r, log1) ∧
          r = .NSS_STATUS_UNAVAIL ∧ Event.cache_clean ap.path age ∉ log1 := by
        unfold read_map_source
        by_cases hf : strcasecmp_eq this.source "files" = true
        · have hs : strchr (mapname ap) '/' = false := by
            cases hsl : strchr (mapname ap) '/' with
            | false => rfl
            | true => exact absurd ⟨hf, hsl⟩ hbad
          rw [if_pos hf, hs]
          refine ⟨_, _, rfl, do_read_map_unavail env _ _ age log hU, ?_⟩
          have hnc := do_read_map_no_clean env (files_tmp ap) (truncate_source this.source)
            age log _ ⟨_, _, rfl⟩ h
          simpa using hnc
        · rw [if_neg hf]
          exact ⟨_, _, rfl, do_read_map_unavail env _ _ age log hU,
            do_read_map_no_clean env _ _ age log _ ⟨_, _, rfl⟩ h⟩
      subst hr
      rw [read_map_loop_cons env ap age this rest log log1 _ hsrc]
      cases hca : check_actions this .NSS_STATUS_UNAVAIL with
      | none =>
        have hat := (check_actions_eq_none this _).mp hca
        have hlog2 : Event.cache_clean (source_left env this ap).path age ∉ log1 := by
          rw [source_left_path]; exact hlog1
        obtain ⟨i1, i2, i3⟩ := ih (source_left env this ap) log1 hlog2
        rw [source_left_path] at i1
        refine ⟨i1, ?_, i3⟩
        rw [i2]
        constructor
        · intro hall pre t rest2 hl
          cases pre with
          | nil =>
            simp only [List.nil_append, List.cons.injEq] at hl
            obtain ⟨rfl, _⟩ := hl
            exact ⟨hbad, hat⟩
          | cons p pre2 =>
            simp only [List.cons_append, List.cons.injEq] at hl
            obtain ⟨rfl, hl2⟩ := hl
            rw [sources_left_cons]
            exact hall pre2 t rest2 hl2
        · intro hall pre t rest2 hl
          have := hall (this :: pre) t rest2 (by rw [hl]; rfl)
          rw [sources_left_cons] at this
          exact this
      | some v =>
        have hv : v = 0 := by
          unfold check_actions at hca
          cases hn : check_negated this .NSS_STATUS_UNAVAIL all_nss_status with
          | none =>
            rw [hn] at hca
            simp only [check_direct] at hca
            split_ifs at hca
            exact (Option.some.inj hca).symm
          | some w =>
            rw [hn] at hca
            have hfire : negated_return_fires this .NSS_STATUS_UNAVAIL = true := by
              by_contra hnf
              have hnf1 := (negated_return_fires_eq_false this _).mp
                (Bool.eq_false_iff.mpr hnf)
              rw [check_negated_eq_none this _ _ (fun s _ => hnf1 s)] at hn
              cases hn
            unfold negated_return_fires at hfire
            obtain ⟨s, hs, hd⟩ := List.any_eq_true.mp hfire
            have hd1 := of_decide_eq_true hd
            rw [check_negated_fires this _ s _ hs hd1.1 hd1.2.1 hd1.2.2] at hn
            simp only [reduceCtorEq, if_false] at hn
            rw [← Option.some.inj hn] at hca
            exact (Option.some.inj hca).symm
        subst hv
        have hnt : action_terminates this .NSS_STATUS_UNAVAIL ≠ false := by
          intro hf
          rw [(check_actions_eq_none this _).mpr hf] at hca
          cases hca
        refine ⟨hlog1, ?_, Or.inr rfl⟩
        constructor
        · intro hn; cases hn
        · intro hall
          exact absurd (hall [] this rest rfl).2 hnt

/-- With every module answering `UNAVAIL`, `lookup_nss_read_map` with a forced
map type or an absolute file map returns 0 after `cache_clean`. -/
theorem read_map_forced_type (env : Env) (ap : autofs_point) (age : Int)
    (hU : ∀ l t f a md, env.open_lookup l t f a = some md →
      ∀ p g, md.lookup_read_map p g = .NSS_STATUS_UNAVAIL) :
    (∀ maptype log, ap.maptype = some maptype →
      lookup_nss_read_map env ap age log
        = (0, (do_read_map env ap maptype age log).2 ++ [Event.cache_clean ap.path age])) ∧
    (∀ log, ap.maptype = none → mapname_is_absolute ap = true →
      lookup_nss_read_map env ap age log
        = (0, (do_read_map env ap "file" age log).2 ++ [Event.cache_clean ap.path age])) := by
  refine ⟨?_, ?_⟩
  · intro maptype log hm
    simp only [lookup_nss_read_map, hm, do_read_map_unavail env ap maptype age log hU,
      not_status, reduceCtorEq, if_false]
  · intro log hm habs
    simp only [lookup_nss_read_map, hm, habs, if_true,
      do_read_map_unavail env ap "file" age log hU, not_status, reduceCtorEq, if_false]

/-- C5 (amended): during a READMAP through the NSS source list in which every
lookup module answers `UNAVAIL`, `lookup_nss_read_map` calls
`cache_clean(ap->path, age)` exactly when it returns 1, and it does so exactly
when the list is non-empty and is exhausted, that is when no source is a
`files` source that finds a '/' in the map name (`ap->mapargv[0]` as the sources
before it have left it) and no action ends the pipeline at `UNAVAIL`; a `RETURN`
that matches `UNAVAIL` leaves the cache as it is. -/
theorem read_map_unavail_cache_clean (env : Env) (ap : autofs_point) (age : Int)
    (nsslist : List nss_source)
    (hU : ∀ l t f a md, env.open_lookup l t f a = some md →
      ∀ p g, md.lookup_read_map p g = .NSS_STATUS_UNAVAIL)
    (hmaptype : ap.maptype = none) (habs : mapname_is_absolute ap = false)
    (hparse : env.nsswitch_parse = some nsslist) :
    (Event.cache_clean ap.path age ∈ (lookup_nss_read_map env ap age []).2 ↔
      nsslist ≠ [] ∧ ∀ pre this rest, nsslist = pre ++ this :: rest →
        ¬ (strcasecmp_eq this.source "files" = true ∧
          strchr (mapname (sources_left env pre ap)) '/' = true) ∧
        action_terminates this .NSS_STATUS_UNAVAIL = false) ∧
    ((lookup_nss_read_map env ap age []).1 = 1 ↔
      nsslist ≠ [] ∧ ∀ pre this rest, nsslist = pre ++ this :: rest →
        ¬ (strcasecmp_eq this.source "files" = true ∧
          strchr (mapname (sources_left env pre ap)) '/' = true) ∧
        action_terminates this .NSS_STATUS_UNAVAIL = false) := by
  obtain ⟨h1, h2, h3⟩ := read_map_loop_unavail env age hU nsslist ap []
    (List.not_mem_nil _)
  rw [lookup_nss_read_map_eq env ap age nsslist [] hmaptype habs hparse]
  rcases hres : read_map_loop env ap age nsslist [] with ⟨_ | v, l⟩
  · rw [hres] at h1 h2
    have hcond := h2.mp rfl
    cases nsslist with
    | nil => simpa using h1
    | cons a b =>
      simp only [List.isEmpty_cons, if_true, ne_eq, reduceCtorEq, not_false_eq_true,
        true_and]
      exact ⟨⟨fun _ => hcond, fun _ => by simp⟩, ⟨fun _ => hcond, fun _ => trivial⟩⟩
  · rw [hres] at h1 h2 h3
    have hv : v = 0 := by
      rcases h3 with h | h
      · cases h
      · exact Option.some.inj h
    subst hv
    have hncond : ¬ ∀ pre this rest, nsslist = pre ++ this :: rest →
        ¬ (strcasecmp_eq this.source "files" = true ∧
          strchr (mapname (sources_left env pre ap)) '/' = true) ∧
        action_terminates this .NSS_STATUS_UNAVAIL = false := by
      intro hc
      have := h2.mpr hc
      cases this
    simp only at h1 ⊢
    exact ⟨⟨fun hc => absurd hc h1, fun hc => absurd hc.2 hncond⟩,
      ⟨fun hc => absurd hc (by decide), fun hc => absurd hc.2 hncond⟩⟩

/-- C5 (amended), at a concrete input: `nis [UNAVAIL=return]` answering
`UNAVAIL` ends the pipeline, and `cache_clean` is not called. -/
theorem read_map_unavail_cache_clean_witness :
    Event.cache_clean test_point.path 7 ∉
      (lookup_nss_read_map (const_env [nis_unavail_return] .NSS_STATUS_UNAVAIL)
        test_point 7 []).2 :=
  fun h => absurd
    ((((read_map_unavail_cache_clean (const_env [nis_unavail_return] .NSS_STATUS_UNAVAIL)
      test_point 7 [nis_unavail_return] (fun _ _ _ _ _ h _ _ => by cases h; rfl)
      rfl (by decide) rfl).1).mp h).2 [] nis_unavail_return [] rfl).2
    (by decide)

/-- On an entry without sources `master_add_map_source` returns the new source,
which becomes the head of the list and `entry->first`. -/
theorem master_add_map_source_first (entry : master_mapent) (type format : Option String)
    (age : Int) (argv : List String) (hnew : entry.maps = []) :
    master_add_map_source entry type format age argv
      = some (some ⟨type, format, age, argv, false⟩,
          { entry with maps := [⟨type, format, age, argv, false⟩], first := some 0 }) := by
  simp only [master_add_map_source, master_mutex_lock, hnew, List.isEmpty_nil,
    Bool.false_eq_true, if_false, if_true]

/-- C6 (map-source uniqueness), the code on an entry that has a source:
`master_add_map_source` locks `master_mutex` and, to look for a duplicate, calls
`master_find_map_source`, which locks `master_mutex` again.  The mutex is not
recursive, so the call does not return: it neither returns `NULL` for the tuple
of a source of the list nor appends a source with a new tuple. -/
theorem add_map_source_locks_twice (entry : master_mapent) (type format : Option String)
    (age : Int) (argv : List String) (hmaps : entry.maps ≠ []) :
    master_mutex_lock false = some true ∧
    master_find_map_source true entry type format argv = none ∧
    master_add_map_source entry type format age argv = none := by
  have hie : entry.maps.isEmpty = false := by
    cases h : entry.maps with
    | nil => exact absurd h hmaps
    | cons a l => rfl
  refine ⟨rfl, rfl, ?_⟩
  simp only [master_add_map_source, master_mutex_lock, master_find_map_source, hie,
    Bool.false_eq_true, if_false, if_true]

/-- C6, at a concrete input: the first call on the entry for `/a` adds the file
map `/etc/auto.a`; a second call, for the same map or for the map `auto.a` of
`yp`, does not return. -/
theorem add_map_source_locks_twice_witness :
    master_add_map_source entry_a (some "file") none 5 ["/etc/auto.a"]
      = some (some (source_of "file" 5 "/etc/auto.a"), entry_a1) ∧
    entry_a1.maps ≠ [] ∧
    master_add_map_source entry_a1 (some "file") none 6 ["/etc/auto.a"] = none ∧
    master_add_map_source entry_a1 (some "yp") none 5 ["auto.a"] = none :=
  ⟨rfl, by decide,
    (add_map_source_locks_twice entry_a1 (some "file") none 6 ["/etc/auto.a"] (by decide)).2.2,
    (add_map_source_locks_twice entry_a1 (some "yp") none 5 ["auto.a"] (by decide)).2.2⟩

/-- In a list of entries with pairwise distinct paths the search for the path
of a member ends at that member. -/
theorem find_path_of_nodup (l : List master_mapent) (e : master_mapent)
    (hnd : (l.map master_mapent.path).Nodup) (he : e ∈ l) :
    l.find? (fun entry => entry.path == e.path) = some e := by
  induction l with
  | nil => cases he
  | cons a rest ih =>
    rw [List.map_cons, List.nodup_cons] at hnd
    rcases List.mem_cons.mp he with rfl | hmem
    · simp [List.find?_cons]
    · have hne : a.path ≠ e.path := by
        intro h
        exact hnd.1 (h ▸ List.mem_map_of_mem _ hmem)
      rw [List.find?_cons]
      have : (a.path == e.path) = false := by simpa using hne
      rw [this]
      exact ih hnd.2 hmem

theorem guarded_registry_nodup (m : master) (h : guarded_registry m) :
    (m.mounts.map master_mapent.path).Nodup := by
  induction h with
  | empty m hm => rw [hm]; exact List.nodup_nil
  | add m entry _ hfind ih =>
    simp only [master_add_mapent, List.map_append, List.map_cons, List.map_nil]
    rw [List.nodup_append]
    refine ⟨ih, List.nodup_singleton _, ?_⟩
    intro x hx hx1
    rw [List.mem_singleton] at hx1
    subst hx1
    obtain ⟨e, he, hpe⟩ := List.mem_map.mp hx
    unfold master_find_mapent at hfind
    rw [List.find?_eq_none] at hfind
    exact hfind e he (by simpa using hpe)
  | free m i _ ih =>
    simp only [master_free_mapent]
    exact List.Nodup.sublist (List.Sublist.map _ (List.eraseIdx_sublist _ _)) ih

/-- C7 (amended; registry uniqueness): in every registry built from an empty
one by `master_free_mapent` and by `master_add_mapent` calls made only for
paths that `master_find_mapent` does not find, two entries of `master->mounts`
with equal paths are at the same position, `master_find_mapent` returns the
entry with the path when there is one, and `NULL` otherwise. -/
theorem registry_uniqueness (m : master) (h : guarded_registry m) :
    (∀ i j (hi : i < m.mounts.length) (hj : j < m.mounts.length),
      (m.mounts[i]).path = (m.mounts[j]).path → i = j) ∧
    (∀ e ∈ m.mounts, master_find_mapent m e.path = some e) ∧
    (∀ path, (∀ e ∈ m.mounts, e.path ≠ path) → master_find_mapent m path = none) := by
  have hnd := guarded_registry_nodup m h
  refine ⟨?_, ?_, ?_⟩
  · intro i j hi hj hp
    have hi1 : i < (m.mounts.map master_mapent.path).length := by simpa using hi
    have hj1 : j < (m.mounts.map master_mapent.path).length := by simpa using hj
    exact (@List.Nodup.getElem_inj_iff _ _ hnd i hi1 j hj1).mp (by simpa using hp)
  · intro e he
    exact find_path_of_nodup m.mounts e hnd he
  · intro path hall
    unfold master_find_mapent
    rw [List.find?_eq_none]
    intro e he
    simpa using hall e he

/-- C7 (amended), at a concrete input: the registry holding `/a` and `/b`. -/
theorem registry_uniqueness_witness :
    master_find_mapent
        (master_add_mapent (master_add_mapent (registry_of []) entry_a) entry_b) "/b"
      = some entry_b :=
  (registry_uniqueness (master_add_mapent (master_add_mapent (registry_of []) entry_a) entry_b)
    (guarded_registry.add _ entry_b
      (guarded_registry.add _ entry_a (guarded_registry.empty _ rfl) rfl)
      rfl)).2.1 entry_b (by simp [master_add_mapent])

/-- C7, refuted as stated: `master_add_mapent` appends without a test, so two
calls for the path `/a` leave two different entries with that path in
`master->mounts`, of which `master_find_mapent` returns the first. -/
theorem registry_duplicate_path :
    (master_add_mapent (master_add_mapent (registry_of []) entry_a) entry_a_later).mounts.map
        master_mapent.path = ["/a", "/a"] ∧
    (master_add_mapent (master_add_mapent (registry_of []) entry_a) entry_a_later).mounts.map
        master_mapent.age = [5, 6] ∧
    (master_find_mapent
        (master_add_mapent (master_add_mapent (registry_of []) entry_a) entry_a_later) "/a").map
        master_mapent.age = some 5 := by
  decide

theorem notify_submounts_if (this : autofs_point) (state : states) :
    (if this.submounts.isEmpty then [] else notify_submounts this state)
      = notify_submounts this state := by
  obtain ⟨p, mt, mf, ma, g, t, st, sp, subs⟩ := this
  cases subs with
  | nil => simp [notify_submounts, notify_submounts_loop]
  | cons a l => simp

mutual
/-- The calls of `notify_submounts` are the writes of the state to the state
pipes of the transitive submounts. -/
theorem mem_notify_submounts (ap : autofs_point) (state : states) (x : Event) :
    x ∈ notify_submounts ap state ↔
      ∃ s ∈ transitive_submounts ap, x = Event.nextstate s.state_pipe.2 state := by
  match ap with
  | ⟨_, _, _, _, _, _, _, _, submounts⟩ =>
    simp only [notify_submounts, transitive_submounts]
    exact mem_notify_submounts_loop submounts state x
theorem mem_notify_submounts_loop (l : List autofs_point) (state : states) (x : Event) :
    x ∈ notify_submounts_loop l state ↔
      ∃ s ∈ transitive_submounts_list l, x = Event.nextstate s.state_pipe.2 state := by
  match l with
  | [] => simp [notify_submounts_loop, transitive_submounts_list]
  | this :: rest =>
    have h1 := mem_notify_submounts this state x
    have h2 := mem_notify_submounts_loop rest state x
    simp only [notify_submounts_loop, transitive_submounts_list, notify_submounts_if,
      List.mem_append, List.mem_singleton, List.mem_cons, List.not_mem_nil, or_false, h1, h2]
    constructor
    · rintro ((⟨s, hs, rfl⟩ | rfl) | ⟨s, hs, rfl⟩)
      · exact ⟨s, Or.inr (Or.inl hs), rfl⟩
      · exact ⟨this, Or.inl rfl, rfl⟩
      · exact ⟨s, Or.inr (Or.inr hs), rfl⟩
    · rintro ⟨s, (rfl | hs | hs), rfl⟩
      · exact Or.inl (Or.inr rfl)
      · exact Or.inl (Or.inl ⟨s, hs, rfl⟩)
      · exact Or.inr ⟨s, hs, rfl⟩
end

theorem mount_mounts_loop_append (env : Env) (age readall : Int)
    (l1 l2 : List master_mapent) :
    mount_mounts_loop env age readall (l1 ++ l2)
      = ((mount_mounts_loop env age readall l1).1 ++ (mount_mounts_loop env age readall l2).1,
         (mount_mounts_loop env age readall l1).2 ++ (mount_mounts_loop env age readall l2).2) := by
  induction l1 with
  | nil => simp [mount_mounts_loop]
  | cons a rest ih =>
    simp only [List.cons_append, mount_mounts_loop]
    split_ifs <;> simp [ih, List.append_assoc]

/-- C8 (stale-entry shutdown): for an entry of the registry with `age` below
the epoch, the calls of `master_mount_mounts` are those for the entries before
it, then those of `shutdown_entry` for it, then those for the entries after it,
and the entry stays as it was in the registry (no map-source reconciliation);
with an open state channel `shutdown_entry` writes `ST_SHUTDOWN_PENDING` to the
channel of the entry and to the channel of every transitive submount; its calls
are such writes only (no `READMAP`, no worker launch), and none at all when the
channel is not open. -/
theorem stale_entry_shutdown (env : Env) (m : master) (age readall : Int)
    (l1 l2 : List master_mapent) (e : master_mapent)
    (hm : m.mounts = l1 ++ e :: l2) (hage : e.age < age) :
    master_mount_mounts env m age readall
      = (1,
         { m with mounts := (mount_mounts_loop env age readall l1).1 ++
             e :: (mount_mounts_loop env age readall l2).1 },
         (mount_mounts_loop env age readall l1).2 ++ shutdown_entry env e ++
           (mount_mounts_loop env age readall l2).2) ∧
    (env.fstat e.ap.state_pipe.2 = .ok →
      Event.nextstate e.ap.state_pipe.2 .ST_SHUTDOWN_PENDING ∈ shutdown_entry env e ∧
      ∀ s ∈ transitive_submounts e.ap,
        Event.nextstate s.state_pipe.2 .ST_SHUTDOWN_PENDING ∈ shutdown_entry env e) ∧
    (∀ x ∈ shutdown_entry env e,
      x = Event.nextstate e.ap.state_pipe.2 .ST_SHUTDOWN_PENDING ∨
      ∃ s ∈ transitive_submounts e.ap,
        x = Event.nextstate s.state_pipe.2 .ST_SHUTDOWN_PENDING) ∧
    (env.fstat e.ap.state_pipe.2 ≠ .ok → shutdown_entry env e = []) := by
  refine ⟨?_, ?_, ?_, ?_⟩
  · simp only [master_mount_mounts, hm, mount_mounts_loop_append, mount_mounts_loop, hage,
      if_true, List.append_assoc]
  · intro hok
    simp only [shutdown_entry, hok, ne_eq, not_true_eq_false, if_false, List.mem_append,
      List.mem_singleton, or_true, true_and]
    intro s hs
    exact Or.inl ((mem_notify_submounts e.ap _ _).mpr ⟨s, hs, rfl⟩)
  · intro x hx
    unfold shutdown_entry at hx
    simp only at hx
    split_ifs at hx with hf
    · cases hx
    · rcases List.mem_append.mp hx with h | h
      · exact Or.inr ((mem_notify_submounts e.ap _ _).mp h)
      · exact Or.inl (List.mem_singleton.mp h)
  · intro hno
    simp only [shutdown_entry, hno, ne_eq, not_false_eq_true, if_true]

/-- C8, at a concrete input: `/mnt/a`, last seen at epoch 4, and its three
submounts are sent `ST_SHUTDOWN_PENDING` at epoch 5, before `/mnt/b` is looked
at. -/
theorem stale_entry_shutdown_witness :
    stale_entry.age < 5 ∧
    (master_mount_mounts (const_env [] .NSS_STATUS_SUCCESS)
        (registry_of [stale_entry, fresh_entry]) 5 0).2.2
      = [Event.nextstate 10 .ST_SHUTDOWN_PENDING, Event.nextstate 8 .ST_SHUTDOWN_PENDING,
         Event.nextstate 12 .ST_SHUTDOWN_PENDING, Event.nextstate 4 .ST_SHUTDOWN_PENDING] :=
  ⟨by decide,
   congrArg (fun r => r.2.2)
    (stale_entry_shutdown (const_env [] .NSS_STATUS_SUCCESS)
      (registry_of [stale_entry, fresh_entry]) 5 0 [] [fresh_entry] stale_entry rfl
      (by decide)).1⟩

theorem update_sources_loop_unchanged (ap : autofs_point) (age : Int)
    (l : List map_source) (i : Nat) (first : Option Nat)
    (h : ∀ s ∈ l, age ≤ s.age ∧ s.type ≠ some "null") :
    update_sources_loop ap age l i first false
      = { maps := l, first := first, map_stale := false, events := [] } := by
  induction l generalizing i with
  | nil => rfl
  | cons s rest ih =>
    have hs := h s (List.mem_cons_self _ _)
    have hrest := ih (i + 1) (fun t ht => h t (List.mem_cons_of_mem _ ht))
    simp only [update_sources_loop, not_lt.mpr hs.1, if_false, hs.2, hrest]

theorem check_update_map_sources_unchanged (env : Env) (entry : master_mapent) (age : Int)
    (h : ∀ s ∈ entry.maps, age ≤ s.age ∧ s.type ≠ some "null") :
    check_update_map_sources env entry age 0 = (entry, []) := by
  simp [check_update_map_sources, update_sources_loop_unchanged entry.ap age entry.maps 0
    entry.first h]

theorem mount_mounts_loop_unchanged (env : Env) (age : Int) (l : List master_mapent)
    (h : ∀ e ∈ l, age ≤ e.age ∧ (∀ s ∈ e.maps, age ≤ s.age ∧ s.type ≠ some "null") ∧
      env.fstat e.ap.state_pipe.2 = .ok) :
    mount_mounts_loop env age 0 l = (l, []) := by
  induction l with
  | nil => rfl
  | cons e rest ih =>
    have he := h e (List.mem_cons_self _ _)
    have hrest := ih (fun t ht => h t (List.mem_cons_of_mem _ ht))
    simp [mount_mounts_loop, not_lt.mpr he.1, check_update_map_sources_unchanged env e age he.2.1,
      he.2.2, hrest]

/-- C9 (amended; re-reading an unchanged master map): when every entry and
every map source carries `age` at or above the epoch, no source has the type
`null`, every entry has an open state channel and `readall` is 0,
`master_mount_mounts` returns 1, leaves the registry as it was and makes no
call: nothing is added or released, no worker is started and no state
transition is written. -/
theorem reread_unchanged (env : Env) (m : master) (age : Int)
    (h : ∀ e ∈ m.mounts, age ≤ e.age ∧ (∀ s ∈ e.maps, age ≤ s.age ∧ s.type ≠ some "null") ∧
      env.fstat e.ap.state_pipe.2 = .ok) :
    master_mount_mounts env m age 0 = (1, m, []) := by
  simp [master_mount_mounts, mount_mounts_loop_unchanged env age m.mounts h]

/-- C9 (amended), at a concrete input: the registry holding `/mnt/b`. -/
theorem reread_unchanged_witness :
    master_mount_mounts (const_env [] .NSS_STATUS_SUCCESS) (registry_of [fresh_entry]) 5 0
      = (1, registry_of [fresh_entry], []) :=
  reread_unchanged (const_env [] .NSS_STATUS_SUCCESS) (registry_of [fresh_entry]) 5
    (by
      intro e he
      simp only [registry_of, List.mem_singleton] at he
      subst he
      refine ⟨by decide, ?_, by decide⟩
      intro s hs
      simp only [fresh_entry, entry_of, source_of, List.mem_singleton] at hs
      subst hs
      exact ⟨by decide, by decide⟩)

/-- C9, refuted as stated: with `readall` set, `check_update_map_sources`
takes the sources as changed and `master_mount_mounts` writes `ST_READMAP` to
the state channel of an entry whose age and sources are those of the epoch. -/
theorem reread_readall_writes_readmap :
    fresh_entry.age = 5 ∧
    fresh_entry.maps.map map_source.age = [5] ∧
    (const_env [] .NSS_STATUS_SUCCESS).fstat fresh_entry.ap.state_pipe.2 = .ok ∧
    (master_mount_mounts (const_env [] .NSS_STATUS_SUCCESS)
        (registry_of [fresh_entry]) 5 1).2.2
      = [Event.nextstate 6 .ST_READMAP] := by
  decide

/-- Without an entry in state `ST_INVAL`, `SIGTERM` and `SIGUSR2` reach every
entry that is not in `ST_SHUTDOWN` and all its transitive submounts. -/
theorem notify_state_change_without_inval (m : master) (sig : Int) (next : states)
    (hsig : (sig = SIGTERM ∧ next = .ST_SHUTDOWN_PENDING) ∨
      (sig = SIGUSR2 ∧ next = .ST_SHUTDOWN_FORCE))
    (hinval : ∀ e ∈ m.mounts, e.ap.state ≠ .ST_INVAL) :
    (master_notify_state_change m sig).2 = .completed ∧
    ∀ e ∈ m.mounts, e.ap.state ≠ .ST_SHUTDOWN →
      Event.nextstate e.ap.state_pipe.2 next ∈ (master_notify_state_change m sig).1 ∧
      ∀ s ∈ transitive_submounts e.ap,
        Event.nextstate s.state_pipe.2 next ∈ (master_notify_state_change m sig).1 := by
  unfold master_notify_state_change
  generalize m.mounts = l at hinval
  induction l with
  | nil => exact ⟨rfl, fun e he => absurd he (List.not_mem_nil _)⟩
  | cons a rest ih =>
    have ha := hinval a (List.mem_cons_self _ _)
    obtain ⟨ih1, ih2⟩ := ih (fun t ht => hinval t (List.mem_cons_of_mem _ ht))
    have hstep : notify_state_change_loop sig (a :: rest)
        = ((if a.ap.state ≠ .ST_SHUTDOWN then
              notify_submounts a.ap next ++ [Event.nextstate a.ap.state_pipe.2 next]
            else []) ++ (notify_state_change_loop sig rest).1,
           (notify_state_change_loop sig rest).2) := by
      rcases hsig with ⟨h1, h2⟩ | ⟨h1, h2⟩
      · subst h1 h2
        simp only [notify_state_change_loop, ha, if_false, if_true]
      · subst h1 h2
        have : ¬ SIGUSR2 = SIGTERM := by decide
        simp only [notify_state_change_loop, ha, if_false, this, if_true]
    rw [hstep]
    refine ⟨ih1, ?_⟩
    intro e he hns
    rcases List.mem_cons.mp he with rfl | hmem
    · simp only [hns, ne_eq, not_false_eq_true, if_true, List.mem_append, List.mem_singleton,
        or_true, true_or, true_and]
      intro s hs
      exact Or.inl (Or.inl ((mem_notify_submounts e.ap _ _).mpr ⟨s, hs, rfl⟩))
    · obtain ⟨h1, h2⟩ := ih2 e hmem hns
      exact ⟨List.mem_append_right _ h1, fun s hs => List.mem_append_right _ (h2 s hs)⟩

/-- C10 (signal fan-out), the code at a registry whose first entry is in state
`ST_INVAL`: `master_notify_state_change` leaves through the `return` inside its
loop, and neither `SIGTERM` nor `SIGUSR2` writes anything to the state channel
of `/mnt/b`, although that entry is in state `ST_READY`. -/
theorem notify_state_change_stops_at_inval :
    fresh_entry.ap.state = .ST_READY ∧
    master_notify_state_change (registry_of [inval_entry, fresh_entry]) SIGTERM
      = ([], .returned_in_loop) ∧
    master_notify_state_change (registry_of [inval_entry, fresh_entry]) SIGUSR2
      = ([], .returned_in_loop) ∧
    master_notify_state_change (registry_of [fresh_entry]) SIGTERM
      = ([Event.nextstate 6 .ST_SHUTDOWN_PENDING], .completed) := by
  decide

/-! ## The map-file reader -/

namespace File

theorem next_escape_plain (c : Char) (nch : Option Char) (h1 : c ≠ '\\') (h2 : c ≠ '"') :
    next_escape .esc_none c nch = some .esc_none := by
  simp [next_escape, h1, h2]

theorem read_vars_escape_eq (v : read_vars) (h : v.escape = .esc_none) :
    { v with escape := .esc_none } = v := by
  cases v
  simp_all

/-- One turn of the loop of `read_one` that ends at the `continue` behind the
switch, with at least one character left in the stream. -/
theorem read_one_loop_continue (K M : Nat) (v w : read_vars) (ch : Char) (t : List Char)
    (e : ESCAPES) (ht : t ≠ [])
    (he : next_escape v.escape ch t.head? = some e)
    (hs : read_one_switch K M { v with escape := e } ch t.head? = (.continue_loop, w)) :
    read_one_loop K M v (ch :: t) = read_one_loop K M w t := by
  cases t with
  | nil => exact absurd rfl ht
  | cons nch rest =>
    simp only [List.head?_cons] at he hs
    rw [read_one_loop, he]
    simp only [hs]

/-- A backslash followed by a newline, met outside of an escape, is taken from
the stream and the loop goes on as if it had not been there. -/
theorem read_one_loop_continuation (K M : Nat) (v : read_vars) (rest : List Char)
    (h : v.escape = .esc_none) :
    read_one_loop K M v ('\\' :: '\n' :: rest) = read_one_loop K M v rest := by
  rw [read_one_loop]
  simp [next_escape, h]

theorem not_isspace_ne (c : Char) (h : isspace c = false) :
    c ≠ '\n' ∧ c ≠ ' ' ∧ c ≠ '\t' := by
  simp only [isspace, Bool.or_eq_false_iff, decide_eq_false_iff_not] at h
  exact ⟨h.1.1.1.2, h.1.1.1.1.1, h.1.1.1.1.2⟩

/-- The key characters after the first: in `st_compare`, characters that are
neither white space nor a backslash nor a double quote are appended to the key
as long as the key has room. -/
theorem read_one_loop_compare (K M : Nat) (cs : List Char) (v : read_vars) (tail : List Char)
    (ht : tail ≠ []) (hst : v.state = .st_compare) (hesc : v.escape = .esc_none)
    (hcs : ∀ c ∈ cs, isspace c = false ∧ c ≠ '\\' ∧ c ≠ '"')
    (hlen : v.key_len + cs.length ≤ K) :
    read_one_loop K M v (cs ++ tail)
      = read_one_loop K M
          { v with key := v.key ++ cs, key_len := v.key_len + cs.length } tail := by
  induction cs generalizing v with
  | nil =>
    have : { v with key := v.key ++ [], key_len := v.key_len + ([] : List Char).length } = v := by
      cases v; simp
    rw [this, List.nil_append]
  | cons c cs ih =>
    have hc := hcs c (List.mem_cons_self _ _)
    have hne := not_isspace_ne c hc.1
    have hk : v.key_len ≠ K := by
      simp only [List.length_cons] at hlen
      omega
    have hstep : read_one_switch K M { v with escape := .esc_none } c (cs ++ tail).head?
        = (.continue_loop, put_key v c) := by
      rw [read_vars_escape_eq v hesc]
      simp [read_one_switch, hst, hesc, hne.1, hc.1, hk]
    rw [List.cons_append, read_one_loop_continue K M v (put_key v c) c (cs ++ tail) .esc_none
      (by simp [ht]) (by rw [hesc]; exact next_escape_plain c _ hc.2.1 hc.2.2) hstep]
    rw [ih (put_key v c) hst hesc (fun d hd => hcs d (List.mem_cons_of_mem _ hd))
      (by simp only [put_key, List.length_cons] at hlen ⊢; omega)]
    congr 1
    simp only [put_key, List.append_assoc, List.singleton_append, List.length_cons]
    congr 1
    omega

/-- The characters of the entry after the first: in `st_getent`, characters
other than a newline, a backslash and a double quote are appended to the entry
as long as it has room and the stream goes on. -/
theorem read_one_loop_getent (K M : Nat) (cs : List Char) (v : read_vars) (tail : List Char)
    (ht : tail ≠ []) (hst : v.state = .st_getent) (hesc : v.escape = .esc_none)
    (hcs : ∀ c ∈ cs, c ≠ '\n' ∧ c ≠ '\\' ∧ c ≠ '"')
    (hlen : v.mapent_len + cs.length ≤ M) :
    read_one_loop K M v (cs ++ tail)
      = read_one_loop K M
          { v with mapent := v.mapent ++ cs, mapent_len := v.mapent_len + cs.length } tail := by
  induction cs generalizing v with
  | nil =>
    have : { v with mapent := v.mapent ++ [],
                    mapent_len := v.mapent_len + ([] : List Char).length } = v := by
      cases v; simp
    rw [this, List.nil_append]
  | cons c cs ih =>
    have hc := hcs c (List.mem_cons_self _ _)
    have hk : v.mapent_len < M := by
      simp only [List.length_cons] at hlen
      omega
    obtain ⟨n, hn⟩ : ∃ n, (cs ++ tail).head? = some n := by
      cases cs with
      | nil => cases tail with
        | nil => exact absurd rfl ht
        | cons a b => exact ⟨a, rfl⟩
      | cons a b => exact ⟨a, rfl⟩
    have hstep : read_one_switch K M { v with escape := .esc_none } c (cs ++ tail).head?
        = (.continue_loop,
            { v with mapent := v.mapent ++ [c], mapent_len := v.mapent_len + 1 }) := by
      rw [read_vars_escape_eq v hesc, hn]
      simp [read_one_switch, hst, hc.1, hk]
    rw [List.cons_append, read_one_loop_continue K M v _ c (cs ++ tail) .esc_none
      (by simp [ht]) (by rw [hesc]; exact next_escape_plain c _ hc.2.1 hc.2.2) hstep]
    rw [ih { v with mapent := v.mapent ++ [c], mapent_len := v.mapent_len + 1 } hst hesc
      (fun d hd => hcs d (List.mem_cons_of_mem _ hd))
      (by simp only [List.length_cons] at hlen ⊢; omega)]
    congr 1
    simp only [List.append_assoc, List.singleton_append, List.length_cons]
    congr 1
    omega

/-- Outside of an escape and away from the start of a line, a character other
than a newline never ends a turn of the switch at `got_it` or `next` while the
stream goes on, and what the switch does with it does not depend on the
character that follows. -/
theorem read_one_switch_plain (K M : Nat) (v : read_vars) (c : Char)
    (hesc : v.escape = .esc_none) (hst : v.state ≠ .st_begin) (hg : v.gotten ≠ .got_plus)
    (hgi : v.getting ≠ .got_plus) (hc : c ≠ '\n') :
    (∀ n, read_one_switch K M v c (some n)
      = (.continue_loop, (read_one_switch K M v c (some c)).2)) ∧
    (read_one_switch K M v c (some c)).2.escape = .esc_none ∧
    (read_one_switch K M v c (some c)).2.state ≠ .st_begin ∧
    (read_one_switch K M v c (some c)).2.gotten ≠ .got_plus ∧
    (read_one_switch K M v c (some c)).2.getting ≠ .got_plus := by
  obtain ⟨key, kl, me, ml, st, gi, go, es⟩ := v
  simp only at hesc hst hg hgi
  subst hesc
  cases st
  · exact absurd rfl hst
  all_goals
    refine ⟨fun n => ?_, ?_, ?_, ?_, ?_⟩ <;>
      simp only [read_one_switch, hc, if_false, put_key] <;>
      split_ifs <;> simp_all

/-- A run of characters other than newline, backslash and double quote, read
outside of an escape and away from the start of a line, leaves the reader in a
state that does not depend on what follows in the stream. -/
theorem read_one_loop_plain_run (K M : Nat) (cs : List Char) (v : read_vars)
    (hesc : v.escape = .esc_none) (hst : v.state ≠ .st_begin) (hg : v.gotten ≠ .got_plus)
    (hgi : v.getting ≠ .got_plus)
    (hcs : ∀ c ∈ cs, c ≠ '\n' ∧ c ≠ '\\' ∧ c ≠ '"') :
    ∃ w, w.escape = .esc_none ∧
      ∀ tail, tail ≠ [] → read_one_loop K M v (cs ++ tail) = read_one_loop K M w tail := by
  induction cs generalizing v with
  | nil => exact ⟨v, hesc, fun tail _ => rfl⟩
  | cons c cs ih =>
    have hc := hcs c (List.mem_cons_self _ _)
    obtain ⟨h1, h2, h3, h4, h5⟩ := read_one_switch_plain K M v c hesc hst hg hgi hc.1
    obtain ⟨w, hw, hrun⟩ := ih _ h2 h3 h4 h5 (fun d hd => hcs d (List.mem_cons_of_mem _ hd))
    refine ⟨w, hw, fun tail ht => ?_⟩
    obtain ⟨n, hn⟩ : ∃ n, (cs ++ tail).head? = some n := by
      cases cs with
      | nil => cases tail with
        | nil => exact absurd rfl ht
        | cons a b => exact ⟨a, rfl⟩
      | cons a b => exact ⟨a, rfl⟩
    rw [List.cons_append, read_one_loop_continue K M v _ c (cs ++ tail) .esc_none
      (by simp [ht]) (by rw [hesc]; exact next_escape_plain c _ hc.2.1 hc.2.2)
      (by rw [read_vars_escape_eq v hesc, hn]; exact h1 n)]
    exact hrun tail ht

/-- A backslash and a newline after the first fragment of a value leave no
trace: for a key `k` without white space, backslash and double quote that does
not start with `+`, a value fragment `v1` without newline, backslash and double
quote and any fragment `v2`, `read_one` hands back the same result on the text
`k v1`, backslash, newline, `v2`, newline as on the text `k v1v2`, newline. -/
theorem read_one_continued_line_eq (K M : Nat) (k v1 v2 : List Char)
    (hk : k ≠ [])
    (hkc : ∀ c ∈ k, isspace c = false ∧ c ≠ '\\' ∧ c ≠ '"')
    (hk0 : k.head? ≠ some '+')
    (hv1 : ∀ c ∈ v1, c ≠ '\n' ∧ c ≠ '\\' ∧ c ≠ '"') :
    read_one K M (k ++ [' '] ++ v1 ++ ['\\', '\n'] ++ v2 ++ ['\n'])
      = read_one K M (k ++ [' '] ++ v1 ++ v2 ++ ['\n']) := by
  obtain ⟨c0, ks, rfl⟩ := List.exists_cons_of_ne_nil hk
  have hc0 := hkc c0 (List.mem_cons_self _ _)
  have hc0n := not_isspace_ne c0 hc0.1
  simp only [List.head?_cons, ne_eq, Option.some.injEq] at hk0
  -- the first character of the key, in `st_begin`
  obtain ⟨w0, hw0, hfirst⟩ : ∃ w0, (w0.escape = .esc_none ∧ w0.state ≠ .st_begin ∧
      w0.gotten ≠ .got_plus ∧ w0.getting ≠ .got_plus) ∧
      ∀ n, read_one_switch K M read_one_init c0 (some n) = (.continue_loop, w0) := by
    by_cases h1 : c0 = '#'
    · exact ⟨{ read_one_init with state := .st_badent },
        by simp [read_one_init], fun n => by simp [read_one_switch, read_one_init, h1, isspace]⟩
    · by_cases h2 : c0 = '*'
      · exact ⟨put_key { read_one_init with state := .st_star } c0,
          by simp [read_one_init, put_key],
          fun n => by simp [read_one_switch, read_one_init, h2, isspace]⟩
      · exact ⟨put_key { read_one_init with state := .st_compare } c0,
          by simp [read_one_init, put_key],
          fun n => by simp [read_one_switch, read_one_init, h1, h2, hk0, hc0.1]⟩
  -- the rest of the key, the blank and the first fragment
  obtain ⟨w, hw, hrun⟩ := read_one_loop_plain_run K M (ks ++ [' '] ++ v1) w0
    hw0.1 hw0.2.1 hw0.2.2.1 hw0.2.2.2
    (by
      intro c hc
      simp only [List.append_assoc, List.mem_append, List.mem_singleton] at hc
      rcases hc with h | rfl | h
      · have := hkc c (List.mem_cons_of_mem _ h)
        exact ⟨(not_isspace_ne c this.1).1, this.2⟩
      · decide
      · exact hv1 c h)
  have hstart : ∀ tail, tail ≠ [] →
      read_one K M ((c0 :: ks) ++ [' '] ++ v1 ++ tail) = read_one_loop K M w tail := by
    intro tail ht
    unfold read_one
    have : (c0 :: ks) ++ [' '] ++ v1 ++ tail = c0 :: ((ks ++ [' '] ++ v1) ++ tail) := by simp
    rw [this, read_one_loop_continue K M read_one_init w0 c0 _ .esc_none (by simp [ht])
      (next_escape_plain c0 _ hc0.2.1 hc0.2.2)
      (by
        obtain ⟨n, hn⟩ : ∃ n, ((ks ++ [' '] ++ v1) ++ tail).head? = some n := by
          cases ks with
          | nil => exact ⟨' ', rfl⟩
          | cons a b => exact ⟨a, rfl⟩
        rw [hn]
        exact hfirst n)]
    exact hrun tail ht
  have e1 : (c0 :: ks) ++ [' '] ++ v1 ++ ['\\', '\n'] ++ v2 ++ ['\n']
      = (c0 :: ks) ++ [' '] ++ v1 ++ ('\\' :: '\n' :: (v2 ++ ['\n'])) := by simp
  have e2 : (c0 :: ks) ++ [' '] ++ v1 ++ v2 ++ ['\n']
      = (c0 :: ks) ++ [' '] ++ v1 ++ (v2 ++ ['\n']) := by simp
  rw [e1, e2, hstart _ (by simp), hstart _ (by simp), read_one_loop_continuation K M w _ hw]

/-- C12 (line continuation): for a key `k` (not empty, at most `KEY_MAX_LEN`
characters, without white space, backslash and double quote, not starting with
`#`, `+` or `*`) and value fragments `v1` (not empty, not starting with white
space) and `v2` without newline, backslash and double quote, of at most
`MAPENT_MAX_LEN` characters together, `read_one` on the text `k v1`, backslash,
newline, `v2`, newline returns 1 with the key `k` and the entry text `v1v2`,
with their lengths: the same entry as the one it returns on the text `k v1v2`,
newline.  The backslash and the newline are dropped and the line goes on. -/
theorem read_one_continuation (K M : Nat) (k v1 v2 : List Char)
    (hk : k ≠ []) (hklen : k.length ≤ K)
    (hkc : ∀ c ∈ k, isspace c = false ∧ c ≠ '\\' ∧ c ≠ '"')
    (hk0 : k.head? ≠ some '#' ∧ k.head? ≠ some '+' ∧ k.head? ≠ some '*')
    (hv1 : v1 ≠ []) (hv0 : ∀ c, v1.head? = some c → isspace c = false)
    (hv1c : ∀ c ∈ v1, c ≠ '\n' ∧ c ≠ '\\' ∧ c ≠ '"')
    (hv2c : ∀ c ∈ v2, c ≠ '\n' ∧ c ≠ '\\' ∧ c ≠ '"')
    (hvlen : v1.length + v2.length ≤ M) :
    read_one K M (k ++ [' '] ++ v1 ++ ['\\', '\n'] ++ v2 ++ ['\n'])
      = { ret := 1, key := k, k_len := k.length, mapent := v1 ++ v2,
          m_len := v1.length + v2.length, rest := [], eof := true } ∧
    read_one K M (k ++ [' '] ++ v1 ++ v2 ++ ['\n'])
      = { ret := 1, key := k, k_len := k.length, mapent := v1 ++ v2,
          m_len := v1.length + v2.length, rest := [], eof := true } := by
  have heq := read_one_continued_line_eq K M k v1 v2 hk hkc hk0.2.1 hv1c
  have hcont : read_one K M (k ++ [' '] ++ v1 ++ ['\\', '\n'] ++ v2 ++ ['\n'])
      = { ret := 1, key := k, k_len := k.length, mapent := v1 ++ v2,
          m_len := v1.length + v2.length, rest := [], eof := true } := by
    obtain ⟨c0, ks, rfl⟩ := List.exists_cons_of_ne_nil hk
    obtain ⟨v0, vs, rfl⟩ := List.exists_cons_of_ne_nil hv1
    have hc0 := hkc c0 (List.mem_cons_self _ _)
    have hc0n := not_isspace_ne c0 hc0.1
    have hv0s := hv0 v0 rfl
    have hv0c := hv1c v0 (List.mem_cons_self _ _)
    simp only [List.head?_cons, ne_eq, Option.some.injEq] at hk0
    simp only [List.length_cons] at hklen hvlen
    unfold read_one
    simp only [List.append_assoc, List.cons_append, List.nil_append]
    -- the first character of the key, in `st_begin`
    rw [read_one_loop_continue K M read_one_init
        { read_one_init with key := [c0], key_len := 1, state := .st_compare }
        c0 _ .esc_none (by simp) (next_escape_plain c0 _ hc0.2.1 hc0.2.2)
        (by simp [read_one_switch, read_one_init, put_key, hc0.1, hk0])]
    -- the other characters of the key
    rw [read_one_loop_compare K M ks _ _ (by simp) rfl rfl
        (fun c hc => hkc c (List.mem_cons_of_mem _ hc))
        (by simp only [read_one_init]; omega)]
    -- the blank
    rw [read_one_loop_continue K M _
        { read_one_init with key := c0 :: ks, key_len := 1 + ks.length, state := .st_entspc,
                             getting := .got_real }
        ' ' _ .esc_none (by simp)
        (by simp [next_escape, read_one_init])
        (by simp [read_one_switch, read_one_init, isspace])]
    -- the first character of the entry
    rw [read_one_loop_continue K M _
        { read_one_init with key := c0 :: ks, key_len := 1 + ks.length, state := .st_getent,
                             getting := .got_real, gotten := .got_real, mapent := [v0],
                             mapent_len := 1 }
        v0 _ .esc_none (by simp)
        (next_escape_plain v0 _ hv0c.2.1 hv0c.2.2)
        (by simp [read_one_switch, read_one_init, hv0s, hv0c.1])]
    -- the other characters of the first fragment
    rw [read_one_loop_getent K M vs _ _ (by simp) rfl rfl
        (fun c hc => hv1c c (List.mem_cons_of_mem _ hc)) (by simp only [read_one_init]; omega)]
    -- the backslash and the newline
    rw [read_one_loop_continuation K M _ _ rfl]
    -- the second fragment
    rw [read_one_loop_getent K M v2 _ _ (by simp) rfl rfl hv2c
        (by simp only [read_one_init]; omega)]
    -- the newline at the end of the file
    rw [read_one_loop]
    simp [next_escape, read_one_switch, read_one_init, entry_complete, Nat.add_comm,
      Nat.add_left_comm]
  exact ⟨hcont, heq ▸ hcont⟩

/-- C12, at a concrete input: `home -fstype=nfs` continued by ` srv:/home`. -/
theorem read_one_continuation_witness :
    read_one 255 4095
        ("home".data ++ [' '] ++ "-fstype=nfs".data ++ ['\\', '\n'] ++ " srv:/home".data ++ ['\n'])
      = { ret := 1, key := "home".data, k_len := "home".data.length,
          mapent := "-fstype=nfs".data ++ " srv:/home".data,
          m_len := "-fstype=nfs".data.length + " srv:/home".data.length,
          rest := [], eof := true } ∧
    read_one 255 4095
        ("home".data ++ [' '] ++ "-fstype=nfs".data ++ " srv:/home".data ++ ['\n'])
      = { ret := 1, key := "home".data, k_len := "home".data.length,
          mapent := "-fstype=nfs".data ++ " srv:/home".data,
          m_len := "-fstype=nfs".data.length + " srv:/home".data.length,
          rest := [], eof := true } :=
  read_one_continuation 255 4095 "home".data "-fstype=nfs".data " srv:/home".data
    (by decide) (by decide) (by decide) (by decide) (by decide) (by decide) (by decide)
    (by decide) (by decide)

/-- C13 (size caps), the code at the caps: a key of `KEY_MAX_LEN - 1` plain
characters followed by a backslash escape is handed back with the key length
`KEY_MAX_LEN + 1` (the test `key_len == KEY_MAX_LEN` is made once for the two
bytes that an escaped character adds), and an entry whose value is one
character longer than `MAPENT_MAX_LEN` is handed back cut to `MAPENT_MAX_LEN`
characters instead of being skipped. -/
theorem read_one_caps (n m : Nat) :
    read_one (n + 2) (m + 1) (List.replicate (n + 1) 'a' ++ ['\\', 'b', ' ', 'v', '\n'])
      = { ret := 1, key := List.replicate (n + 1) 'a' ++ ['\\', 'b'], k_len := n + 3,
          mapent := ['v'], m_len := 1, rest := [], eof := true } ∧
    read_one (n + 1) (m + 1) (['k', ' ', 'x'] ++ List.replicate (m + 1) 'x' ++ ['\n'])
      = { ret := 1, key := ['k'], k_len := 1, mapent := List.replicate (m + 1) 'x',
          m_len := m + 1, rest := [], eof := true } := by
  constructor
  · unfold read_one
    rw [List.replicate_succ, List.cons_append,
      read_one_loop_continue (n + 2) (m + 1) read_one_init
        { read_one_init with key := ['a'], key_len := 1, state := .st_compare }
        'a' _ .esc_none (by simp) (by simp [next_escape, read_one_init])
        (by simp [read_one_switch, read_one_init, put_key, isspace]),
      read_one_loop_compare (n + 2) (m + 1) (List.replicate n 'a') _ _ (by simp) rfl rfl
        (by intro c hc; rw [List.eq_of_mem_replicate hc]; decide)
        (by simp only [List.length_replicate]; omega)]
    have hcap : ¬ (1 + n = n + 2) := by omega
    simp [read_one_loop, next_escape, read_one_switch, put_key, entry_complete, isspace,
      List.length_replicate, read_one_init, hcap]
    omega
  · unfold read_one
    rw [List.replicate_succ', List.append_assoc, List.append_assoc]
    simp only [List.cons_append, List.nil_append, List.singleton_append]
    rw [read_one_loop_continue (n + 1) (m + 1) read_one_init
        { read_one_init with key := ['k'], key_len := 1, state := .st_compare }
        'k' _ .esc_none (by simp) (by simp [next_escape, read_one_init])
        (by simp [read_one_switch, read_one_init, put_key, isspace]),
      read_one_loop_continue (n + 1) (m + 1) _
        { read_one_init with key := ['k'], key_len := 1, state := .st_entspc,
                             getting := .got_real }
        ' ' _ .esc_none (by simp) (by simp [next_escape, read_one_init])
        (by simp [read_one_switch, read_one_init, put_key, isspace]),
      read_one_loop_continue (n + 1) (m + 1) _
        { read_one_init with key := ['k'], key_len := 1, state := .st_getent,
                             getting := .got_real, gotten := .got_real,
                             mapent := ['x'], mapent_len := 1 }
        'x' _ .esc_none (by simp) (by simp [next_escape, read_one_init])
        (by simp [read_one_switch, read_one_init, put_key, isspace, isblank]),
      read_one_loop_getent (n + 1) (m + 1) (List.replicate m 'x') _ ['x', '\n'] (by simp)
        rfl rfl
        (by intro c hc; rw [List.eq_of_mem_replicate hc]; decide)
        (by simp only [List.length_replicate, read_one_init]; omega)]
    simp [read_one_loop, next_escape, read_one_switch, entry_complete, isblank,
      List.length_replicate, List.replicate_succ, read_one_init, Nat.add_comm]
    rw [← List.replicate_succ, List.replicate_succ']

end File

/-! ## The defaults taken from the environment -/

/-- C18 (DEFAULT_BROWSE_MODE), the code at the values `no` and `yes`: with
`DEFAULT_BROWSE_MODE=no` (in any letter case used here) `master_set_default_ghost_mode`
leaves the default ghost mode as it was, and with `DEFAULT_BROWSE_MODE=yes` it
sets the default ghost mode to 0; the value `0` sets it to 0 and `1` leaves it. -/
theorem set_default_ghost_mode_no_yes (g : master_globals) :
    master_set_default_ghost_mode (env_with "DEFAULT_BROWSE_MODE" "no") g = g ∧
    master_set_default_ghost_mode (env_with "DEFAULT_BROWSE_MODE" "NO") g = g ∧
    master_set_default_ghost_mode (env_with "DEFAULT_BROWSE_MODE" "yes") g
      = { g with default_ghost_mode := 0 } ∧
    master_set_default_ghost_mode (env_with "DEFAULT_BROWSE_MODE" "0") g
      = { g with default_ghost_mode := 0 } ∧
    master_set_default_ghost_mode (env_with "DEFAULT_BROWSE_MODE" "1") g = g := by
  refine ⟨rfl, rfl, rfl, rfl, rfl⟩

/-- C19 (DEFAULT_TIMEOUT), the code with `DEFAULT_TIMEOUT=300` in the
environment: `master_set_default_timeout` stores 300 in the variable
`default_timeout`, and the master map that `master_new` creates afterwards has
the value of the macro `DEFAULT_TIMEOUT` as its `default_timeout`, whatever the
variable holds. -/
theorem master_new_default_timeout (DEFAULT_MASTER_MAP : String)
    (DEFAULT_LOGGING DEFAULT_TIMEOUT : Nat) (g : master_globals) (name : Option String) :
    (master_set_default_timeout (env_with "DEFAULT_TIMEOUT" "300") g).default_timeout = 300 ∧
    (master_new DEFAULT_MASTER_MAP DEFAULT_LOGGING DEFAULT_TIMEOUT
        (master_set_default_timeout (env_with "DEFAULT_TIMEOUT" "300") g) name).default_timeout
      = DEFAULT_TIMEOUT :=
  ⟨rfl, rfl⟩

/-! ## Ghosting -/

/-- The `mkdir_path` calls of the ghosting loop: those made before, then one
for every entry whose key starts neither with `*` nor with `/`, as long as no
`stat` fails with an error other than `ENOENT`. -/
theorem lookup_ghost_loop_mkdir (env : ghost_env) (ap : autofs_point)
    (hstat : ∀ log path, env.stat log path ≠ stat_result.other)
    (mc : List mapent) (log : List ghost_call) :
    mkdir_calls (lookup_ghost_loop env ap mc log).2
      = mkdir_calls log
          ++ (mc.filter ghost_key).map fun me => (ap.path ++ "/" ++ me.key, 0o555) := by
  induction mc generalizing log with
  | nil => simp [lookup_ghost_loop]
  | cons me rest ih =>
    unfold lookup_ghost_loop
    by_cases h1 : me.key.data.head? = some '*'
    · simp [h1, ih, ghost_key]
    · by_cases h2 : me.key.data.head? = some '/'
      · simp [h1, h2, ih, ghost_key]
      · have hk : ghost_key me = true := by simp [ghost_key, h1, h2]
        simp only [h1, h2, if_false, hstat, List.filter_cons, hk, if_true, List.map_cons]
        by_cases h3 : env.mkdir_path (log ++ [ghost_call.stat (ap.path ++ "/" ++ me.key)])
            (ap.path ++ "/" ++ me.key) 0o555 < 0
        · simp only [h3, if_true]
          rw [ih]
          simp [mkdir_calls, List.filterMap_append]
        · simp only [h3, if_false]
          rw [ih]
          simp [mkdir_calls, List.filterMap_append]

/-- C20 (ghosting), counterexample: the cache key `*foo` is neither the
wildcard key `*` nor absolute, and `lookup_ghost` creates no directory for it
on a ghosted mount point `/home` although `stat` and `mkdir_path` would
succeed. -/
theorem lookup_ghost_skips_star_prefix :
    (entry_with "*foo" "srv:/foo").key ≠ "*" ∧
    (entry_with "*foo" "srv:/foo").key.data.head? ≠ some '/' ∧
    mkdir_calls (lookup_ghost ghost_env_ok (ghost_point "/home" 1)
      [entry_with "*foo" "srv:/foo"]).2.2 = [] := by
  decide

/-- C20 (ghosting), amended: for the direct-mount path (a slash and a dash) `lookup_ghost` makes no call and
returns `LKP_FAIL | LKP_DIRECT`; for another path with ghost off it makes no
call and returns `LKP_INDIRECT`; for another path with ghost set, when
`cache_enumerate_readlock` succeeds and no `stat` fails with an error other
than `ENOENT`, it returns `LKP_INDIRECT` and calls `mkdir_path(path/key, 0555)`
for exactly the cache keys whose first character is neither `*` nor `/`, once
each in enumeration order. -/
theorem lookup_ghost_directories (env : ghost_env) (ap : autofs_point) (mc : mapent_cache)
    (hp : ap.path ≠ "/-") :
    lookup_ghost env { ap with path := "/-" } mc = (LKP_FAIL ||| LKP_DIRECT, mc, []) ∧
    (ap.ghost = 0 → lookup_ghost env ap mc = (LKP_INDIRECT, mc, [])) ∧
    (ap.ghost ≠ 0 → env.cache_enumerate_readlock ≠ 0 →
      (∀ log path, env.stat log path ≠ stat_result.other) →
      (lookup_ghost env ap mc).1 = LKP_INDIRECT ∧
      mkdir_calls (lookup_ghost env ap mc).2.2
        = (mc.filter ghost_key).map fun me => (ap.path ++ "/" ++ me.key, 0o555)) := by
  refine ⟨by simp [lookup_ghost], ?_, ?_⟩
  · intro hg
    simp [lookup_ghost, hp, hg]
  · intro hg hl hstat
    simp only [lookup_ghost, hp, hg, hl, if_false]
    refine ⟨trivial, ?_⟩
    rw [lookup_ghost_loop_mkdir env ap hstat mc []]
    simp [mkdir_calls]

/-- C20 at a concrete cache: on `/home` with ghost set and the keys `alice`,
`*`, `/abs` and `bob`, the directories `/home/alice` and `/home/bob` are made
with mode 0555 and nothing else. -/
theorem lookup_ghost_directories_witness :
    (ghost_point "/home" 1).path ≠ "/-" ∧
    (lookup_ghost ghost_env_ok (ghost_point "/home" 1)
        [entry_with "alice" "srv:/a", entry_with "*" "srv:/&", entry_with "/abs" "srv:/x",
         entry_with "bob" "srv:/b"]).1 = LKP_INDIRECT ∧
    mkdir_calls (lookup_ghost ghost_env_ok (ghost_point "/home" 1)
        [entry_with "alice" "srv:/a", entry_with "*" "srv:/&", entry_with "/abs" "srv:/x",
         entry_with "bob" "srv:/b"]).2.2
      = [("/home/alice", 0o555), ("/home/bob", 0o555)] :=
  ⟨by decide,
   ((lookup_ghost_directories ghost_env_ok (ghost_point "/home" 1)
      [entry_with "alice" "srv:/a", entry_with "*" "srv:/&", entry_with "/abs" "srv:/x",
       entry_with "bob" "srv:/b"] (by decide)).2.2 (by decide) (by decide)
      (by intro log path; simp [ghost_env_ok])).1,
   by decide⟩

/-! ## The file module: inclusion guards -/

namespace File

/-- The payload scan leaves its pointers alone on a text without space, comma,
colon and backslash. -/
theorem plus_scan_loop_bare (buf : List Char) (hb : bare_name buf) (s : plus_scan) :
    ∀ (fuel tmp : Nat), tmp ≤ buf.length → buf.length + 1 ≤ fuel + tmp →
      plus_scan_loop buf fuel tmp s = some s := by
  intro fuel
  induction fuel with
  | zero => intro tmp h1 h2; omega
  | succ fuel ih =>
    intro tmp h1 h2
    unfold plus_scan_loop
    rw [if_neg (by omega)]
    by_cases hlt : tmp < buf.length
    · have hget : buf.get? tmp = some (buf.get ⟨tmp, hlt⟩) := List.get?_eq_get hlt
      have hc := hb _ (List.get_mem buf tmp hlt)
      simp only [hget, hc.1, hc.2.1, hc.2.2.1, if_false, Option.some.injEq, hc.2.2.2]
      exact ih (tmp + 1) (by omega) (by omega)
    · have hget : buf.get? tmp = none := List.get?_eq_none.mpr (by omega)
      simp only [hget]

/-- The C string at the start of a buffer without NUL is the buffer. -/
theorem cstring_at_zero (buf : List Char) : cstring_at buf [] 0 = String.mk buf := by
  unfold cstring_at
  have h : (buf.enum.drop 0).takeWhile (fun ic => !(([] : List Nat).contains ic.1))
      = buf.enum := by
    rw [List.drop_zero, List.takeWhile_eq_self_iff]
    intro x _
    simp
  rw [h, List.enum_map_snd]

/-- On a bare name after the `+`, `prepare_plus_include` adds a source without
type and format whose only argument is the name. -/
theorem prepare_plus_include_bare (current : include_guard) (age : Int) (key : String)
    (inc : Nat) (hb : bare_name key.data.tail) :
    prepare_plus_include current age key inc
      = some ({ type := none, format := none, age := age,
                argv := [String.mk key.data.tail], freed := false },
              { recurse := if inc ≠ 0 then 1 else 0, depth := current.depth + 1 }) := by
  unfold prepare_plus_include
  simp only [plus_scan_loop_bare key.data.tail hb _ (key.data.tail.length + 2) 0
    (Nat.zero_le _) (by omega)]
  simp [cstring_at_zero]

/-- The test of `check_self_include` is the test of the specification, made on
the whole text after the `+`. -/
theorem check_self_include_iff (key : String) (ctxt : lookup_context) :
    check_self_include key ctxt ≠ 0 ↔ resolves_to_map key.data.tail ctxt.mapname.data := by
  unfold check_self_include resolves_to_map
  by_cases h1 : key.data.tail.head? = some '/'
  · rw [if_pos h1]
    by_cases h2 : key.data.tail = ctxt.mapname.data
    · rw [if_pos h2]
      exact ⟨fun _ => Or.inl ⟨h1, h2⟩, fun _ => by decide⟩
    · rw [if_neg h2]
      refine ⟨fun h => absurd rfl h, ?_⟩
      rintro (⟨_, h⟩ | ⟨h, _⟩)
      · exact absurd h h2
      · exact absurd h1 h
  · rw [if_neg h1]
    by_cases h2 : basename ctxt.mapname.data = basename key.data.tail
    · rw [if_pos h2]
      exact ⟨fun _ => Or.inr ⟨h1, h2.symm⟩, fun _ => by decide⟩
    · rw [if_neg h2]
      refine ⟨fun h => absurd rfl h, ?_⟩
      rintro (⟨h, _⟩ | ⟨_, h⟩)
      · exact absurd h h1
      · exact absurd h.symm h2

/-- The test of `check_master_self_include` is the test of the specification,
made on the whole payload. -/
theorem check_master_self_include_iff (m : master) (ctxt : lookup_context) :
    check_master_self_include m ctxt ≠ 0 ↔ resolves_to_map m.name.data ctxt.mapname.data := by
  unfold check_master_self_include resolves_to_map
  by_cases h1 : m.name.data.head? = some '/'
  · rw [if_pos h1]
    by_cases h2 : m.name = ctxt.mapname
    · rw [if_pos h2]
      exact ⟨fun _ => Or.inl ⟨h1, congrArg String.data h2⟩, fun _ => by decide⟩
    · rw [if_neg h2]
      refine ⟨fun h => absurd rfl h, ?_⟩
      rintro (⟨_, h⟩ | ⟨h, _⟩)
      · exact absurd (String.ext h) h2
      · exact absurd h1 h
  · rw [if_neg h1]
    by_cases h2 : basename m.name.data = basename ctxt.mapname.data
    · rw [if_pos h2]
      exact ⟨fun _ => Or.inr ⟨h1, h2⟩, fun _ => by decide⟩
    · rw [if_neg h2]
      refine ⟨fun h => absurd rfl h, ?_⟩
      rintro (⟨h, _⟩ | ⟨_, h⟩)
      · exact absurd h h1
      · exact absurd h h2

/-- C14 (self-include detection), counterexample: the directive
`+file:auto.master` read from `/etc/auto.master` names the map `auto.master`
(the argument `prepare_plus_include` hands on), which is not absolute and has
the basename of `/etc/auto.master`, yet `check_self_include` answers 0 and the
source is added with the recursion guard clear. -/
theorem self_include_typed_payload :
    (prepare_plus_include ⟨0, 0⟩ 0 "+file:auto.master"
        (check_self_include "+file:auto.master" ⟨"/etc/auto.master", 0⟩))
      = some ({ type := some "file", format := none, age := 0, argv := ["auto.master"],
                freed := false },
              { recurse := 0, depth := 1 }) ∧
    resolves_to_map "auto.master".data "/etc/auto.master".data := by
  refine ⟨by decide, Or.inr ⟨by decide, by decide⟩⟩

/-- C14 (self-include detection), amended: the recursion guard follows the
test of the specification made on the whole payload after the `+`, type and
format prefix included.  `check_self_include` and `check_master_self_include`
answer non-zero exactly when the payload is absolute and equal to the path of
the map, or not absolute with the basename of the path of the map; the source
that `prepare_plus_include` adds has `recurse = 1` exactly then; and for a
payload that is a bare name the source names that payload, so the test is the
one on the name. -/
theorem self_include_payload (key : String) (m : master) (ctxt : lookup_context)
    (current : include_guard) (age : Int) :
    (check_self_include key ctxt ≠ 0 ↔ resolves_to_map key.data.tail ctxt.mapname.data) ∧
    (check_master_self_include m ctxt ≠ 0 ↔ resolves_to_map m.name.data ctxt.mapname.data) ∧
    (∀ source guard,
      prepare_plus_include current age key (check_self_include key ctxt) = some (source, guard) →
      (guard.recurse = 1 ↔ resolves_to_map key.data.tail ctxt.mapname.data)) ∧
    (bare_name key.data.tail →
      ∃ guard,
        prepare_plus_include current age key (check_self_include key ctxt)
          = some ({ type := none, format := none, age := age,
                    argv := [String.mk key.data.tail], freed := false }, guard) ∧
        (guard.recurse = 1 ↔ resolves_to_map key.data.tail ctxt.mapname.data)) := by
  have hguard : ((if check_self_include key ctxt ≠ 0 then 1 else 0) = 1
      ↔ resolves_to_map key.data.tail ctxt.mapname.data) := by
    rw [← check_self_include_iff]
    by_cases h : check_self_include key ctxt = 0 <;> simp [h]
  refine ⟨check_self_include_iff key ctxt, check_master_self_include_iff m ctxt, ?_, ?_⟩
  · intro source guard h
    unfold prepare_plus_include at h
    dsimp only at h
    cases hs : plus_scan_loop key.data.tail (key.data.tail.length + 2) 0
        { type := false, fmt := none, map := 0, nuls := [] } with
    | none =>
      rw [hs] at h
      exact absurd h (by simp)
    | some sc =>
      rw [hs] at h
      simp only [Option.some.injEq, Prod.mk.injEq] at h
      rw [← h.2]
      exact hguard
  · intro hb
    exact ⟨_, prepare_plus_include_bare current age key _ hb, hguard⟩

/-- C14 at the directive of the specification: `+auto.master` read from
`/etc/auto.master` is a bare name, the source added names `auto.master`, and
its recursion guard is set exactly when the name resolves to the map. -/
theorem self_include_payload_witness :
    ∃ guard,
      prepare_plus_include ⟨0, 0⟩ 5 "+auto.master"
          (check_self_include "+auto.master" ⟨"/etc/auto.master", 0⟩)
        = some ({ type := none, format := none, age := 5,
                  argv := [String.mk "+auto.master".data.tail], freed := false }, guard) ∧
      (guard.recurse = 1 ↔
        resolves_to_map "+auto.master".data.tail
          (⟨"/etc/auto.master", 0⟩ : lookup_context).mapname.data) :=
  (self_include_payload "+auto.master" ⟨"auto.master", 1, 0, 600, []⟩ ⟨"/etc/auto.master", 0⟩
    ⟨0, 0⟩ 5).2.2.2 (by unfold bare_name; decide)

/-- The include cycle of the specification: `+auto.master` read from
`/etc/auto.master` makes `lookup_read_master` call the nested read with the
recursion guard set, and a read entered with the guard set answers `UNAVAIL`
without a call. -/
theorem self_include_auto_master :
    lookup_read_master (file_env_of "+auto.master\n" 0) ⟨"auto.master", 1, 0, 600, []⟩ ⟨0, 0⟩ 5
        ⟨"/etc/auto.master", 0⟩
      = some (.NSS_STATUS_SUCCESS, ⟨"/etc/auto.master", 7⟩,
          [file_call.fopen "/etc/auto.master",
           file_call.lookup_nss_read_master "auto.master" ⟨1, 1⟩ 5,
           file_call.fclose "/etc/auto.master"]) ∧
    lookup_read_master (file_env_of "+auto.master\n" 0) ⟨"auto.master", 1, 0, 600, []⟩ ⟨1, 1⟩ 5
        ⟨"/etc/auto.master", 0⟩
      = some (.NSS_STATUS_UNAVAIL, ⟨"/etc/auto.master", 0⟩, []) := by
  constructor
  · rfl
  · rfl

/-- C15 (include cycle, depth exceeded), the code at the guards: with the
recursion guard set all three entry points answer `UNAVAIL` without a call;
with the guard clear and the depth above `MAX_INCLUDE_DEPTH`,
`lookup_read_master` and `lookup_read_map` answer `UNAVAIL` without a call,
and `lookup_mount` answers `SUCCESS`. -/
theorem include_guard_statuses (env : file_env) (ap : autofs_point) (m : master)
    (name : String) (name_len : Nat) (age : Int) (ctxt : lookup_context) (s : file_state)
    (r depth extra : Nat) :
    lookup_read_master env m ⟨r + 1, depth⟩ age ctxt = some (.NSS_STATUS_UNAVAIL, ctxt, []) ∧
    lookup_read_map env ap ⟨r + 1, depth⟩ age ctxt s = some (.NSS_STATUS_UNAVAIL, ctxt, s) ∧
    lookup_mount env ap name name_len ctxt ⟨r + 1, depth⟩ s
      = some (.nss .NSS_STATUS_UNAVAIL, s) ∧
    lookup_read_master env m ⟨0, MAX_INCLUDE_DEPTH + 1 + extra⟩ age ctxt
      = some (.NSS_STATUS_UNAVAIL, ctxt, []) ∧
    lookup_read_map env ap ⟨0, MAX_INCLUDE_DEPTH + 1 + extra⟩ age ctxt s
      = some (.NSS_STATUS_UNAVAIL, ctxt, s) ∧
    lookup_mount env ap name name_len ctxt ⟨0, MAX_INCLUDE_DEPTH + 1 + extra⟩ s
      = some (.nss .NSS_STATUS_SUCCESS, s) := by
  have hd : MAX_INCLUDE_DEPTH + 1 + extra > MAX_INCLUDE_DEPTH := by omega
  refine ⟨?_, ?_, ?_, ?_, ?_, ?_⟩
  · simp [lookup_read_master]
  · simp [lookup_read_map]
  · simp [lookup_mount]
  · simp only [lookup_read_master, ne_eq, not_true_eq_false, if_false, hd, if_true]
  · simp only [lookup_read_map, ne_eq, not_true_eq_false, if_false, hd, if_true]
  · simp only [lookup_mount, ne_eq, not_true_eq_false, if_false, hd, if_true]

end File

/-! ## The file module: lookup -/

namespace File

/-- The loop of `lookup_one` only adds to the calls made. -/
theorem lookup_one_loop_log (env : file_env) (ap : autofs_point) (key : String)
    (key_len : Nat) (ctxt : lookup_context) (src : include_guard) (age : Int) :
    ∀ (fuel : Nat) (text : List Char) (s : file_state) (r : Nat) (t : file_state),
      lookup_one_loop env ap key key_len ctxt src age fuel text s = some (r, t) →
      s.log.length ≤ t.log.length := by
  intro fuel
  induction fuel with
  | zero =>
    intro text s r t h
    simp [lookup_one_loop] at h
  | succ fuel ih =>
    intro text s r t h
    rw [lookup_one_loop] at h
    dsimp only at h
    repeat' split at h
    all_goals first
      | (have hrec := ih _ _ _ _ h
         simp only [List.length_append, List.length_singleton] at hrec
         omega)
      | (simp only [Option.some.injEq, Prod.mk.injEq] at h
         rw [← h.2]
         simp only [List.length_append, List.length_singleton]
         omega)
      | cases h

/-- The loop of `lookup_wild` only adds to the calls made. -/
theorem lookup_wild_loop_log (env : file_env) (ctxt : lookup_context) (age : Int) :
    ∀ (fuel : Nat) (text : List Char) (s : file_state) (r : Nat) (t : file_state),
      lookup_wild_loop env ctxt age fuel text s = some (r, t) →
      s.log.length ≤ t.log.length := by
  intro fuel
  induction fuel with
  | zero =>
    intro text s r t h
    simp [lookup_wild_loop] at h
  | succ fuel ih =>
    intro text s r t h
    rw [lookup_wild_loop] at h
    dsimp only at h
    repeat' split at h
    all_goals first
      | (have hrec := ih _ _ _ _ h
         simp only [List.length_append, List.length_singleton] at hrec
         omega)
      | (simp only [Option.some.injEq, Prod.mk.injEq] at h
         rw [← h.2]
         simp only [List.length_append, List.length_singleton]
         omega)

/-- `lookup_one` makes at least one call (it opens the map file). -/
theorem lookup_one_log (env : file_env) (ap : autofs_point) (key : String) (key_len : Nat)
    (ctxt : lookup_context) (src : include_guard) (s : file_state) (r : Nat) (t : file_state)
    (h : lookup_one env ap key key_len ctxt src s = some (r, t)) :
    s.log.length < t.log.length := by
  unfold lookup_one at h
  dsimp only at h
  split at h
  · simp only [Option.some.injEq, Prod.mk.injEq] at h
    rw [← h.2]
    simp
  · have hrec := lookup_one_loop_log env ap key key_len ctxt src _ _ _ _ _ _ h
    simp only [List.length_append, List.length_singleton] at hrec
    omega

/-- `lookup_wild` only adds to the calls made. -/
theorem lookup_wild_log (env : file_env) (ctxt : lookup_context) (s : file_state) (r : Nat)
    (t : file_state) (h : lookup_wild env ctxt s = some (r, t)) :
    s.log.length ≤ t.log.length := by
  unfold lookup_wild at h
  dsimp only at h
  split at h
  · simp only [Option.some.injEq, Prod.mk.injEq] at h
    rw [← h.2]
    simp
  · have hrec := lookup_wild_loop_log env ctxt _ _ _ _ _ _ h
    simp only [List.length_append, List.length_singleton] at hrec
    omega

/-- The end of `check_map_indirect` only adds to the calls made. -/
theorem check_map_indirect_end_log (ap : autofs_point) (need_map : Bool) (ret : Nat)
    (s : file_state) :
    s.log.length ≤ (check_map_indirect_end ap need_map ret s).2.log.length := by
  unfold check_map_indirect_end
  dsimp only
  split <;> split <;> simp

/-- `check_map_indirect` makes at least one call. -/
theorem check_map_indirect_log (env : file_env) (ap : autofs_point) (key : String)
    (key_len : Nat) (ctxt : lookup_context) (src : include_guard) (s : file_state)
    (r : module_status) (t : file_state)
    (h : check_map_indirect env ap key key_len ctxt src s = some (r, t)) :
    s.log.length < t.log.length := by
  unfold check_map_indirect at h
  dsimp only at h
  cases h1 : lookup_one env ap key key_len ctxt src s with
  | none => rw [h1] at h; cases h
  | some p =>
    obtain ⟨ret, s1⟩ := p
    have hl := lookup_one_log env ap key key_len ctxt src s ret s1 h1
    rw [h1] at h
    dsimp only at h
    by_cases c1 : ret = CHE_COMPLETED
    · rw [if_pos c1] at h
      simp only [Option.some.injEq, Prod.mk.injEq] at h
      rw [← h.2]; exact hl
    · rw [if_neg c1] at h
      by_cases c2 : ret = CHE_FAIL
      · rw [if_pos c2] at h
        simp only [Option.some.injEq, Prod.mk.injEq] at h
        rw [← h.2]; exact hl
      · rw [if_neg c2] at h
        by_cases c3 : ret = CHE_MISSING
        · rw [if_pos c3] at h
          cases h2 : lookup_wild env ctxt s1 with
          | none => rw [h2] at h; cases h
          | some q =>
            obtain ⟨wild, s2⟩ := q
            have hw := lookup_wild_log env ctxt s1 wild s2 h2
            rw [h2] at h
            dsimp only at h
            have c4 : wild = CHE_COMPLETED ∨ CHE_UPDATED ≠ 0 ∨ CHE_OK ≠ 0 :=
              Or.inr (Or.inl (by decide))
            rw [if_pos c4] at h
            simp only [Option.some.injEq, Prod.mk.injEq] at h
            rw [← h.2]; omega
        · rw [if_neg c3] at h
          simp only [Option.some.injEq] at h
          have he := check_map_indirect_end_log ap
            (decide (ret &&& CHE_UPDATED ≠ 0) ||
              ((cache_lookup_distinct s.mc key).isSome && decide (ret &&& CHE_MISSING ≠ 0)))
            ret s1
          rw [h] at he
          exact Nat.lt_of_lt_of_le hl he

/-- When the indirect block of `lookup_mount` returns with a status, a call
has been made. -/
theorem mount_indirect_log (env : file_env) (ap : autofs_point) (key : String)
    (ctxt : lookup_context) (src : include_guard) (s : file_state) (st : module_status)
    (t : file_state) (h : mount_indirect env ap key ctxt src s = some (some st, t)) :
    s.log.length < t.log.length := by
  unfold mount_indirect at h
  split at h
  · dsimp only at h
    split at h
    · cases h
    · rename_i status s1 hc
      have hl := check_map_indirect_log env ap _ _ ctxt src s status s1 hc
      split at h
      · cases h
      · split at h
        · simp only [Option.some.injEq, Prod.mk.injEq] at h
          rw [← h.2]; exact hl
        · simp only [Option.some.injEq, Prod.mk.injEq] at h
          rw [← h.2]; exact hl
  · cases h

/-- The end of `lookup_mount` answers `TRYAGAIN` or `SUCCESS`. -/
theorem mount_parse_status (env : file_env) (key : String) (key_len : Nat) (s : file_state) :
    (mount_parse env key key_len s).1 = .nss .NSS_STATUS_TRYAGAIN ∨
    (mount_parse env key key_len s).1 = .nss .NSS_STATUS_SUCCESS := by
  unfold mount_parse
  dsimp only
  split
  · exact Or.inl rfl
  · split
    · exact Or.inl rfl
    · exact Or.inr rfl

/-- A write through the pointer of an entry shows in the lookup of its key,
when the write keeps the key. -/
theorem cache_lookup_distinct_write (f : mapent → mapent) (hf : ∀ me, (f me).key = me.key)
    (mc : mapent_cache) (key : String) :
    cache_lookup_distinct (mapent_write f mc key) key
      = (cache_lookup_distinct mc key).map f := by
  induction mc with
  | nil => rfl
  | cons me rest ih =>
    unfold cache_lookup_distinct at ih ⊢
    unfold mapent_write
    by_cases h : (me.key == key) = true
    · have h2 : ((f me).key == key) = true := by rw [hf]; exact h
      simp [h, h2, List.find?_cons]
    · have h3 : (me.key == key) = false := by simpa using h
      simp only [h3, Bool.false_eq_true, if_false, List.find?_cons]
      exact ih

/-- `cache_update` on a key without an entry appends the new entry. -/
theorem cache_update_absent (mc : mapent_cache) (key : String) (text : Option String)
    (now : Int) (h : cache_lookup_distinct mc key = none) :
    cache_update mc key text now
      = (CHE_UPDATED,
          mc ++ [{ key := key, mapent := text, age := now, status := 0, multi := none,
                   dev := -1, ino := -1 }]) := by
  simp only [cache_update, h]

/-- After `cache_update` on a key without an entry, the key has the new entry
as its own. -/
theorem cache_update_lookup (mc : mapent_cache) (key : String) (now : Int)
    (h : cache_lookup_distinct mc key = none) :
    cache_lookup_distinct (cache_update mc key none now).2 key
      = some { key := key, mapent := none, age := now, status := 0, multi := none,
               dev := -1, ino := -1 } := by
  rw [cache_update_absent mc key none now h]
  unfold cache_lookup_distinct at h ⊢
  rw [List.find?_append, h]
  simp [List.find?_cons]

/-- C16 (negative-cache window), counterexample: with the deadline of the
entry equal to the time of the lookup (both 100), `status > now` does not
hold, yet `lookup_mount` answers `NOTFOUND` without a call and without a
change of the cache. -/
theorem negative_window_at_deadline :
    ¬ ((negative_entry "alice" "srv:/a" 100).status > (file_env_of "alice srv:/a\n" 0).time 0) ∧
    lookup_mount (file_env_of "alice srv:/a\n" 0) (ghost_point "/home" 1) "alice" 5
        ⟨"/etc/auto.home", 0⟩ ⟨0, 0⟩ (file_state_of [negative_entry "alice" "srv:/a" 100])
      = some (.nss .NSS_STATUS_NOTFOUND,
          { mc := [negative_entry "alice" "srv:/a" 100], stale := 0, clock := 1, log := [] }) := by
  constructor
  · decide
  · rfl

/-- C16 (negative-cache window), amended: for a lookup that passes the
recursion, depth and length tests and a key whose own cache entry has the
negative deadline `status`, `lookup_mount` answers `NOTFOUND` without any call
(no map file opened, no wildcard read, no parser run) and with the cache
unchanged if and only if `status ≥ now`, where `now` is what `time(NULL)`
answers at the test. -/
theorem lookup_mount_negative_window (env : file_env) (ap : autofs_point) (name : String)
    (name_len : Nat) (ctxt : lookup_context) (src : include_guard) (s : file_state)
    (me : mapent)
    (hr : src.recurse = 0) (hd : src.depth ≤ MAX_INCLUDE_DEPTH)
    (hlen : name.length ≤ env.KEY_MAX_LEN)
    (hme : cache_lookup_distinct s.mc (mount_key env name) = some me) :
    (∃ t, lookup_mount env ap name name_len ctxt src s = some (.nss .NSS_STATUS_NOTFOUND, t) ∧
        t.log = s.log ∧ t.mc = s.mc) ↔ env.time s.clock ≤ me.status := by
  have hneg : mount_negative env (mount_key env name) s
      = (decide (me.status ≥ env.time s.clock), { s with clock := s.clock + 1 }) := by
    unfold mount_negative
    rw [hme]
  unfold lookup_mount
  rw [if_neg (by simp [hr]), if_neg (by omega)]
  dsimp only
  rw [if_neg (by omega), hneg]
  dsimp only
  by_cases hs : env.time s.clock ≤ me.status
  · have hdec : decide (me.status ≥ env.time s.clock) = true := by simpa using hs
    rw [hdec, if_pos rfl]
    exact ⟨fun _ => hs, fun _ => ⟨_, rfl, rfl, rfl⟩⟩
  · have hdec : decide (me.status ≥ env.time s.clock) = false := by simpa using hs
    rw [hdec, if_neg (by simp)]
    refine ⟨?_, fun h => absurd h hs⟩
    rintro ⟨t, h, hlog, _⟩
    cases hi : mount_indirect env ap (mount_key env name) ctxt src
        { s with clock := s.clock + 1 } with
    | none => rw [hi] at h; cases h
    | some p =>
      obtain ⟨o, s1⟩ := p
      rw [hi] at h
      cases o with
      | some st =>
        dsimp only at h
        simp only [Option.some.injEq, Prod.mk.injEq] at h
        have hl := mount_indirect_log env ap _ ctxt src _ st s1 hi
        rw [h.2, hlog] at hl
        exact absurd hl (Nat.lt_irrefl _)
      | none =>
        dsimp only at h
        simp only [Option.some.injEq] at h
        have hst := mount_parse_status env (mount_key env name) name.length s1
        rw [h] at hst
        rcases hst with hst | hst <;> cases hst

/-- C16 at a concrete cache: the deadline 105 of the entry of `alice` is not
before the time 100 of the lookup, and the lookup is answered from the
negative entry. -/
theorem lookup_mount_negative_window_witness :
    ∃ t, lookup_mount (file_env_of "alice srv:/a\n" 0) (ghost_point "/home" 1) "alice" 5
        ⟨"/etc/auto.home", 0⟩ ⟨0, 0⟩ (file_state_of [negative_entry "alice" "srv:/a" 105])
      = some (.nss .NSS_STATUS_NOTFOUND, t) ∧
      t.log = (file_state_of [negative_entry "alice" "srv:/a" 105]).log ∧
      t.mc = (file_state_of [negative_entry "alice" "srv:/a" 105]).mc :=
  (lookup_mount_negative_window (file_env_of "alice srv:/a\n" 0) (ghost_point "/home" 1)
    "alice" 5 ⟨"/etc/auto.home", 0⟩ ⟨0, 0⟩ (file_state_of [negative_entry "alice" "srv:/a" 105])
    (negative_entry "alice" "srv:/a" 105) rfl (by decide) (by decide) rfl).mpr (by decide)

/-- C17 (parse rejection): for a lookup that passes the recursion, depth and
length tests, is not answered from a negative entry and reaches the parser in
the state `s1` with the text `text` of the cached entry, a parser result other
than zero at the time `now` makes `lookup_mount` answer `TRYAGAIN` and leaves
the key with an entry of its own whose `status` is `now + NEGATIVE_TIMEOUT`,
and the parser result zero makes it answer `SUCCESS` with the cache as the
parser left it. -/
theorem lookup_mount_parse_rejection (env : file_env) (ap : autofs_point) (name : String)
    (name_len : Nat) (ctxt : lookup_context) (src : include_guard) (s s1 : file_state)
    (me : mapent) (text : String)
    (hr : src.recurse = 0) (hd : src.depth ≤ MAX_INCLUDE_DEPTH)
    (hlen : name.length ≤ env.KEY_MAX_LEN)
    (hneg : (mount_negative env (mount_key env name) s).1 = false)
    (hind : mount_indirect env ap (mount_key env name) ctxt src
      (mount_negative env (mount_key env name) s).2 = some (none, s1))
    (hme : env.cache_lookup s1.mc (mount_key env name) = some me)
    (htext : me.mapent = some text) (hne : text ≠ "") :
    ((env.parse_mount s1.mc (mount_key env name) name.length text).1 ≠ 0 →
      ∃ t e, lookup_mount env ap name name_len ctxt src s = some (.nss .NSS_STATUS_TRYAGAIN, t) ∧
        cache_lookup_distinct t.mc (mount_key env name) = some e ∧
        e.status = env.time s1.clock + env.NEGATIVE_TIMEOUT) ∧
    ((env.parse_mount s1.mc (mount_key env name) name.length text).1 = 0 →
      lookup_mount env ap name name_len ctxt src s
        = some (.nss .NSS_STATUS_SUCCESS,
            { s1 with mc := (env.parse_mount s1.mc (mount_key env name) name.length text).2,
                      log := s1.log ++
                        [file_call.parse_mount (mount_key env name) name.length text] })) := by
  have hlm : lookup_mount env ap name name_len ctxt src s
      = some (mount_parse env (mount_key env name) name.length s1) := by
    unfold lookup_mount
    rw [if_neg (by simp [hr]), if_neg (by omega)]
    dsimp only
    rw [if_neg (by omega), hneg, if_neg (by simp), hind]
  rw [hlm]
  unfold mount_parse
  simp only [hme, htext, hne, if_false]
  constructor
  · intro hp
    simp only [hp, ne_eq, not_false_eq_true, if_true]
    have hkeep : ∀ e : mapent,
        ({ e with status := env.time s1.clock + env.NEGATIVE_TIMEOUT } : mapent).key = e.key :=
      fun _ => rfl
    cases hc : cache_lookup_distinct
        (env.parse_mount s1.mc (mount_key env name) name.length text).2 (mount_key env name) with
    | none =>
      have he := cache_update_lookup _ (mount_key env name) (env.time s1.clock) hc
      refine ⟨_, { key := mount_key env name, mapent := none, age := env.time s1.clock,
                   status := env.time s1.clock + env.NEGATIVE_TIMEOUT, multi := none,
                   dev := -1, ino := -1 }, rfl, ?_, rfl⟩
      have hrv : (cache_update (env.parse_mount s1.mc (mount_key env name) name.length text).2
          (mount_key env name) none (env.time s1.clock)).1 ≠ CHE_FAIL := by
        rw [cache_update_absent _ _ _ _ hc]
        exact (by decide : CHE_UPDATED ≠ CHE_FAIL)
      simp only [hrv, ne_eq, not_false_eq_true, if_true]
      rw [cache_lookup_distinct_write _ hkeep, he]
      rfl
    | some e0 =>
      refine ⟨_, { e0 with status := env.time s1.clock + env.NEGATIVE_TIMEOUT }, rfl, ?_, rfl⟩
      have hok : CHE_OK ≠ CHE_FAIL := by decide
      simp only [hok, ne_eq, not_false_eq_true, if_true]
      rw [cache_lookup_distinct_write _ hkeep, hc]
      rfl
  · intro hp
    simp only [hp, ne_eq, not_true_eq_false, if_false]

/-- C17 at a concrete lookup: on a direct mount point the entry of
`/nfs/alice` reaches a parser that rejects it at time 101 (the second reading
of the clock), and the entry ends with the deadline 111. -/
theorem lookup_mount_parse_rejection_witness :
    ∃ t e, lookup_mount (file_env_of "" 1) direct_point "/nfs/alice" 10 ⟨"/etc/auto.direct", 0⟩
        ⟨0, 0⟩ (file_state_of [negative_entry "/nfs/alice" "srv:/a" 0])
      = some (.nss .NSS_STATUS_TRYAGAIN, t) ∧
      cache_lookup_distinct t.mc (mount_key (file_env_of "" 1) "/nfs/alice") = some e ∧
      e.status = 111 :=
  (lookup_mount_parse_rejection (file_env_of "" 1) direct_point "/nfs/alice" 10
    ⟨"/etc/auto.direct", 0⟩ ⟨0, 0⟩ (file_state_of [negative_entry "/nfs/alice" "srv:/a" 0])
    { mc := [negative_entry "/nfs/alice" "srv:/a" 0], stale := 0, clock := 1, log := [] }
    (negative_entry "/nfs/alice" "srv:/a" 0) "srv:/a"
    rfl (by decide) (by decide) (by decide) rfl rfl rfl (by decide)).1 (by decide)

end File

/-! ## The registry walks: legality, order and the submount tree -/

/-- The calls of the loop of `master_mount_mounts` are the calls for each
entry, in the order of the list. -/
theorem mount_mounts_loop_actions (env : Env) (age readall : Int) (l : List master_mapent) :
    (mount_mounts_loop env age readall l).2 = l.flatMap (entry_actions env age readall) := by
  induction l with
  | nil => rfl
  | cons e rest ih =>
    have h := mount_mounts_loop_append env age readall [e] rest
    rw [List.singleton_append] at h
    rw [h, List.flatMap_cons, ih]
    rfl

/-- C22 (ordering inside `master_mount_mounts`), counterexample: in the
registry with the surviving entry of `/mnt/b` before the stale entry of
`/mnt/a`, read at epoch 5 with `readall` set, the `ST_READMAP` written for
`/mnt/b` comes first and every `ST_SHUTDOWN_PENDING` written for `/mnt/a` and
its submounts comes after it. -/
theorem readmap_before_shutdown :
    stale_entry.age < 5 ∧ ¬ fresh_entry.age < 5 ∧
    (master_mount_mounts (const_env [] .NSS_STATUS_SUCCESS)
        (registry_of [fresh_entry, stale_entry]) 5 1).2.2
      = [Event.nextstate 6 states.ST_READMAP,
         Event.nextstate 10 states.ST_SHUTDOWN_PENDING,
         Event.nextstate 8 states.ST_SHUTDOWN_PENDING,
         Event.nextstate 12 states.ST_SHUTDOWN_PENDING,
         Event.nextstate 4 states.ST_SHUTDOWN_PENDING] := by
  decide

/-- C22 (ordering inside `master_mount_mounts`), amended: the registry is
walked once, in list order.  The calls of `master_mount_mounts` are the calls
for each entry one after the other in the order of the registry list, where
the calls for a stale entry (age below the epoch) are those of
`shutdown_entry` and the calls for a surviving entry are those of
`check_update_map_sources` followed by the worker launch when the state
channel is not open. -/
theorem mount_mounts_list_order (env : Env) (m : master) (age readall : Int) :
    (master_mount_mounts env m age readall).2.2
      = m.mounts.flatMap (entry_actions env age readall) ∧
    (∀ this : master_mapent, this.age < age →
      entry_actions env age readall this = shutdown_entry env this) ∧
    (∀ this : master_mapent, ¬ this.age < age →
      entry_actions env age readall this
        = (check_update_map_sources env this age readall).2 ++
          (if env.fstat (check_update_map_sources env this age readall).1.ap.state_pipe.2
              = fstat_result.EBADF
            then [Event.handle_mounts this.ap.path] else [])) := by
  refine ⟨mount_mounts_loop_actions env age readall m.mounts, ?_, ?_⟩
  · intro this h
    simp [entry_actions, mount_mounts_loop, h]
  · intro this h
    simp only [entry_actions, mount_mounts_loop, h, if_false, List.append_nil]
    congr 1
    split
    · simp [master_do_mount, check_update_map_sources]
    · rfl

/-- C22 at a concrete registry: with the stale entry of `/mnt/a` before the
surviving entry of `/mnt/b`, the calls for `/mnt/a` come first. -/
theorem mount_mounts_list_order_witness :
    entry_actions (const_env [] .NSS_STATUS_SUCCESS) 5 1 stale_entry
      = shutdown_entry (const_env [] .NSS_STATUS_SUCCESS) stale_entry :=
  (mount_mounts_list_order (const_env [] .NSS_STATUS_SUCCESS)
    (registry_of [stale_entry, fresh_entry]) 5 1).2.1 stale_entry (by decide)

/-- The source list after the loop of `check_update_map_sources`: every source
is still linked, the ones with `age` below the epoch marked as released. -/
theorem update_sources_loop_maps (ap : autofs_point) (age : Int) (l : List map_source)
    (i : Nat) (first : Option Nat) (map_stale : Bool) :
    (update_sources_loop ap age l i first map_stale).maps
      = l.map fun s => if s.age < age then { s with freed := true } else s := by
  induction l generalizing i first map_stale with
  | nil => rfl
  | cons s rest ih =>
    unfold update_sources_loop
    by_cases h1 : s.age < age
    · simp [h1, ih]
    · by_cases h2 : s.type = some "null"
      · simp [h1, h2, ih]
      · simp [h1, h2, ih]

/-- C23 (stale sources), the code on stale sources: after
`check_update_map_sources` the source list has the sources it had, in the same
order, each source with `age` below the epoch handed to
`master_free_map_source` and still linked.  For the entry of `/mnt/d` with a
source of epoch 4 before a source of epoch 5, read at epoch 5, the list keeps
both sources, the first one released, and `ST_READMAP` is written. -/
theorem stale_sources_stay_linked (env : Env) (entry : master_mapent) (age readall : Int) :
    (check_update_map_sources env entry age readall).1.maps
      = (entry.maps.map fun s => if s.age < age then { s with freed := true } else s) ∧
    (check_update_map_sources (const_env [] .NSS_STATUS_SUCCESS) entry_with_stale_source 5 0).1.maps
      = [{ source_of "file" 4 "/etc/auto.old" with freed := true },
         source_of "file" 5 "/etc/auto.new"] ∧
    (check_update_map_sources (const_env [] .NSS_STATUS_SUCCESS) entry_with_stale_source 5 0).2
      = [Event.master_free_map_source (some "file") none ["/etc/auto.old"],
         Event.nextstate 18 states.ST_READMAP] := by
  refine ⟨?_, by decide, by decide⟩
  simp only [check_update_map_sources]
  exact update_sources_loop_maps _ _ _ _ _ _

mutual
/-- The calls of `notify_submounts` are the writes to the transitive submounts
in post-order. -/
theorem notify_submounts_post_order (ap : autofs_point) (state : states) :
    notify_submounts ap state
      = (post_order ap).map fun p => Event.nextstate p.state_pipe.2 state := by
  match ap with
  | ⟨_, _, _, _, _, _, _, _, submounts⟩ =>
    simp only [notify_submounts, post_order]
    exact notify_submounts_loop_post_order submounts state
theorem notify_submounts_loop_post_order (l : List autofs_point) (state : states) :
    notify_submounts_loop l state
      = (post_order_list l).map fun p => Event.nextstate p.state_pipe.2 state := by
  match l with
  | [] => rfl
  | this :: rest =>
    have h1 := notify_submounts_post_order this state
    have h2 := notify_submounts_loop_post_order rest state
    rw [notify_submounts_loop, notify_submounts_if, h1, h2]
    simp only [post_order_list, List.map_append, List.map_cons, List.map_nil]
end

mutual
/-- The post-order lists the transitive submounts, each as often as it occurs
among them. -/
theorem post_order_perm (ap : autofs_point) :
    (post_order ap).Perm (transitive_submounts ap) := by
  match ap with
  | ⟨_, _, _, _, _, _, _, _, submounts⟩ =>
    simp only [post_order, transitive_submounts]
    exact post_order_list_perm submounts
theorem post_order_list_perm (l : List autofs_point) :
    (post_order_list l).Perm (transitive_submounts_list l) := by
  match l with
  | [] => exact List.Perm.refl _
  | this :: rest =>
    have h1 := post_order_perm this
    have h2 := post_order_list_perm rest
    simp only [post_order_list, transitive_submounts_list]
    have h3 : (post_order this ++ [this] ++ post_order_list rest).Perm
        (this :: (post_order this ++ post_order_list rest)) := by
      rw [List.append_assoc, List.singleton_append]
      exact List.perm_middle
    exact h3.trans (List.Perm.cons _ (List.Perm.append h1 h2))
end

mutual
/-- A transitive submount is a proper part of the mount point. -/
theorem transitive_submounts_sizeOf (ap : autofs_point) :
    ∀ p ∈ transitive_submounts ap, sizeOf p < sizeOf ap := by
  match ap with
  | ⟨_, _, _, _, _, _, _, _, submounts⟩ =>
    intro p hp
    simp only [transitive_submounts] at hp
    have h := transitive_submounts_list_sizeOf submounts p hp
    simp only [autofs_point.mk.sizeOf_spec]
    omega
theorem transitive_submounts_list_sizeOf (l : List autofs_point) :
    ∀ p ∈ transitive_submounts_list l, sizeOf p < sizeOf l := by
  match l with
  | [] =>
    intro p hp
    simp [transitive_submounts_list] at hp
  | this :: rest =>
    intro p hp
    simp only [transitive_submounts_list, List.mem_cons, List.mem_append] at hp
    simp only [List.cons.sizeOf_spec]
    rcases hp with rfl | hp | hp
    · omega
    · have := transitive_submounts_sizeOf this p hp
      omega
    · have := transitive_submounts_list_sizeOf rest p hp
      omega
end

/-- C24 (submount notification): `notify_submounts(ap, S)` is a total function
of the finite submount tree; its writes are the writes of `S` to the
transitive submounts of `ap` in depth-first post-order (each child after all of
its own descendants and before the subtree of its next sibling), one write for
each occurrence of a submount in the tree, and `ap` itself is not among the
mount points written to. -/
theorem notify_submounts_order (ap : autofs_point) (state : states) :
    notify_submounts ap state
      = ((post_order ap).map fun p => Event.nextstate p.state_pipe.2 state) ∧
    (post_order ap).Perm (transitive_submounts ap) ∧
    (notify_submounts ap state).length = (transitive_submounts ap).length ∧
    ap ∉ post_order ap := by
  refine ⟨notify_submounts_post_order ap state, post_order_perm ap, ?_, ?_⟩
  · rw [notify_submounts_post_order, List.length_map]
    exact (post_order_perm ap).length_eq
  · intro h
    have h1 := (post_order_perm ap).mem_iff.mp h
    exact absurd (transitive_submounts_sizeOf ap ap h1) (Nat.lt_irrefl _)

/-- The walk of `master_notify_state_change` for `SIGTERM` over entries none of
which is in `ST_INVAL`. -/
theorem notify_state_change_loop_sigterm (l : List master_mapent)
    (hinv : ∀ e ∈ l, e.ap.state ≠ states.ST_INVAL) :
    notify_state_change_loop SIGTERM l
      = ((l.filter fun e => decide (e.ap.state ≠ states.ST_SHUTDOWN)).flatMap
          (fun e => state_writes e.ap states.ST_SHUTDOWN_PENDING), notify_exit.completed) := by
  induction l with
  | nil => rfl
  | cons e rest ih =>
    have h0 := hinv e (List.mem_cons_self _ _)
    have ih1 := ih fun x hx => hinv x (List.mem_cons_of_mem _ hx)
    unfold notify_state_change_loop
    simp only [h0, if_false, if_true, ih1]
    by_cases hs : e.ap.state = states.ST_SHUTDOWN
    · simp [hs, List.filter_cons]
    · simp [hs, List.filter_cons, state_writes, List.flatMap_cons, notify_submounts_post_order]

/-- The walk of `master_notify_state_change` for `SIGUSR2` over entries none of
which is in `ST_INVAL`. -/
theorem notify_state_change_loop_sigusr2 (l : List master_mapent)
    (hinv : ∀ e ∈ l, e.ap.state ≠ states.ST_INVAL) :
    notify_state_change_loop SIGUSR2 l
      = ((l.filter fun e => decide (e.ap.state ≠ states.ST_SHUTDOWN)).flatMap
          (fun e => state_writes e.ap states.ST_SHUTDOWN_FORCE), notify_exit.completed) := by
  have hsig : ¬ SIGUSR2 = SIGTERM := by decide
  induction l with
  | nil => rfl
  | cons e rest ih =>
    have h0 := hinv e (List.mem_cons_self _ _)
    have ih1 := ih fun x hx => hinv x (List.mem_cons_of_mem _ hx)
    unfold notify_state_change_loop
    simp only [h0, if_false, if_true, ih1, hsig]
    by_cases hs : e.ap.state = states.ST_SHUTDOWN
    · simp [hs, List.filter_cons]
    · simp [hs, List.filter_cons, state_writes, List.flatMap_cons, notify_submounts_post_order]

/-- The walk of `master_notify_state_change` for `SIGUSR1` over entries none of
which is in `ST_INVAL`: `ST_PRUNE` is signalled to the entries met as long as
their mount point is in `ST_READY`, and the assertion ends the walk at the first
one that is not. -/
theorem notify_state_change_loop_sigusr1 (l : List master_mapent)
    (hinv : ∀ e ∈ l, e.ap.state ≠ states.ST_INVAL) :
    notify_state_change_loop SIGUSR1 l
      = ((l.takeWhile fun e => decide (e.ap.state = states.ST_READY)).flatMap
          (fun e => state_writes e.ap states.ST_PRUNE),
         if (l.all fun e => decide (e.ap.state = states.ST_READY)) = true
         then notify_exit.completed else notify_exit.assertion_failed) := by
  have h1 : ¬ SIGUSR1 = SIGTERM := by decide
  have h2 : ¬ SIGUSR1 = SIGUSR2 := by decide
  induction l with
  | nil => rfl
  | cons e rest ih =>
    have h0 := hinv e (List.mem_cons_self _ _)
    have ih1 := ih fun x hx => hinv x (List.mem_cons_of_mem _ hx)
    unfold notify_state_change_loop
    simp only [h0, if_false, if_true, ih1, h1, h2]
    by_cases hr : e.ap.state = states.ST_READY
    · simp [hr, List.takeWhile_cons, List.flatMap_cons, state_writes,
        notify_submounts_post_order]
    · simp [hr, List.takeWhile_cons]

/-- The loop of `check_update_map_sources` finds the sources changed when it is
entered with `map_stale` set or meets a source with an `age` below the epoch or
of the type `null`, and it writes to no state channel. -/
theorem update_sources_loop_stale (ap : autofs_point) (age : Int) (l : List map_source)
    (i : Nat) (first : Option Nat) (map_stale : Bool) :
    (update_sources_loop ap age l i first map_stale).map_stale
      = (map_stale || l.any fun s => decide (s.age < age) || decide (s.type = some "null")) ∧
    ∀ fd st, Event.nextstate fd st ∉ (update_sources_loop ap age l i first map_stale).events := by
  induction l generalizing i first map_stale with
  | nil => simp [update_sources_loop]
  | cons s rest ih =>
    unfold update_sources_loop
    by_cases h1 : s.age < age
    · obtain ⟨ha, hb⟩ := ih (i + 1) first true
      simp only [h1, if_true]
      refine ⟨?_, ?_⟩
      · simp [ha, h1]
      · intro fd st hmem
        rcases List.mem_cons.mp hmem with h | h
        · cases h
        · exact hb fd st h
    · by_cases h2 : s.type = some "null"
      · obtain ⟨ha, hb⟩ := ih (i + 1) (if rest.isEmpty then none else some (i + 1)) true
        simp only [h1, if_false, h2, if_true]
        refine ⟨?_, ?_⟩
        · simp only [ha]
          simp [h2]
        · intro fd st hmem
          rcases List.mem_cons.mp hmem with h | h
          · cases h
          · exact hb fd st h
      · obtain ⟨ha, hb⟩ := ih (i + 1) first map_stale
        simp only [h1, if_false, h2]
        refine ⟨?_, hb⟩
        simp [ha, h1, h2]

/-- C21 (legality of the emitted transitions), counterexample: for an entry
whose mount point is in `ST_EXPIRE` (epoch of the entry 5, epoch of the read
6) `shutdown_entry` writes `ST_SHUTDOWN_PENDING` to the state channel of the
mount point, and so does `master_notify_state_change` on `SIGTERM`; neither
looks for `ST_READY`. -/
theorem shutdown_written_in_expire :
    expiring_entry.ap.state = states.ST_EXPIRE ∧
    shutdown_entry (const_env [] .NSS_STATUS_SUCCESS) expiring_entry
      = [Event.nextstate 16 states.ST_SHUTDOWN_PENDING] ∧
    master_notify_state_change (registry_of [expiring_entry]) SIGTERM
      = ([Event.nextstate 16 states.ST_SHUTDOWN_PENDING], notify_exit.completed) := by
  decide

/-- C21 (legality of the emitted transitions), amended: what the writers write,
and the only tests of the current state they make.  In a registry none of
whose mount points is in `ST_INVAL`, `master_notify_state_change` writes
`ST_SHUTDOWN_PENDING` on `SIGTERM` and `ST_SHUTDOWN_FORCE` on `SIGUSR2` for
every entry whose mount point is not in `ST_SHUTDOWN`, in registry order, and
on `SIGUSR1` it writes `ST_PRUNE` for the entries it meets as long as their
mount point is in `ST_READY`, the assertion ending the walk at the first one
that is not.  The writes for an entry go to the state channel of every
transitive submount of its mount point, whatever the state of the submount, and
then to the state channel of the mount point.  `shutdown_entry` makes these
writes of `ST_SHUTDOWN_PENDING` exactly when the state channel of the mount point
is open, and the only write of `check_update_map_sources` to a state channel is
`ST_READMAP` to that of the mount point, made exactly when the sources have
changed and the channel is open: neither looks at a state. -/
theorem notify_state_change_tests (m : master)
    (hinv : ∀ e ∈ m.mounts, e.ap.state ≠ states.ST_INVAL) :
    master_notify_state_change m SIGTERM
      = ((m.mounts.filter fun e => decide (e.ap.state ≠ states.ST_SHUTDOWN)).flatMap
          (fun e => state_writes e.ap states.ST_SHUTDOWN_PENDING), notify_exit.completed) ∧
    master_notify_state_change m SIGUSR2
      = ((m.mounts.filter fun e => decide (e.ap.state ≠ states.ST_SHUTDOWN)).flatMap
          (fun e => state_writes e.ap states.ST_SHUTDOWN_FORCE), notify_exit.completed) ∧
    master_notify_state_change m SIGUSR1
      = ((m.mounts.takeWhile fun e => decide (e.ap.state = states.ST_READY)).flatMap
          (fun e => state_writes e.ap states.ST_PRUNE),
         if (m.mounts.all fun e => decide (e.ap.state = states.ST_READY)) = true
         then notify_exit.completed else notify_exit.assertion_failed) ∧
    (∀ (ap p : autofs_point) (next : states), p ∈ transitive_submounts ap →
      Event.nextstate p.state_pipe.2 next ∈ state_writes ap next) ∧
    (∀ (ap : autofs_point) (next : states),
      Event.nextstate ap.state_pipe.2 next ∈ state_writes ap next ∧
      (state_writes ap next).length = (transitive_submounts ap).length + 1) ∧
    (∀ (env : Env) (e : master_mapent),
      shutdown_entry env e
        = if env.fstat e.ap.state_pipe.2 = fstat_result.ok
          then state_writes e.ap states.ST_SHUTDOWN_PENDING else []) ∧
    (∀ (env : Env) (e : master_mapent) (age readall : Int) (fd : Int) (st : states),
      Event.nextstate fd st ∈ (check_update_map_sources env e age readall).2 ↔
        fd = e.ap.state_pipe.2 ∧ st = states.ST_READMAP ∧
        sources_changed e age readall = true ∧
        env.fstat e.ap.state_pipe.2 = fstat_result.ok) := by
  refine ⟨notify_state_change_loop_sigterm m.mounts hinv,
    notify_state_change_loop_sigusr2 m.mounts hinv,
    notify_state_change_loop_sigusr1 m.mounts hinv, ?_, ?_, ?_, ?_⟩
  · intro ap p next hp
    have hmem : p ∈ post_order ap := (post_order_perm ap).mem_iff.mpr hp
    unfold state_writes
    exact List.mem_append_left _ (List.mem_map.mpr ⟨p, hmem, rfl⟩)
  · intro ap next
    refine ⟨?_, ?_⟩
    · unfold state_writes
      exact List.mem_append_right _ (List.mem_singleton.mpr rfl)
    · unfold state_writes
      rw [List.length_append, List.length_map, (post_order_perm ap).length_eq]
      rfl
  · intro env e
    unfold shutdown_entry state_writes
    by_cases hf : env.fstat e.ap.state_pipe.2 = fstat_result.ok
    · simp [hf, notify_submounts_post_order]
    · simp [hf]
  · intro env e age readall fd st
    obtain ⟨ha, hb⟩ := update_sources_loop_stale e.ap age e.maps 0 e.first (decide (readall ≠ 0))
    simp only [check_update_map_sources, List.mem_append]
    constructor
    · intro h
      rcases h with h | h
      · exact absurd h (hb fd st)
      · rw [ha] at h
        by_cases hc : sources_changed e age readall = true
        · unfold sources_changed at hc
          rw [hc] at h
          by_cases hf : env.fstat e.ap.state_pipe.2 = fstat_result.ok
          · simp only [if_true, hf, ne_eq, not_true_eq_false, if_false, List.mem_singleton,
              Event.nextstate.injEq] at h
            exact ⟨h.1, h.2, by unfold sources_changed; exact hc, hf⟩
          · simp [hf] at h
        · unfold sources_changed at hc
          simp only [Bool.not_eq_true] at hc
          rw [hc] at h
          simp at h
    · rintro ⟨rfl, rfl, hc, hf⟩
      right
      unfold sources_changed at hc
      rw [ha, hc]
      simp [hf]

/-- C21 at a concrete registry: with the entries of `/mnt/b` (in `ST_READY`)
and `/mnt/f` (in `ST_EXPIRE`, with the submount `/mnt/f/s` in `ST_INIT`),
`SIGTERM` writes `ST_SHUTDOWN_PENDING` to the state channels of `/mnt/b`, of the
submount and of `/mnt/f`. -/
theorem notify_state_change_tests_witness :
    master_notify_state_change (registry_of [fresh_entry, expiring_entry_with_submount]) SIGTERM
      = ([Event.nextstate 6 states.ST_SHUTDOWN_PENDING,
          Event.nextstate 22 states.ST_SHUTDOWN_PENDING,
          Event.nextstate 20 states.ST_SHUTDOWN_PENDING], notify_exit.completed) :=
  (notify_state_change_tests (registry_of [fresh_entry, expiring_entry_with_submount])
    (by decide)).1

/-- The calls of `master_read_master` on `master_mutex`. -/
theorem read_master_mutex (env : Env) (read : master → Int → Int × master) (unheld : Int)
    (m : master) (age readall : Int) :
    (master_read_master env read unheld m age readall).mutex
      = if (read m age).1 = 0 then []
        else if unheld ≠ 0 then [mutex_call.lock, mutex_call.unlock, mutex_call.unlock]
        else [mutex_call.lock, mutex_call.unlock, mutex_call.unlock, mutex_call.unlock] := by
  unfold master_read_master
  dsimp only
  split
  · rfl
  · split
    · rfl
    · split <;> rfl

/-- C25 (single unlock), the code after a successful read of the master map:
`master_read_master` makes one `lock` call on `master_mutex` (inside
`master_mount_mounts`) and then unlocks it three times when unlocking a mutex
that is not held answers 0, and twice before `fatal` otherwise; in both cases
the mutex is unlocked while it is not held. -/
theorem read_master_unlocks (env : Env) (filled m : master) (age readall : Int)
    (unheld : Int) :
    (master_read_master env (fun _ _ => (1, filled)) 0 m age readall).mutex
      = [mutex_call.lock, mutex_call.unlock, mutex_call.unlock, mutex_call.unlock] ∧
    lock_count (master_read_master env (fun _ _ => (1, filled)) unheld m age readall).mutex
      = 1 ∧
    2 ≤ unlock_count
      (master_read_master env (fun _ _ => (1, filled)) unheld m age readall).mutex ∧
    unlocks_held (master_read_master env (fun _ _ => (1, filled)) unheld m age readall).mutex 0
      = false := by
  have h1 : ¬ ((1 : Int) = 0) := by decide
  simp only [read_master_mutex, h1, if_false, ne_eq, not_true_eq_false]
  refine ⟨trivial, ?_, ?_, ?_⟩
  · by_cases h : unheld = 0
    · simp only [h, not_true_eq_false, if_false]; rfl
    · simp only [h, not_false_eq_true, if_true]; rfl
  · by_cases h : unheld = 0
    · simp only [h, not_true_eq_false, if_false]; decide
    · simp only [h, not_false_eq_true, if_true]; decide
  · by_cases h : unheld = 0
    · simp only [h, not_true_eq_false, if_false]; rfl
    · simp only [h, not_false_eq_true, if_true]; rfl

/-- C28 (direct and indirect mount points), the code on a path whose second
character is a dash: `master_add_autofs_point` gives the new mount point the
type `LKP_DIRECT` for every such path, for instance for the path made of a
slash, a dash and `data`, which is not the direct-mount path (a slash and a
dash alone). -/
theorem add_autofs_point_dash (g : master_globals) (entry : master_mapent)
    (timeout logopt ghost submount : Nat) (c : Char) (rest : List Char) :
    (master_add_autofs_point g { entry with path := String.mk (c :: '-' :: rest) }
        timeout logopt ghost submount).map (fun r => r.2.ap.type) = some LKP_DIRECT ∧
    (master_add_autofs_point g { entry with path := "/-data" }
        timeout logopt ghost submount).map (fun r => r.2.ap.type) = some LKP_DIRECT ∧
    (master_add_autofs_point g { entry with path := "/data" }
        timeout logopt ghost submount).map (fun r => r.2.ap.type) = some LKP_INDIRECT :=
  ⟨rfl, rfl, rfl⟩

/-! ## The lookups of the modules: wildcard, key buffer, record selection -/

namespace File

/-- When the key is missing from the map file, `check_map_indirect` returns
`SUCCESS` right after `lookup_wild`, whatever `lookup_wild` answers. -/
theorem check_map_indirect_missing (env : file_env) (ap : autofs_point) (key : String)
    (key_len : Nat) (ctxt : lookup_context) (src : include_guard) (s s1 s2 : file_state)
    (wild : Nat)
    (h1 : lookup_one env ap key key_len ctxt src s = some (CHE_MISSING, s1))
    (h2 : lookup_wild env ctxt s1 = some (wild, s2)) :
    check_map_indirect env ap key key_len ctxt src s
      = some (.nss .NSS_STATUS_SUCCESS, s2) := by
  unfold check_map_indirect
  simp only [h1, h2]
  have c1 : ¬ CHE_MISSING = CHE_COMPLETED := by decide
  have c2 : ¬ CHE_MISSING = CHE_FAIL := by decide
  have c3 : wild = CHE_COMPLETED ∨ CHE_UPDATED ≠ 0 ∨ CHE_OK ≠ 0 := Or.inr (Or.inl (by decide))
  simp only [c1, c2, c3, if_false, if_true]

/-- C26 (wildcard fallback), the code on a map file that has neither the key
nor the wildcard: for the key `alice` and the map text `bob srv:/b`, with
entries for `*` and `alice` in the cache, `lookup_one` and `lookup_wild` both
answer `CHE_MISSING`, and `check_map_indirect` returns `SUCCESS` with both
entries still in the cache. -/
theorem wildcard_missing_success :
    (lookup_one (file_env_of "bob srv:/b\n" 0) (ghost_point "/home" 1) "alice" 5
        ⟨"/etc/auto.home", 0⟩ ⟨0, 0⟩
        (file_state_of [entry_with "*" "srv:/&", entry_with "alice" "srv:/a"])).map Prod.fst
      = some CHE_MISSING ∧
    ((lookup_one (file_env_of "bob srv:/b\n" 0) (ghost_point "/home" 1) "alice" 5
        ⟨"/etc/auto.home", 0⟩ ⟨0, 0⟩
        (file_state_of [entry_with "*" "srv:/&", entry_with "alice" "srv:/a"])).bind
      fun r => (lookup_wild (file_env_of "bob srv:/b\n" 0) ⟨"/etc/auto.home", 0⟩ r.2).map
        Prod.fst)
      = some CHE_MISSING ∧
    check_map_indirect (file_env_of "bob srv:/b\n" 0) (ghost_point "/home" 1) "alice" 5
        ⟨"/etc/auto.home", 0⟩ ⟨0, 0⟩
        (file_state_of [entry_with "*" "srv:/&", entry_with "alice" "srv:/a"])
      = some (.nss .NSS_STATUS_SUCCESS,
          { mc := [entry_with "*" "srv:/&", entry_with "alice" "srv:/a"], stale := 0,
            clock := 2,
            log := [file_call.fopen "/etc/auto.home", file_call.fclose "/etc/auto.home",
                    file_call.fopen "/etc/auto.home", file_call.fclose "/etc/auto.home"] }) := by
  refine ⟨by rfl, by rfl, by rfl⟩

end File

/-- The name of `n` characters has `n` characters. -/
theorem long_name_length (n : Nat) : (long_name n).length = n := by
  simp [long_name, String.length]

/-- The key buffer for a name of `k + 1` characters with `KEY_MAX_LEN = k + 1`
holds `k` characters, and the value returned is `k + 1`. -/
theorem snprintf_long_name (k : Nat) :
    snprintf (k + 1) (long_name (k + 1)) = (long_name k, k + 1) := by
  have h : List.take k (List.replicate (k + 1) 'a') = List.replicate k 'a' := by
    rw [List.take_replicate, Nat.min_eq_left (Nat.le_succ k)]
  simp [snprintf, long_name, String.length, h]

/-- The first call of `lookup_one` of the YP module is `yp_match` on the key
and length it was given. -/
theorem yp_lookup_one_calls (env : Yp.yp_env) (key : String) (key_len : Nat) :
    ∃ tail, (Yp.lookup_one env key key_len).2 = Yp.yp_call.yp_match key key_len :: tail := by
  unfold Yp.lookup_one
  dsimp only
  split
  · split
    · exact ⟨[], rfl⟩
    · exact ⟨[], rfl⟩
  · exact ⟨_, rfl⟩

/-- The calls of `lookup_mount` of the YP module on an indirect mount point
start with the calls of `lookup_one` on the key buffer and the value of
`snprintf`, when that value passes the length test. -/
theorem yp_lookup_mount_calls (env : Yp.yp_env) (root name : String) (name_len : Nat)
    (hty : env.ap_type ≠ LKP_DIRECT)
    (hle : (snprintf env.KEY_MAX_LEN name).2 ≤ env.KEY_MAX_LEN) :
    (Yp.lookup_one env (snprintf env.KEY_MAX_LEN name).1 (snprintf env.KEY_MAX_LEN name).2).2
      <+: (Yp.lookup_mount env root name name_len).2 := by
  have hgt : ¬ ((snprintf env.KEY_MAX_LEN name).2 > env.KEY_MAX_LEN) := by omega
  unfold Yp.lookup_mount
  simp only [hty, if_false, hgt]
  generalize Yp.lookup_one env (snprintf env.KEY_MAX_LEN name).1
    (snprintf env.KEY_MAX_LEN name).2 = one
  repeat' split
  all_goals simp only [List.append_assoc, List.prefix_append, List.prefix_refl]

/-- The first call of `lookup_mount` of the NIS+ module on an indirect mount
point is `check_map_indirect` on the key buffer and the value of `snprintf`,
when that value passes the length test. -/
theorem nisplus_lookup_mount_calls (env : Nisplus.nisplus_env) (ap : autofs_point)
    (name : String) (name_len : Nat) (hty : ap.type = LKP_INDIRECT)
    (hle : (snprintf env.KEY_MAX_LEN name).2 ≤ env.KEY_MAX_LEN) :
    [Nisplus.nisplus_call.check_map_indirect (snprintf env.KEY_MAX_LEN name).1
        (snprintf env.KEY_MAX_LEN name).2]
      <+: (Nisplus.lookup_mount env ap name name_len).2 := by
  have hgt : ¬ ((snprintf env.KEY_MAX_LEN name).2 > env.KEY_MAX_LEN) := by omega
  unfold Nisplus.lookup_mount
  simp only [hty, if_true, if_false, hgt]
  repeat' split
  all_goals simp only [List.append_assoc, List.prefix_append, List.prefix_refl]

/-- The parser call of `lookup_mount` of the file module on a direct mount
point with an empty cache of its own, when `cache_lookup` finds the entry text
`srv:/x`: the parser is handed the key buffer and the length of the name. -/
theorem file_lookup_mount_parse_call (fenv : File.file_env) (k : Nat) (name : String)
    (name_len : Nat) (ctxt : File.lookup_context) (hlen : name.length ≤ k + 1) :
    (File.lookup_mount (File.short_key_env fenv k) File.direct_point name name_len ctxt ⟨0, 0⟩
        (File.file_state_of [])).map (fun r => r.2.log)
      = some [File.file_call.parse_mount (File.mount_key (File.short_key_env fenv k) name)
          name.length "srv:/x"] := by
  have hgt : ¬ (name.length > (File.short_key_env fenv k).KEY_MAX_LEN) := by
    simp only [File.short_key_env]; omega
  have hdir : ¬ (File.direct_point.type = LKP_INDIRECT ∧
      (File.mount_key (File.short_key_env fenv k) name).data.head? ≠ some '/') := by
    intro h
    exact absurd h.1 (by decide)
  have hneg : File.mount_negative (File.short_key_env fenv k)
      (File.mount_key (File.short_key_env fenv k) name) (File.file_state_of [])
      = (false, File.file_state_of []) := rfl
  have hx : ¬ ("srv:/x" = "") := by decide
  unfold File.lookup_mount
  simp only [ne_eq, not_true_eq_false, if_false, hgt, hneg, File.mount_indirect, hdir,
    Bool.false_eq_true, gt_iff_lt, Nat.not_lt_zero, File.MAX_INCLUDE_DEPTH]
  simp only [File.mount_parse]
  have hc : (File.short_key_env fenv k).cache_lookup (File.file_state_of []).mc
      (File.mount_key (File.short_key_env fenv k) name)
      = some (entry_with (File.mount_key (File.short_key_env fenv k) name) "srv:/x") := rfl
  simp only [hc, entry_with, hx, if_false]
  split <;> rfl

/-- C30 (key truncation), the code on a name of exactly `KEY_MAX_LEN`
characters (`KEY_MAX_LEN = k + 1`): the length test lets the name pass, the
key buffer holds the first `k` characters of it, and the key length passed on
is `k + 1`.  The file module hands this key and length to the parser, the NIS+
module to `check_map_indirect`, and the YP module to `yp_match`. -/
theorem lookup_mount_truncates (k : Nat) (fenv : File.file_env) (ctxt : File.lookup_context)
    (nenv : Nisplus.nisplus_env) (yenv : Yp.yp_env) (root : String) :
    (long_name k).length ≠ k + 1 ∧
    (File.lookup_mount (File.short_key_env fenv k) File.direct_point (long_name (k + 1)) (k + 1)
        ctxt ⟨0, 0⟩ (File.file_state_of [])).map (fun r => r.2.log)
      = some [File.file_call.parse_mount (long_name k) (k + 1) "srv:/x"] ∧
    (Nisplus.lookup_mount { nenv with KEY_MAX_LEN := k + 1 } (ghost_point "/home" 1)
        (long_name (k + 1)) (k + 1)).2.head?
      = some (Nisplus.nisplus_call.check_map_indirect (long_name k) (k + 1)) ∧
    (Yp.lookup_mount { yenv with KEY_MAX_LEN := k + 1, ap_type := LKP_INDIRECT } root
        (long_name (k + 1)) (k + 1)).2.head?
      = some (Yp.yp_call.yp_match (long_name k) (k + 1)) := by
  have hlen := long_name_length (k + 1)
  have hbuf := snprintf_long_name k
  refine ⟨by rw [long_name_length]; omega, ?_, ?_, ?_⟩
  · have hkey : File.mount_key (File.short_key_env fenv k) (long_name (k + 1)) = long_name k := by
      have h := congrArg Prod.fst hbuf
      simpa [snprintf, File.mount_key, File.short_key_env] using h
    rw [file_lookup_mount_parse_call fenv k (long_name (k + 1)) (k + 1) ctxt (by omega), hkey,
      hlen]
  · have h := nisplus_lookup_mount_calls { nenv with KEY_MAX_LEN := k + 1 }
      (ghost_point "/home" 1) (long_name (k + 1)) (k + 1) rfl (by simp only [hbuf]; omega)
    simp only [hbuf] at h
    obtain ⟨t, ht⟩ := h
    rw [← ht]
    rfl
  · have h := yp_lookup_mount_calls { yenv with KEY_MAX_LEN := k + 1, ap_type := LKP_INDIRECT }
      root (long_name (k + 1)) (k + 1) (by decide : LKP_INDIRECT ≠ LKP_DIRECT)
      (by simp only [hbuf]; omega)
    simp only [hbuf] at h
    obtain ⟨t, ht⟩ := h
    obtain ⟨u, hu⟩ := yp_lookup_one_calls
      { yenv with KEY_MAX_LEN := k + 1, ap_type := LKP_INDIRECT } (long_name k) (k + 1)
    rw [← ht, hu]
    rfl

namespace Hesiod

/-- The loop leaves its variables alone when no record has a priority below
`lowest_priority`. -/
theorem best_record_loop_unchanged (l : List String) (lowest : Int) (best : Option String)
    (h : ∀ x ∈ l, lowest ≤ record_priority x) :
    best_record_loop l lowest best = (lowest, best) := by
  induction l with
  | nil => rfl
  | cons a rest ih =>
    have ha := h a (List.mem_cons_self _ _)
    unfold best_record_loop
    rw [if_neg (by omega)]
    exact ih fun x hx => h x (List.mem_cons_of_mem _ hx)

/-- When some record has a priority below `lowest_priority`, the loop ends on
the first record of minimal priority. -/
theorem best_record_loop_first_min (l : List String) :
    ∀ (lowest : Int) (best : Option String), (∃ x ∈ l, record_priority x < lowest) →
      ∃ pre r post, l = pre ++ r :: post ∧
        best_record_loop l lowest best = (record_priority r, some r) ∧
        record_priority r < lowest ∧
        (∀ x ∈ pre, record_priority r < record_priority x) ∧
        (∀ x ∈ post, record_priority r ≤ record_priority x) := by
  induction l with
  | nil =>
    intro lowest best h
    obtain ⟨x, hx, _⟩ := h
    exact absurd hx (List.not_mem_nil x)
  | cons a rest ih =>
    intro lowest best h
    unfold best_record_loop
    by_cases ha : record_priority a < lowest
    · rw [if_pos ha]
      by_cases hr : ∃ x ∈ rest, record_priority x < record_priority a
      · obtain ⟨pre, r, post, hl, hres, hlt, hpre, hpost⟩ := ih (record_priority a) (some a) hr
        refine ⟨a :: pre, r, post, by rw [hl]; rfl, hres, by omega, ?_, hpost⟩
        intro x hx
        rcases List.mem_cons.mp hx with rfl | hx
        · exact hlt
        · exact hpre x hx
      · have hall : ∀ x ∈ rest, record_priority a ≤ record_priority x := by
          intro x hx
          by_contra hc
          exact hr ⟨x, hx, by omega⟩
        refine ⟨[], a, rest, rfl, best_record_loop_unchanged rest _ _ hall, ha, ?_, hall⟩
        intro x hx
        exact absurd hx (List.not_mem_nil x)
    · rw [if_neg ha]
      obtain ⟨x, hx, hxl⟩ := h
      have hx2 : x ∈ rest := by
        rcases List.mem_cons.mp hx with rfl | hx
        · exact absurd hxl ha
        · exact hx
      obtain ⟨pre, r, post, hl, hres, hlt, hpre, hpost⟩ := ih lowest best ⟨x, hx2, hxl⟩
      refine ⟨a :: pre, r, post, by rw [hl]; rfl, hres, hlt, ?_, hpost⟩
      intro y hy
      rcases List.mem_cons.mp hy with rfl | hy
      · omega
      · exact hpre y hy

/-- For records whose priorities are all below `INT_MAX`, `lookup_mount` hands
the parser the first record of minimal priority. -/
theorem lookup_mount_first_min (hes_resolve : String → Option (List String))
    (parse_mount : String → Nat → Option String → Int) (name : String) (name_len : Nat)
    (records : List String) (hres : hes_resolve name = some records) (hne : records ≠ [])
    (hp : ∀ x ∈ records, record_priority x < INT_MAX) :
    ∃ pre r post, records = pre ++ r :: post ∧
      lookup_mount hes_resolve parse_mount name name_len
        = hesiod_result.parsed (some r) (parse_mount name name_len (some r)) ∧
      (∀ x ∈ pre, record_priority r < record_priority x) ∧
      (∀ x ∈ post, record_priority r ≤ record_priority x) := by
  cases records with
  | nil => exact absurd rfl hne
  | cons a rest =>
    obtain ⟨pre, r, post, hl, hloop, _, hpre, hpost⟩ :=
      best_record_loop_first_min (a :: rest) INT_MAX none
        ⟨a, List.mem_cons_self _ _, hp a (List.mem_cons_self _ _)⟩
    refine ⟨pre, r, post, hl, ?_, hpre, hpost⟩
    unfold lookup_mount
    simp only [hres, hloop]

/-- C29 (hesiod record selection), the code on a record of priority
`INT_MAX`: for the single record `NFS /export srv w /mnt 2147483647` the
priority is `INT_MAX`, which is not below the initial `lowest_priority`, so
`best_record` stays `NULL` and the parser is handed no record. -/
theorem hesiod_best_record_absent (parse_mount : String → Nat → Option String → Int)
    (name : String) (name_len : Nat) :
    record_priority "NFS /export srv w /mnt 2147483647" = INT_MAX ∧
    lookup_mount (fun _ => some ["NFS /export srv w /mnt 2147483647"]) parse_mount name name_len
      = hesiod_result.parsed none (parse_mount name name_len none) := by
  constructor
  · decide
  · rfl

end Hesiod

/-! ## The file module: the payload of an inclusion line -/

namespace File

/-- The character in the middle of a buffer. -/
theorem get?_append_cons (pre : List Char) (c : Char) (post : List Char) :
    (pre ++ c :: post).get? pre.length = some c := by
  rw [List.get?_eq_getElem?, List.getElem?_append_right (Nat.le_refl _)]
  simp

/-- A run of characters that the payload scan does not look for is stepped
over one character at a time. -/
theorem plus_scan_loop_run (buf run : List Char) (hrun : bare_name run) :
    ∀ (pre post : List Char) (fuel fuel1 tmp : Nat) (s : plus_scan),
      buf = pre ++ (run ++ post) → tmp = pre.length → fuel = fuel1 + run.length →
      plus_scan_loop buf fuel tmp s = plus_scan_loop buf fuel1 (tmp + run.length) s := by
  induction run with
  | nil =>
    intro pre post fuel fuel1 tmp s _ _ hf
    simp only [List.length_nil, Nat.add_zero] at hf ⊢
    rw [hf]
  | cons c r ih =>
    intro pre post fuel fuel1 tmp s hb ht hf
    have hc := hrun c (List.mem_cons_self _ _)
    have hget : buf.get? tmp = some c := by
      rw [hb, ht]
      exact get?_append_cons pre c (r ++ post)
    have hlen : ¬ buf.length < tmp := by
      rw [hb, ht]
      simp
    have hne : ¬ (some c = some '\\') := by
      intro h
      exact hc.2.2.2 (Option.some.inj h)
    have hf1 : fuel = (fuel1 + r.length) + 1 := by
      rw [hf, List.length_cons]
      omega
    rw [hf1, plus_scan_loop]
    simp only [hlen, if_false, hget, hc.1, hc.2.1, hc.2.2.1, hne]
    have hrec := ih (fun x hx => hrun x (List.mem_cons_of_mem _ hx)) (pre ++ [c]) post
      (fuel1 + r.length) fuel1 (tmp + 1) s (by rw [hb]; simp) (by rw [ht]; simp) rfl
    rw [hrec, List.length_cons]
    congr 1
    omega

/-- The step of the payload scan at a comma that is followed by a character
other than a backslash. -/
theorem plus_scan_loop_comma (buf pre post : List Char) (c : Char) (hc : c ≠ '\\')
    (fuel tmp : Nat) (s : plus_scan) (hb : buf = pre ++ ',' :: c :: post)
    (ht : tmp = pre.length) :
    plus_scan_loop buf (fuel + 1) tmp s
      = plus_scan_loop buf fuel (tmp + 2)
          { s with type := true, fmt := some (tmp + 1), nuls := tmp :: s.nuls } := by
  have hget : buf.get? tmp = some ',' := by
    rw [hb, ht]
    exact get?_append_cons pre ',' (c :: post)
  have hget1 : buf.get? (tmp + 1) = some c := by
    have h := get?_append_cons (pre ++ [',']) c post
    rw [hb, ht]
    simpa using h
  have hlen : ¬ buf.length < tmp := by
    rw [hb, ht]
    simp
  have hne : ¬ (some c = some '\\') := fun h => hc (Option.some.inj h)
  have h1 : ¬ (',' = ' ') := by decide
  rw [plus_scan_loop]
  simp only [hlen, if_false, hget, h1, if_true, hget1, hne]

/-- The step of the payload scan at a colon that is followed by a character
other than a backslash. -/
theorem plus_scan_loop_colon (buf pre post : List Char) (c : Char) (hc : c ≠ '\\')
    (fuel tmp : Nat) (s : plus_scan) (hb : buf = pre ++ ':' :: c :: post)
    (ht : tmp = pre.length) :
    plus_scan_loop buf (fuel + 1) tmp s
      = plus_scan_loop buf fuel (tmp + 2)
          { s with type := if s.fmt.isNone then true else s.type, map := tmp + 1,
                   nuls := tmp :: s.nuls } := by
  have hget : buf.get? tmp = some ':' := by
    rw [hb, ht]
    exact get?_append_cons pre ':' (c :: post)
  have hget1 : buf.get? (tmp + 1) = some c := by
    have h := get?_append_cons (pre ++ [':']) c post
    rw [hb, ht]
    simpa using h
  have hlen : ¬ buf.length < tmp := by
    rw [hb, ht]
    simp
  have hne : ¬ (some c = some '\\') := fun h => hc (Option.some.inj h)
  have h1 : ¬ (':' = ' ') := by decide
  have h2 : ¬ (':' = ',') := by decide
  rw [plus_scan_loop]
  simp only [hlen, if_false, hget, h1, h2, if_true, hget1, hne]

/-- The payload scan ends at the terminating NUL. -/
theorem plus_scan_loop_end (buf : List Char) (fuel tmp : Nat) (s : plus_scan)
    (ht : tmp = buf.length) :
    plus_scan_loop buf (fuel + 1) tmp s = some s := by
  have hget : buf.get? tmp = none := by
    rw [ht]
    exact List.get?_eq_none.mpr (Nat.le_refl _)
  have hlen : ¬ buf.length < tmp := by omega
  rw [plus_scan_loop]
  simp only [hlen, if_false, hget]

/-- The numbered characters of a word that is followed by a NUL or by the end
of the buffer, up to the first NUL. -/
theorem takeWhile_enumFrom_word (nuls : List Nat) (w : List Char) :
    ∀ (post : List Char) (n : Nat),
      (∀ i ∈ nuls, i < n ∨ n + w.length ≤ i) → (post = [] ∨ n + w.length ∈ nuls) →
      (((List.enumFrom n (w ++ post)).takeWhile fun ic => !(nuls.contains ic.1)).map Prod.snd)
        = w := by
  induction w with
  | nil =>
    intro post n _ hend
    rcases hend with rfl | hmem
    · rfl
    · cases post with
      | nil => rfl
      | cons x xs =>
        have hm : n ∈ nuls := by simpa using hmem
        simp [List.enumFrom_cons, List.takeWhile_cons, hm]
  | cons c r ih =>
    intro post n hn hend
    have hnot : nuls.contains n = false := by
      have : n ∉ nuls := fun h => by
        rcases hn n h with h1 | h1
        · omega
        · simp only [List.length_cons] at h1; omega
      simpa using this
    have hrec := ih post (n + 1)
      (fun i hi => by
        rcases hn i hi with h1 | h1
        · exact Or.inl (by omega)
        · simp only [List.length_cons] at h1
          exact Or.inr (by omega))
      (by
        rcases hend with h | h
        · exact Or.inl h
        · simp only [List.length_cons] at h
          exact Or.inr (by rw [show n + 1 + r.length = n + (r.length + 1) by omega]; exact h))
    simp only [List.cons_append, List.enumFrom_cons, List.takeWhile_cons, hnot, Bool.not_false,
      if_true, List.map_cons, hrec]

/-- The numbered characters from an offset on. -/
theorem drop_enumFrom_append (pre rest : List Char) :
    ∀ n, (List.enumFrom n (pre ++ rest)).drop pre.length = List.enumFrom (n + pre.length) rest := by
  induction pre with
  | nil => intro n; rfl
  | cons c r ih =>
    intro n
    simp only [List.cons_append, List.enumFrom_cons, List.length_cons, List.drop_succ_cons, ih]
    congr 1
    omega

/-- The C string at the offset of a word that is followed by a NUL or by the
end of the buffer. -/
theorem cstring_at_word (buf pre w post : List Char) (nuls : List Nat) (p : Nat)
    (hb : buf = pre ++ (w ++ post)) (hp : p = pre.length)
    (hn : ∀ i ∈ nuls, i < p ∨ p + w.length ≤ i) (hend : post = [] ∨ p + w.length ∈ nuls) :
    cstring_at buf nuls p = String.mk w := by
  unfold cstring_at
  rw [hb, hp, List.enum, drop_enumFrom_append pre (w ++ post) 0, Nat.zero_add,
    takeWhile_enumFrom_word nuls w post pre.length (by rw [← hp]; exact hn)
      (by rw [← hp]; exact hend)]

/-- The parse of a payload with type, format and name. -/
theorem prepare_plus_include_full (current : include_guard) (age : Int) (inc : Nat)
    (type fmt name : List Char) (hf : fmt ≠ []) (hn : name ≠ [])
    (htc : bare_name type) (hfc : bare_name fmt) (hnc : bare_name name) :
    prepare_plus_include current age (String.mk ('+' :: (type ++ ',' :: (fmt ++ ':' :: name))))
        inc
      = some ({ type := some (String.mk type), format := some (String.mk fmt), age := age,
                argv := [String.mk name], freed := false },
              { recurse := if inc ≠ 0 then 1 else 0, depth := current.depth + 1 }) := by
  obtain ⟨f0, f, rfl⟩ := List.exists_cons_of_ne_nil hf
  obtain ⟨n0, n, rfl⟩ := List.exists_cons_of_ne_nil hn
  have hf0 := hfc f0 (List.mem_cons_self _ _)
  have hn0 := hnc n0 (List.mem_cons_self _ _)
  have hfr : bare_name f := fun x hx => hfc x (List.mem_cons_of_mem _ hx)
  have hnr : bare_name n := fun x hx => hnc x (List.mem_cons_of_mem _ hx)
  unfold prepare_plus_include
  simp only [List.tail_cons]
  generalize hbuf : type ++ ',' :: (f0 :: f ++ ':' :: n0 :: n) = buf
  have hlen : buf.length = type.length + f.length + n.length + 4 := by
    rw [← hbuf]
    simp only [List.length_append, List.length_cons]
    omega
  have hscan : plus_scan_loop buf (buf.length + 2) 0
      { type := false, fmt := none, map := 0, nuls := [] }
      = some { type := true, fmt := some (type.length + 1),
               map := type.length + f.length + 3,
               nuls := [type.length + f.length + 2, type.length] } := by
    rw [plus_scan_loop_run buf type htc [] (',' :: (f0 :: f ++ ':' :: n0 :: n))
        (buf.length + 2) (f.length + n.length + 6) 0 _ (by rw [← hbuf]; rfl) rfl
        (by rw [hlen]; omega),
      Nat.zero_add,
      plus_scan_loop_comma buf type (f ++ ':' :: n0 :: n) f0 hf0.2.2.2
        (f.length + n.length + 5) type.length _ (by rw [← hbuf]; rfl) rfl,
      plus_scan_loop_run buf f hfr (type ++ [',', f0]) (':' :: n0 :: n)
        (f.length + n.length + 5) (n.length + 5) (type.length + 2) _
        (by rw [← hbuf]; simp) (by simp) (by omega),
      plus_scan_loop_colon buf (type ++ ',' :: f0 :: f) n n0 hn0.2.2.2
        (n.length + 4) (type.length + 2 + f.length) _ (by rw [← hbuf]; simp)
        (by simp only [List.length_append, List.length_cons]; omega),
      plus_scan_loop_run buf n hnr (type ++ ',' :: f0 :: f ++ [':', n0]) []
        (n.length + 4) 4 (type.length + 2 + f.length + 2) _
        (by rw [← hbuf]; simp)
        (by simp only [List.length_append, List.length_cons, List.length_nil]; omega)
        (by omega),
      plus_scan_loop_end buf 3 _ _ (by rw [hlen]; omega)]
    simp only [Option.isNone_some, Bool.false_eq_true, if_false, Option.some.injEq,
      plus_scan.mk.injEq, true_and, List.cons.injEq, and_true]
    omega
  rw [hscan]
  have ht : cstring_at buf [type.length + f.length + 2, type.length] 0 = String.mk type :=
    cstring_at_word buf [] type (',' :: (f0 :: f ++ ':' :: n0 :: n)) _ 0
      (by rw [← hbuf]; rfl) rfl
      (by intro i hi; simp only [List.mem_cons, List.mem_singleton, List.not_mem_nil,
            or_false] at hi; omega)
      (Or.inr (by simp))
  have hfm : cstring_at buf [type.length + f.length + 2, type.length] (type.length + 1)
      = String.mk (f0 :: f) :=
    cstring_at_word buf (type ++ [',']) (f0 :: f) (':' :: n0 :: n) _ _
      (by rw [← hbuf]; simp) (by simp)
      (by intro i hi; simp only [List.mem_cons, List.mem_singleton, List.not_mem_nil,
            or_false, List.length_cons] at hi ⊢; omega)
      (Or.inr (by simp only [List.length_cons, List.mem_cons]; left; omega))
  have hnm : cstring_at buf [type.length + f.length + 2, type.length]
      (type.length + f.length + 3) = String.mk (n0 :: n) :=
    cstring_at_word buf (type ++ ',' :: f0 :: f ++ [':']) (n0 :: n) [] _ _
      (by rw [← hbuf]; simp)
      (by simp only [List.length_append, List.length_cons, List.length_nil]; omega)
      (by intro i hi; simp only [List.mem_cons, List.mem_singleton, List.not_mem_nil,
            or_false, List.length_cons] at hi ⊢; omega)
      (Or.inl rfl)
  simp only [ht, hfm, hnm, if_true, Option.map_some']

/-- The parse of a payload with type and name. -/
theorem prepare_plus_include_typed (current : include_guard) (age : Int) (inc : Nat)
    (type name : List Char) (hn : name ≠ [])
    (htc : bare_name type) (hnc : bare_name name) :
    prepare_plus_include current age (String.mk ('+' :: (type ++ ':' :: name))) inc
      = some ({ type := some (String.mk type), format := none, age := age,
                argv := [String.mk name], freed := false },
              { recurse := if inc ≠ 0 then 1 else 0, depth := current.depth + 1 }) := by
  obtain ⟨n0, n, rfl⟩ := List.exists_cons_of_ne_nil hn
  have hn0 := hnc n0 (List.mem_cons_self _ _)
  have hnr : bare_name n := fun x hx => hnc x (List.mem_cons_of_mem _ hx)
  unfold prepare_plus_include
  simp only [List.tail_cons]
  generalize hbuf : type ++ ':' :: n0 :: n = buf
  have hlen : buf.length = type.length + n.length + 2 := by
    rw [← hbuf]
    simp only [List.length_append, List.length_cons]
    omega
  have hscan : plus_scan_loop buf (buf.length + 2) 0
      { type := false, fmt := none, map := 0, nuls := [] }
      = some { type := true, fmt := none, map := type.length + 1, nuls := [type.length] } := by
    rw [plus_scan_loop_run buf type htc [] (':' :: n0 :: n)
        (buf.length + 2) (n.length + 4) 0 _ (by rw [← hbuf]; rfl) rfl
        (by rw [hlen]; omega),
      Nat.zero_add,
      plus_scan_loop_colon buf type n n0 hn0.2.2.2
        (n.length + 3) type.length _ (by rw [← hbuf]) rfl,
      plus_scan_loop_run buf n hnr (type ++ [':', n0]) []
        (n.length + 3) 3 (type.length + 2) _
        (by rw [← hbuf]; simp) (by simp) (by omega),
      plus_scan_loop_end buf 2 _ _ (by rw [hlen]; omega)]
    simp
  rw [hscan]
  have ht : cstring_at buf [type.length] 0 = String.mk type :=
    cstring_at_word buf [] type (':' :: n0 :: n) _ 0
      (by rw [← hbuf]; rfl) rfl
      (by intro i hi; simp only [List.mem_singleton] at hi; omega)
      (Or.inr (by simp))
  have hnm : cstring_at buf [type.length] (type.length + 1) = String.mk (n0 :: n) :=
    cstring_at_word buf (type ++ [':']) (n0 :: n) [] _ _
      (by rw [← hbuf]; simp) (by simp)
      (by intro i hi; simp only [List.mem_singleton] at hi; omega)
      (Or.inl rfl)
  simp only [ht, hnm, if_true, Option.map_none']

/-- C27 (inclusion payload), counterexample: a map name with a comma or a
colon in it is cut up.  The payload `file:a,b` (type `file`, name `a,b`) gives
the format `b` and the argument `a`; the payload `file:srv:map` gives the
argument `map`; and for the payload `file:` with an empty name the scan runs
past the end of the buffer. -/
theorem plus_include_name_cut :
    prepare_plus_include ⟨0, 0⟩ 0 "+file:a,b" 0
      = some ({ type := some "file", format := some "b", age := 0, argv := ["a"],
                freed := false }, ⟨0, 1⟩) ∧
    prepare_plus_include ⟨0, 0⟩ 0 "+file:srv:map" 0
      = some ({ type := some "file", format := none, age := 0, argv := ["map"],
                freed := false }, ⟨0, 1⟩) ∧
    prepare_plus_include ⟨0, 0⟩ 0 "+file:" 0 = none := by
  decide

/-- C27 (inclusion payload), amended: for every type and format free of comma,
colon, space and backslash, the format non-empty, and every map name that is
non-empty and free of comma, colon, space and backslash, the payload
`type,format:name` yields a map source with that type, that format and the
name as its only argument; `type:name` yields that type, no format and the
name; and a bare `name` (which may be empty) yields no type, no format and the
name. -/
theorem plus_include_payload (current : include_guard) (age : Int) (inc : Nat)
    (type fmt name : List Char) (hf : fmt ≠ []) (hn : name ≠ [])
    (htc : bare_name type) (hfc : bare_name fmt) (hnc : bare_name name) :
    prepare_plus_include current age (String.mk ('+' :: (type ++ ',' :: (fmt ++ ':' :: name))))
        inc
      = some ({ type := some (String.mk type), format := some (String.mk fmt), age := age,
                argv := [String.mk name], freed := false },
              { recurse := if inc ≠ 0 then 1 else 0, depth := current.depth + 1 }) ∧
    prepare_plus_include current age (String.mk ('+' :: (type ++ ':' :: name))) inc
      = some ({ type := some (String.mk type), format := none, age := age,
                argv := [String.mk name], freed := false },
              { recurse := if inc ≠ 0 then 1 else 0, depth := current.depth + 1 }) ∧
    prepare_plus_include current age (String.mk ('+' :: name)) inc
      = some ({ type := none, format := none, age := age,
                argv := [String.mk name], freed := false },
              { recurse := if inc ≠ 0 then 1 else 0, depth := current.depth + 1 }) :=
  ⟨prepare_plus_include_full current age inc type fmt name hf hn htc hfc hnc,
   prepare_plus_include_typed current age inc type name hn htc hnc,
   prepare_plus_include_bare current age (String.mk ('+' :: name)) inc hnc⟩

/-- C27 at the payloads `yp,sun:auto.home`, `yp:auto.home` and `auto.home`. -/
theorem plus_include_payload_witness :
    prepare_plus_include ⟨0, 0⟩ 5
        (String.mk ('+' :: ("yp".data ++ ',' :: ("sun".data ++ ':' :: "auto.home".data)))) 0
      = some ({ type := some (String.mk "yp".data), format := some (String.mk "sun".data),
                age := 5, argv := [String.mk "auto.home".data], freed := false },
              { recurse := if 0 ≠ 0 then 1 else 0, depth := (⟨0, 0⟩ : include_guard).depth + 1 }) ∧
    prepare_plus_include ⟨0, 0⟩ 5 (String.mk ('+' :: ("yp".data ++ ':' :: "auto.home".data))) 0
      = some ({ type := some (String.mk "yp".data), format := none,
                age := 5, argv := [String.mk "auto.home".data], freed := false },
              { recurse := if 0 ≠ 0 then 1 else 0, depth := (⟨0, 0⟩ : include_guard).depth + 1 }) ∧
    prepare_plus_include ⟨0, 0⟩ 5 (String.mk ('+' :: "auto.home".data)) 0
      = some ({ type := none, format := none,
                age := 5, argv := [String.mk "auto.home".data], freed := false },
              { recurse := if 0 ≠ 0 then 1 else 0, depth := (⟨0, 0⟩ : include_guard).depth + 1 }) :=
  plus_include_payload ⟨0, 0⟩ 5 0 "yp".data "sun".data "auto.home".data (by decide) (by decide)
    (by unfold bare_name; decide) (by unfold bare_name; decide) (by unfold bare_name; decide)

end File

end Autofs
